import Mathlib

/-!
# Verification of the miyagi canvas pack/unpack scripts

This file is a shallow embedding, in Lean 4, of the two core scripts of the
repository:

* the *packer* `CanvasStateGenerator` (tree → snapshot), embedded by the
  `pack…`/`load…`/`generateRoomSnapshot` definitions below, and
* the *unpacker* `CanvasStateUnpacker` (snapshot → tree, with BFS graph
  traversal and garbage collection), embedded by `processDocs`, `traverseCanvasGraph`
  and `run`.

Modelling conventions:

* JavaScript values that may be `undefined` are `Option` values; a JSON key
  whose value is `undefined` is dropped by `JSON.stringify`, so a written
  field equal to `none` models an absent key.
* JavaScript `a || b` on numbers treats `0` as falsy (`jsOrI`), on strings
  treats `""` as falsy (`jsOrS`); objects are always truthy.
* Opaque JSON blobs that the scripts copy through uninterpreted (`meta`,
  `schema`, `tombstones`, per-widget storage, global storage) are modelled by
  the opaque-blob type `Blob` (a string stand-in, never interpreted).
* Numbers are modelled as `Int` (the scripts only copy them or compare with
  `0` for truthiness).
* The file system is modelled as a flat association list from directory
  paths (lists of directory names, rooted at the repository root) to the
  directory's contents.  `rmSync(recursive)` is removal of every path that
  extends the removed one.
* The BFS loop of the unpacker is given explicit fuel; theorems about a
  completed run hypothesise that the loop drains its queue within the given
  fuel (`TravRes.done`), which is exactly the "a full unpack run" premise of
  the specification.  The state carries two write-only trace fields
  (`pops`, `pushed`) that record which room paths were dequeued/enqueued;
  they never influence the computation and exist only so that specification
  statements can speak about the traversal order.
* `process.exit(1)` outcomes are modelled by the numeric exit code returned
  by `run`.
-/

/-- Opaque JSON blob, passed through byte-for-byte by the scripts. -/
abbrev Blob := String

/-- The JSON text of an empty object, the default used by `x || \x7b\x7d`. -/
def emptyObj : Blob := "\x7b\x7d"

/-- JavaScript `a || b` for an optional number: `0` is falsy. -/
def jsOrI : Option Int → Option Int → Option Int
  | some n, b => if n = 0 then b else some n
  | none, b => b

/-- JavaScript `a || d` for an optional number with a plain default. -/
def jsOrIv (a : Option Int) (d : Int) : Int :=
  match a with
  | some n => if n = 0 then d else n
  | none => d

/-- JavaScript `n || d` on a number that is already present. -/
def jsNzOr (n d : Int) : Int := if n = 0 then d else n

/-- JavaScript `a || b` for an optional string: `""` is falsy. -/
def jsOrS : Option String → Option String → Option String
  | some s, b => if s = "" then b else some s
  | none, b => b

/-- JavaScript `a || d` for an optional string with a plain default. -/
def jsOrSv (a : Option String) (d : String) : String :=
  match a with
  | some s => if s = "" then d else s
  | none => d

/-- JavaScript truthiness of an optional string value. -/
def jsTruthyS : Option String → Bool
  | some s => s ≠ ""
  | none => false

/-- JavaScript `a || d` for an optional boolean (`false` is falsy, so the
result is `true` exactly when the value is present and `true`). -/
def jsOrBv (a : Option Bool) (d : Bool) : Bool :=
  match a with
  | some b => b || d
  | none => d

/-- JavaScript `a || b` for an optional object (objects are always truthy,
absence falls through). -/
def jsOrO {α : Type} : Option α → Option α → Option α
  | some v, _ => some v
  | none, b => b

/-- `s.startsWith(pre)` (implemented on character lists so that proofs can
evaluate it). -/
def strStarts (s pre : String) : Bool := List.isPrefixOf pre.data s.data

/-- Split a character list at the first occurrence of `pat`, returning the
part before and the part after the occurrence. -/
def splitFirstL (pat : List Char) : List Char → Option (List Char × List Char)
  | [] => none
  | c :: rest =>
    if List.isPrefixOf pat (c :: rest) then some ([], (c :: rest).drop pat.length)
    else
      match splitFirstL pat rest with
      | some (a, b) => some (c :: a, b)
      | none => none

/-- JavaScript `s.replace(pat, rep)`: replace the first occurrence of `pat`
(a plain string pattern) in `s` by `rep`; `s` is returned unchanged when
`pat` does not occur. -/
def replaceFirst (s pat rep : String) : String :=
  match splitFirstL pat.data s.data with
  | some (a, b) => String.mk (a ++ rep.data ++ b)
  | none => s

/-- Association-list lookup by key (first match), used for directory
listings and JSON object maps. -/
def alookup {α : Type} (l : List (String × α)) (k : String) : Option α :=
  match l with
  | [] => none
  | (k', v) :: rest => if k' = k then some v else alookup rest k

/-- `alookup` on a cons cell. -/
theorem alookup_cons {α : Type} (k' : String) (v : α) (rest : List (String × α)) (k : String) :
    alookup ((k', v) :: rest) k = if k' = k then some v else alookup rest k := rfl

/-! ## Packer data model (`CanvasStateGenerator`, revision 1)

The packer works on one room directory at a time.  Its inputs are the parsed
contents of `canvas-metadata.json`, `global-storage.json`, the `shape-*`
widget directories and the `canvas-link-info.json` descriptors of the
immediate `room-*` child directories.  A file that may be missing is an
outer `none`; a file that is present but fails to parse is `some none`. -/

/-- Fields of `canvas-metadata.json` that the packer reads
(`canvasMetadata?.…` accesses in `generateRoomSnapshot`). -/
structure PMetaCanvas where
  roomId : Option String
  canvasMode : Option String
  canvasName : Option String
  gridSize : Option Int
deriving DecidableEq

/-- One entry of the `pages` array of `canvas-metadata.json`. -/
structure PMetaPage where
  id : Option String
  name : Option String
  lastChangedClock : Option Int
deriving DecidableEq

/-- Parsed `canvas-metadata.json`, restricted to the fields the packer
reads. -/
structure PMeta where
  canvas : Option PMetaCanvas
  pages : List PMetaPage
  schema : Option Blob
  clock : Option Int
  documentClock : Option Int
  tombstones : Option Blob
  tombstoneHistoryStartsAtClock : Option Int
  canvasStorageClock : Option Int
deriving DecidableEq

/-- Parsed `properties.json` of one widget directory, restricted to the
fields `generateRoomSnapshot` reads. -/
structure PProps where
  shapeId : Option String
  id : Option String
  parentId : Option String
  index : Option String
  posX : Option Int
  posY : Option Int
  x : Option Int
  y : Option Int
  rotation : Option Int
  opacity : Option Int
  isLocked : Option Bool
  sizeW : Option Int
  sizeH : Option Int
  w : Option Int
  h : Option Int
  widgetId : Option String
  templateHandle : Option String
  color : Option String
  zoomScale : Option Int
  meta : Option Blob
  lastChangedClock : Option Int
deriving DecidableEq

/-- One `shape-*` widget directory as the packer sees it: the directory name
and the four optional files.  `props` and `storage` are parse results
(`some none` = present but malformed JSON). -/
structure PWDir where
  name : String
  props : Option (Option PProps)
  jsx : Option String
  html : Option String
  storage : Option (Option Blob)
deriving DecidableEq

/-- A widget successfully loaded by `loadWidget`. -/
structure LoadedW where
  shapeId : String
  properties : PProps
  jsxContent : String
  htmlContent : String
  storage : Blob
deriving DecidableEq

/-- Parsed `canvas-link-info.json` of a child room. -/
structure PLinkInfo where
  parentCanvasId : Option String
  linkShapeId : Option String
  posX : Option Int
  posY : Option Int
  sizeW : Option Int
  sizeH : Option Int
  label : Option String
  linkType : Option String
  parentId : Option String
  index : Option String
  rotation : Option Int
  opacity : Option Int
  isLocked : Option Bool
  meta : Option Blob
  lastChangedClock : Option Int
deriving DecidableEq

/-- `CanvasStateGenerator.loadWidget`: load one `shape-*` directory.
Returns `none` (widget skipped, with a warning) when `properties.json` is
missing or malformed, when either template file is missing or empty, or when
`storage.json` is present but malformed (the `JSON.parse` throw is caught by
the surrounding `try`). -/
def loadWidget (d : PWDir) : Option LoadedW :=
  let shapeId := replaceFirst d.name "shape-" "shape:"
  match d.props with
  | some (some p) =>
    if d.storage = some none then none
    else
      let jsxContent := (d.jsx).getD ""
      let htmlContent := (d.html).getD ""
      if jsxContent = "" ∨ htmlContent = "" then none
      else
        some { shapeId := shapeId
               properties := p
               jsxContent := jsxContent
               htmlContent := htmlContent
               storage := match d.storage with
                          | some (some b) => b
                          | _ => emptyObj }
  | _ => none

/-- The `shapeId` used as key into the room's widget-storage map
(`widget.properties?.shapeId || widget.properties?.id || widget.shapeId`). -/
def storageKeyOf (w : LoadedW) : String :=
  jsOrSv w.properties.shapeId (jsOrSv w.properties.id w.shapeId)

/-- Upsert into a JSON-object map: overwrite in place, else append. -/
def mapPut (l : List (String × Blob)) (k : String) (v : Blob) : List (String × Blob) :=
  match l with
  | [] => [(k, v)]
  | (k', v') :: rest => if k' = k then (k, v) :: rest else (k', v') :: mapPut rest k v

/-- `CanvasStateGenerator.loadRoomWidgets`: load every `shape-*` directory
in scan order, skipping incomplete widgets, and build the room's
widget-storage map. -/
def loadRoomWidgets (dirs : List PWDir) : List LoadedW × List (String × Blob) :=
  dirs.foldl
    (fun (acc : List LoadedW × List (String × Blob)) d =>
      match loadWidget d with
      | none => acc
      | some w =>
        let key := storageKeyOf w
        (acc.1 ++ [w], if key = "" then acc.2 else mapPut acc.2 key w.storage))
    ([], [])

/-- The typed state of a `canvas-link` shape record emitted by
`loadCanvasLinksForParentRoom` (this object is later stored verbatim as the
record's `state`). -/
structure PLinkState where
  id : String
  parentId : String
  index : String
  x : Int
  y : Int
  rotation : Int
  isLocked : Bool
  opacity : Int
  meta : Blob
  w : Int
  h : Int
  targetCanvasId : String
  label : String
  linkType : String
deriving DecidableEq

/-- A canvas-link record produced by `loadCanvasLinksForParentRoom`. -/
structure PLinkRec where
  shapeId : String
  state : PLinkState
  lastChangedClock : Int
deriving DecidableEq

/-- The link record built by `loadCanvasLinksForParentRoom` from one
child's parsed descriptor. -/
def linkRecFor (childName : String) (info : PLinkInfo) : PLinkRec :=
  let sid := jsOrSv info.linkShapeId ("shape:link-to-" ++ childName)
  { shapeId := sid
    state := { id := sid
               parentId := jsOrSv info.parentId "page:page"
               index := jsOrSv info.index "a1"
               x := jsOrIv info.posX 0
               y := jsOrIv info.posY 0
               rotation := jsOrIv info.rotation 0
               isLocked := jsOrBv info.isLocked false
               opacity := jsOrIv info.opacity 1
               meta := (info.meta).getD emptyObj
               w := jsOrIv info.sizeW 200
               h := jsOrIv info.sizeH 100
               targetCanvasId := childName
               label := jsOrSv info.label ("Link to " ++ childName)
               linkType := jsOrSv info.linkType "realfile" }
    lastChangedClock := jsOrIv info.lastChangedClock 0 }

/-- `CanvasStateGenerator.loadCanvasLinksForParentRoom`: one immediate
`room-*` child directory contributes a link record exactly when its
`canvas-link-info.json` exists, parses, and records `parentCanvasId` equal
to the current room's name.  The argument lists the immediate `room-*`
child directories in scan order together with the parse result of their
descriptor file. -/
def loadCanvasLinksForParentRoom (currentRoomName : String) :
    List (String × Option (Option PLinkInfo)) → List PLinkRec
  | [] => []
  | child :: rest =>
    (match child.2 with
     | some (some info) =>
       if info.parentCanvasId = some currentRoomName then [linkRecFor child.1 info] else []
     | _ => []) ++ loadCanvasLinksForParentRoom currentRoomName rest

/-- The `state` of a `miyagi-widget` shape record emitted by
`generateRoomSnapshot`. -/
structure PWidgetState where
  id : String
  parentId : String
  index : String
  x : Int
  y : Int
  rotation : Int
  isLocked : Bool
  opacity : Int
  meta : Blob
  w : Int
  h : Int
  widgetId : String
  templateHandle : String
  htmlContent : String
  jsxContent : String
  color : String
  zoomScale : Int
deriving DecidableEq

/-- One record of the produced snapshot (`state` tagged by kind, plus the
record's `lastChangedClock`). -/
inductive PGenState where
  | document (gridSize : Int) (name : String) (roomId canvasMode canvasName : String)
  | page (id name : String)
  | canvasStorage (widgets : List (String × Blob)) (globalS : Blob)
  | widget (st : PWidgetState)
  | link (st : PLinkState)
deriving DecidableEq

/-- A record of the produced snapshot. -/
structure PGenDoc where
  state : PGenState
  lastChangedClock : Int
deriving DecidableEq

/-- The produced `canvas-state.json` (the `schema` block is an opaque blob;
`defaultSchemaBlob` stands for the literal fallback block in the source). -/
structure PGenSnap where
  clock : Int
  documentClock : Int
  tombstones : Blob
  tombstoneHistoryStartsAtClock : Int
  schema : Blob
  documents : List PGenDoc
deriving DecidableEq

/-- The literal fallback `schema` block of `generateRoomSnapshot`. -/
def defaultSchemaBlob : Blob := "tldraw-schema-v2-sequences"

/-- The literal fallback widget `meta` of `generateRoomSnapshot`. -/
def metaReadyBlob : Blob := "initializationState-ready"

/-- The widget record built inside `generateRoomSnapshot` for the widget at
(1-based) shape index `i`, given the page id of the room.  `tNow` models
`Date.now()` in the `widgetId` fallback. -/
def genWidgetDoc (pageId : String) (tNow : Int) (i : Int) (w : LoadedW) : PGenDoc :=
  let p := w.properties
  { state := PGenState.widget
      { id := jsOrSv p.shapeId (jsOrSv p.id w.shapeId)
        parentId := jsOrSv p.parentId pageId
        index := jsOrSv p.index ("a" ++ toString i)
        x := jsOrIv p.posX (jsOrIv p.x 0)
        y := jsOrIv p.posY (jsOrIv p.y 0)
        rotation := jsOrIv p.rotation 0
        isLocked := jsOrBv p.isLocked false
        opacity := jsOrIv p.opacity 1
        meta := (p.meta).getD metaReadyBlob
        w := jsOrIv p.sizeW (jsOrIv p.w 300)
        h := jsOrIv p.sizeH (jsOrIv p.h 200)
        widgetId := jsOrSv p.widgetId
          (jsOrSv p.templateHandle "widget" ++ "_" ++ toString tNow)
        templateHandle := jsOrSv p.templateHandle "notepad-react-test"
        htmlContent := w.htmlContent
        jsxContent := w.jsxContent
        color := jsOrSv p.color "black"
        zoomScale := jsOrIv p.zoomScale 1 }
    lastChangedClock := jsOrIv p.lastChangedClock (i + 2) }

/-- Widget records with their running 1-based shape index starting at `i`. -/
def genWidgetDocs (pageId : String) (tNow : Int) (i : Int) : List LoadedW → List PGenDoc
  | [] => []
  | w :: rest => genWidgetDoc pageId tNow i w :: genWidgetDocs pageId tNow (i + 1) rest

/-- Link records with their running 1-based shape index starting at `i`
(the index continues after the widgets). -/
def genLinkDocs (i : Int) : List PLinkRec → List PGenDoc
  | [] => []
  | l :: rest =>
    { state := PGenState.link l.state
      lastChangedClock := jsNzOr l.lastChangedClock (i + 2) } :: genLinkDocs (i + 1) rest

/-- The page id extracted from the metadata (`canvasMetadata?.pages?.[0]?.id
|| 'page:page'`). -/
def pageIdOf (md : Option PMeta) : String :=
  jsOrSv (md.bind fun m => (m.pages.head?).bind PMetaPage.id) "page:page"

/-- The document record of the produced snapshot. -/
def genDocRec (md : Option PMeta) : PGenDoc :=
  { state := PGenState.document
      (jsOrIv (md.bind fun m => (m.canvas).bind PMetaCanvas.gridSize) 10) ""
      (jsOrSv (md.bind fun m => (m.canvas).bind PMetaCanvas.roomId) "room-generated")
      (jsOrSv (md.bind fun m => (m.canvas).bind PMetaCanvas.canvasMode) "freeform")
      (jsOrSv (md.bind fun m => (m.canvas).bind PMetaCanvas.canvasName) "Generated Canvas")
    lastChangedClock := jsOrIv (md.bind PMeta.documentClock) 2 }

/-- The page record of the produced snapshot. -/
def genPageRec (md : Option PMeta) : PGenDoc :=
  { state := PGenState.page (pageIdOf md)
      (jsOrSv (md.bind fun m => (m.pages.head?).bind PMetaPage.name) "Page 1")
    lastChangedClock :=
      jsOrIv (md.bind fun m => (m.pages.head?).bind PMetaPage.lastChangedClock) 0 }

/-- The canvas-storage record of the produced snapshot. -/
def genStorageRec (md : Option PMeta) (widgetStorage : List (String × Blob))
    (globalStorage : Blob) (wLen lLen : Nat) : PGenDoc :=
  { state := PGenState.canvasStorage widgetStorage globalStorage
    lastChangedClock := jsOrIv (md.bind PMeta.canvasStorageClock)
      ((wLen : Int) + (lLen : Int) + 2) }

/-- `CanvasStateGenerator.generateRoomSnapshot`: assemble the full snapshot
for one room from its metadata, global storage, widget-storage map, loaded
widgets and link records. -/
def generateRoomSnapshot (md : Option PMeta) (globalStorage : Blob)
    (widgetStorage : List (String × Blob)) (widgets : List LoadedW)
    (canvasLinks : List PLinkRec) (tNow : Int) : PGenSnap :=
  let documents : List PGenDoc :=
    [genDocRec md, genPageRec md,
      genStorageRec md widgetStorage globalStorage widgets.length canvasLinks.length]
    ++ genWidgetDocs (pageIdOf md) tNow 1 widgets
    ++ genLinkDocs ((widgets.length : Int) + 1) canvasLinks
  let totalClock := jsOrIv (md.bind PMeta.clock) ((documents.length : Int) + 1)
  { clock := totalClock
    documentClock := jsOrIv (md.bind PMeta.documentClock) totalClock
    tombstones := (md.bind PMeta.tombstones).getD emptyObj
    tombstoneHistoryStartsAtClock := jsOrIv (md.bind PMeta.tombstoneHistoryStartsAtClock) 1
    schema := (md.bind PMeta.schema).getD defaultSchemaBlob
    documents := documents }

/-- The record list of the produced snapshot, spelled out. -/
theorem generateRoomSnapshot_documents (md : Option PMeta) (gs : Blob)
    (wst : List (String × Blob)) (ws : List LoadedW) (ls : List PLinkRec) (tNow : Int) :
    (generateRoomSnapshot md gs wst ws ls tNow).documents =
      [genDocRec md, genPageRec md, genStorageRec md wst gs ws.length ls.length]
        ++ genWidgetDocs (pageIdOf md) tNow 1 ws
        ++ genLinkDocs ((ws.length : Int) + 1) ls := rfl

/-- The full input of packing one room directory. -/
structure PackRoomInput where
  roomName : String
  metaFile : Option (Option PMeta)
  gstoreFile : Option (Option Blob)
  shapeDirs : List PWDir
  children : List (String × Option (Option PLinkInfo))
deriving DecidableEq

/-- `CanvasStateGenerator.generateRoomCanvasState` for a single room:
returns `none` (room skipped, `success = false`) when `canvas-metadata.json`
is missing or malformed, otherwise the produced snapshot. -/
def packRoom (inp : PackRoomInput) (tNow : Int) : Option PGenSnap :=
  match inp.metaFile with
  | none => none
  | some none => none
  | some (some md) =>
    let globalStorage := match inp.gstoreFile with
      | some (some b) => b
      | _ => emptyObj
    let (widgets, widgetStorage) := loadRoomWidgets inp.shapeDirs
    let canvasLinks := loadCanvasLinksForParentRoom inp.roomName inp.children
    some (generateRoomSnapshot (some md) globalStorage widgetStorage widgets canvasLinks tNow)

/-! ## Unpacker data model (`CanvasStateUnpacker`, revision 1)

The unpacker reads one parsed `canvas-state.json` per room.  The parsed
snapshot is modelled by `CanvasState`; `processDocs` is the pure
classification phase of `unpackRoom` (both passes over `documents`). -/

/-- The `meta` object of a `document` record (field accesses
`documentRecord?.meta?.roomId` etc.). -/
structure UDocMeta where
  roomId : Option String
  canvasMode : Option String
  canvasName : Option String
deriving DecidableEq

/-- The `props` object of a `shape` record, restricted to the fields the
unpacker reads. -/
structure UShapeProps where
  widgetId : Option String
  templateHandle : Option String
  w : Option Int
  h : Option Int
  color : Option String
  zoomScale : Option Int
  jsxContent : Option String
  htmlContent : Option String
  targetCanvasId : Option String
  label : Option String
  linkType : Option String
deriving DecidableEq

/-- A `shape` record's `state` (the `type` field decides the shape kind). -/
structure UShape where
  id : String
  shapeType : String
  x : Option Int
  y : Option Int
  rotation : Option Int
  opacity : Option Int
  isLocked : Option Bool
  meta : Option Blob
  parentId : Option String
  index : Option String
  props : Option UShapeProps
deriving DecidableEq

/-- The `state` of one snapshot record, tagged by `typeName`. -/
inductive URec where
  | document (id : String) (name : Option String) (gridSize : Option Int)
      (meta : Option UDocMeta)
  | page (id : String) (name : Option String) (index : Option String) (meta : Option Blob)
  | canvasStorage (id : String) (widgets : Option (List (String × Blob)))
      (globalS : Option Blob)
  | shape (s : UShape)
  | other
deriving DecidableEq

/-- One entry of the snapshot's `documents` array. -/
structure UDoc where
  state : URec
  lastChangedClock : Option Int
deriving DecidableEq

/-- A parsed `canvas-state.json`. -/
structure CanvasState where
  clock : Option Int
  documentClock : Option Int
  tombstones : Option Blob
  tombstoneHistoryStartsAtClock : Option Int
  schema : Option Blob
  documents : List UDoc
deriving DecidableEq

/-- The `properties.json` content written for one widget
(`processMiyagiWidget`'s `properties` object; `none` fields model keys
dropped by `JSON.stringify` because their value is `undefined`). -/
structure UWProps where
  shapeId : String
  widgetId : Option String
  templateHandle : Option String
  posX : Option Int
  posY : Option Int
  sizeW : Option Int
  sizeH : Option Int
  rotation : Option Int
  opacity : Option Int
  isLocked : Option Bool
  color : Option String
  zoomScale : Option Int
  meta : Option Blob
  parentId : Option String
  index : Option String
  lastChangedClock : Option Int
deriving DecidableEq

/-- A classified `miyagi-widget` record. -/
structure UWidgetOut where
  shapeId : String
  properties : UWProps
  jsxContent : String
  htmlContent : String
  storage : Blob
deriving DecidableEq

/-- The classified properties of a `canvas-link` record. -/
structure ULinkProps where
  shapeId : String
  targetCanvasId : Option String
  label : String
  linkType : String
  posX : Option Int
  posY : Option Int
  sizeW : Int
  sizeH : Int
  rotation : Option Int
  opacity : Option Int
  isLocked : Option Bool
  meta : Option Blob
  parentId : Option String
  index : Option String
  lastChangedClock : Option Int
deriving DecidableEq

/-- A classified `canvas-link` record. -/
structure ULinkOut where
  shapeId : String
  properties : ULinkProps
deriving DecidableEq

/-- A classified `page` record. -/
structure UPageOut where
  id : String
  name : String
  index : String
  meta : Blob
  lastChangedClock : Option Int
deriving DecidableEq

/-- A classified `document` record (`processDocumentRecord` also copies the
snapshot-level schema/clock fields into it). -/
structure UDocOut where
  id : String
  name : String
  gridSize : Int
  meta : UDocMeta
  lastChangedClock : Option Int
  schema : Option Blob
  clock : Option Int
  documentClock : Option Int
  tombstones : Option Blob
  tombstoneHistoryStartsAtClock : Option Int
deriving DecidableEq

/-- A classified `canvas_storage` record. -/
structure UStorageOut where
  id : String
  widgetStorage : List (String × Blob)
  globalStorage : Blob
deriving DecidableEq

/-- `processedDocs`: the classified records of one room, collected by
`categorizeProcessedDocument` (the `document` and `canvasStorage` slots keep
the last record of their kind; the lists keep insertion order). -/
structure PDocs where
  document : Option UDocOut
  pages : List UPageOut
  canvasStorage : Option UStorageOut
  widgets : List UWidgetOut
  canvasLinks : List ULinkOut
deriving DecidableEq

/-- `CanvasStateUnpacker.processMiyagiWidget`. -/
def processMiyagiWidget (s : UShape) (lastChangedClock : Option Int)
    (roomWidgetStorage : List (String × Blob)) : UWidgetOut :=
  { shapeId := s.id
    properties :=
      { shapeId := s.id
        widgetId := (s.props).bind UShapeProps.widgetId
        templateHandle := (s.props).bind UShapeProps.templateHandle
        posX := s.x
        posY := s.y
        sizeW := (s.props).bind UShapeProps.w
        sizeH := (s.props).bind UShapeProps.h
        rotation := s.rotation
        opacity := s.opacity
        isLocked := s.isLocked
        color := (s.props).bind UShapeProps.color
        zoomScale := (s.props).bind UShapeProps.zoomScale
        meta := s.meta
        parentId := s.parentId
        index := s.index
        lastChangedClock := lastChangedClock }
    jsxContent := jsOrSv ((s.props).bind UShapeProps.jsxContent) ""
    htmlContent := jsOrSv ((s.props).bind UShapeProps.htmlContent) ""
    storage := (alookup roomWidgetStorage s.id).getD emptyObj }

/-- `CanvasStateUnpacker.processCanvasLink`. -/
def processCanvasLink (s : UShape) (lastChangedClock : Option Int) : ULinkOut :=
  { shapeId := s.id
    properties :=
      { shapeId := s.id
        targetCanvasId := (s.props).bind UShapeProps.targetCanvasId
        label := jsOrSv ((s.props).bind UShapeProps.label) "Subcanvas Link"
        linkType := jsOrSv ((s.props).bind UShapeProps.linkType) "realfile"
        posX := s.x
        posY := s.y
        sizeW := jsOrIv ((s.props).bind UShapeProps.w) 200
        sizeH := jsOrIv ((s.props).bind UShapeProps.h) 100
        rotation := s.rotation
        opacity := s.opacity
        isLocked := s.isLocked
        meta := s.meta
        parentId := s.parentId
        index := s.index
        lastChangedClock := lastChangedClock } }

/-- The classification result of one record
(`processDocument` dispatching on `typeName`, then `processShapeRecord`
dispatching on `type`). -/
inductive UProcessed where
  | document (d : UDocOut)
  | page (p : UPageOut)
  | canvasStorage (s : UStorageOut)
  | widget (w : UWidgetOut)
  | link (l : ULinkOut)
deriving DecidableEq

/-- `CanvasStateUnpacker.processDocument` (returns `none` for ignored record
and shape kinds). -/
def processDocument (doc : UDoc) (cs : CanvasState)
    (roomWidgetStorage : List (String × Blob)) : Option UProcessed :=
  match doc.state with
  | URec.document id name gridSize meta =>
    some (UProcessed.document
      { id := id
        name := jsOrSv name ""
        gridSize := jsOrIv gridSize 10
        meta := meta.getD { roomId := none, canvasMode := none, canvasName := none }
        lastChangedClock := doc.lastChangedClock
        schema := cs.schema
        clock := cs.clock
        documentClock := cs.documentClock
        tombstones := cs.tombstones
        tombstoneHistoryStartsAtClock := cs.tombstoneHistoryStartsAtClock })
  | URec.page id name index meta =>
    some (UProcessed.page
      { id := id
        name := jsOrSv name "Page 1"
        index := jsOrSv index "a1"
        meta := meta.getD emptyObj
        lastChangedClock := doc.lastChangedClock })
  | URec.canvasStorage id widgets globalS =>
    some (UProcessed.canvasStorage
      { id := id
        widgetStorage := widgets.getD []
        globalStorage := globalS.getD emptyObj })
  | URec.shape s =>
    if s.shapeType = "miyagi-widget" then
      some (UProcessed.widget (processMiyagiWidget s doc.lastChangedClock roomWidgetStorage))
    else if s.shapeType = "canvas-link" then
      some (UProcessed.link (processCanvasLink s doc.lastChangedClock))
    else none
  | URec.other => none

/-- `categorizeProcessedDocument`. -/
def categorize (r : UProcessed) (pd : PDocs) : PDocs :=
  match r with
  | UProcessed.document d => { pd with document := some d }
  | UProcessed.page p => { pd with pages := pd.pages ++ [p] }
  | UProcessed.canvasStorage s => { pd with canvasStorage := some s }
  | UProcessed.widget w => { pd with widgets := pd.widgets ++ [w] }
  | UProcessed.link l => { pd with canvasLinks := pd.canvasLinks ++ [l] }

/-- The first pass of `unpackRoom`: the `widgets` map of the *first*
`canvas_storage` record (`break` after the first hit). -/
def firstWidgetStorage : List UDoc → List (String × Blob)
  | [] => []
  | doc :: rest =>
    match doc.state with
    | URec.canvasStorage _ widgets _ => widgets.getD []
    | _ => firstWidgetStorage rest

/-- The pure classification phase of `CanvasStateUnpacker.unpackRoom`:
extract the widget-storage map, then classify and collect every record. -/
def processDocs (cs : CanvasState) : PDocs :=
  let rws := firstWidgetStorage cs.documents
  cs.documents.foldl
    (fun pd doc =>
      match processDocument doc cs rws with
      | none => pd
      | some r => categorize r pd)
    { document := none, pages := [], canvasStorage := none, widgets := [], canvasLinks := [] }

/-- The content of `canvas-metadata.json` written by
`generateCanvasMetadata`.  `generatedAt` records the run's timestamp
(`new Date().toISOString()`), modelled as an integer time. -/
structure UMetaOut where
  roomId : String
  canvasMode : String
  canvasName : String
  gridSize : Int
  pages : List UPageOut
  schema : Option Blob
  generatedAt : Int
  clock : Option Int
  documentClock : Option Int
  tombstones : Blob
  tombstoneHistoryStartsAtClock : Int
deriving DecidableEq

/-- `CanvasStateUnpacker.generateCanvasMetadata` (content only). -/
def genCanvasMetadata (pd : PDocs) (cs : CanvasState) (t : Int) : UMetaOut :=
  { roomId := jsOrSv ((pd.document).map (fun d => d.meta.roomId)).join "room-unknown"
    canvasMode := jsOrSv ((pd.document).map (fun d => d.meta.canvasMode)).join "freeform"
    canvasName := jsOrSv ((pd.document).map (fun d => d.meta.canvasName)).join "Canvas"
    gridSize := jsOrIv ((pd.document).map UDocOut.gridSize) 10
    pages := pd.pages
    schema := jsOrO ((pd.document).bind UDocOut.schema) cs.schema
    generatedAt := t
    clock := jsOrI ((pd.document).bind UDocOut.clock) cs.clock
    documentClock := jsOrI ((pd.document).bind UDocOut.documentClock) cs.documentClock
    tombstones := (jsOrO ((pd.document).bind UDocOut.tombstones) cs.tombstones).getD emptyObj
    tombstoneHistoryStartsAtClock :=
      jsOrIv (jsOrI ((pd.document).bind UDocOut.tombstoneHistoryStartsAtClock)
        cs.tombstoneHistoryStartsAtClock) 1 }

/-- The content of `global-storage.json` written by `generateGlobalStorage`. -/
def genGlobalStorage (pd : PDocs) : Blob :=
  ((pd.canvasStorage).map UStorageOut.globalStorage).getD emptyObj

/-- The directory name generated for a widget record
(`widget-` + `shapeId.replace('shape:','')`). -/
def widgetDirName (shapeId : String) : String :=
  "widget-" ++ replaceFirst shapeId "shape:" ""

/-- The content of `canvas-link-info.json` written into the target room
directory by `storeCanvasLinkInfo`. -/
structure ULinkInfoOut where
  parentCanvasId : String
  linkShapeId : String
  posX : Option Int
  posY : Option Int
  sizeW : Int
  sizeH : Int
  label : String
  linkType : String
  rotation : Option Int
  opacity : Option Int
  isLocked : Option Bool
  meta : Option Blob
  parentId : Option String
  index : Option String
  lastChangedClock : Option Int
deriving DecidableEq

/-- The link-descriptor content for one link record, owned by the room
directory named `parentRoomName`. -/
def genLinkInfo (parentRoomName : String) (l : ULinkOut) : ULinkInfoOut :=
  { parentCanvasId := parentRoomName
    linkShapeId := l.shapeId
    posX := l.properties.posX
    posY := l.properties.posY
    sizeW := l.properties.sizeW
    sizeH := l.properties.sizeH
    label := l.properties.label
    linkType := l.properties.linkType
    rotation := l.properties.rotation
    opacity := l.properties.opacity
    isLocked := l.properties.isLocked
    meta := l.properties.meta
    parentId := l.properties.parentId
    index := l.properties.index
    lastChangedClock := l.properties.lastChangedClock }

/-! ## File-system model and the unpacker run

Directories are addressed by paths (lists of directory names from the
repository root).  The repository is a flat association list from the path
of each directory that behaves like a room (any directory that could hold a
`canvas-state.json`) to its contents; `widget-*` subdirectories live inside
their room's entry.  File contents are either pre-existing uninterpreted
text (`FData.raw`) or content generated by this run (`FData.gen`). -/

/-- A directory path from the repository root. -/
abbrev FPath := List String

/-- `path.basename`. -/
def basename (p : FPath) : String := p.getLastD ""

/-- File content: pre-existing raw text or generated content. -/
inductive FData (α : Type) where
  | raw (s : String)
  | gen (v : α)
deriving DecidableEq

/-- The files of one `widget-*` directory. -/
structure WDirF where
  propsF : Option (FData UWProps)
  jsxF : Option (FData String)
  htmlF : Option (FData String)
  storageF : Option (FData Blob)
deriving DecidableEq

/-- The contents of one directory: `canvas-state.json` (as a parse result:
`none` = no file, `some none` = malformed, `some (some cs)` = parsed),
the three generated room files, and the widget subdirectories.  Child room
directories are separate entries of the repository list. -/
structure RoomData where
  snapshot : Option (Option CanvasState)
  metaF : Option (FData UMetaOut)
  gstoreF : Option (FData Blob)
  linkF : Option (FData ULinkInfoOut)
  widgets : List (String × WDirF)
deriving DecidableEq

/-- The repository: every directory, addressed by its path. -/
abbrev Repo := List (FPath × RoomData)

/-- Lookup of a directory by path. -/
def lookupRepo (fs : Repo) (p : FPath) : Option RoomData :=
  match fs with
  | [] => none
  | e :: rest => if e.1 = p then some e.2 else lookupRepo rest p

/-- In-place update of the directory at `p` (no effect if absent, matching
writes into a nonexistent directory never being attempted). -/
def updateRepo (fs : Repo) (p : FPath) (f : RoomData → RoomData) : Repo :=
  fs.map (fun e => if e.1 = p then (e.1, f e.2) else e)

/-- `fs.existsSync(roomPath + '/canvas-state.json')` combined with reading
and parsing it. -/
def snapFileAt (fs : Repo) (p : FPath) : Option (Option CanvasState) :=
  (lookupRepo fs p).bind RoomData.snapshot

/-- `q = p ++ [n]` for some `n`, returning that `n`. -/
def childOf : FPath → FPath → Option String
  | [], [n] => some n
  | x :: p, y :: q => if x = y then childOf p q else none
  | _, _ => none

/-- The `room-*` entries directly inside `p`, in listing order
(`collectRoomDirectoriesInPath`'s readdir filter). -/
def roomChildNames (fs : Repo) (p : FPath) : List String :=
  fs.filterMap (fun e =>
    match childOf p e.1 with
    | some n => if strStarts n "room-" then some n else none
    | none => none)

/-- Add to a JS `Set` modelled as a duplicate-free list. -/
def insertNew {α : Type} [DecidableEq α] (l : List α) (x : α) : List α :=
  if x ∈ l then l else l ++ [x]

/-- The widget directory files generated for one widget record. -/
def widgetFilesOf (w : UWidgetOut) : WDirF :=
  { propsF := some (FData.gen w.properties)
    jsxF := some (FData.gen w.jsxContent)
    htmlF := some (FData.gen w.htmlContent)
    storageF := some (FData.gen w.storage) }

/-- Create-or-overwrite of one widget directory inside a room
(`generateWidgetDirectory`: `mkdirSync` if missing, then write all four
files). -/
def upsertWidget (l : List (String × WDirF)) (n : String) (files : WDirF) :
    List (String × WDirF) :=
  if (alookup l n).isSome then
    l.map (fun e => if e.1 = n then (n, files) else e)
  else l ++ [(n, files)]

/-- All file writes performed by `unpackRoom` for the room at `p` (metadata,
global storage, widget directories, link descriptors), returning the new
repository and the list of widget paths added to `processedWidgets`. -/
def unpackWrites (fs : Repo) (p : FPath) (pd : PDocs) (cs : CanvasState) (t : Int) :
    Repo × List FPath :=
  let fs1 := updateRepo fs p (fun d => { d with metaF := some (FData.gen (genCanvasMetadata pd cs t)) })
  let fs2 := updateRepo fs1 p (fun d => { d with gstoreF := some (FData.gen (genGlobalStorage pd)) })
  let (fs3, pwAdd) := pd.widgets.foldl
    (fun (acc : Repo × List FPath) w =>
      let n := widgetDirName w.shapeId
      (updateRepo acc.1 p (fun d => { d with widgets := upsertWidget d.widgets n (widgetFilesOf w) }),
       acc.2 ++ [p ++ [n]]))
    (fs2, [])
  let fs4 := pd.canvasLinks.foldl
    (fun acc l =>
      match l.properties.targetCanvasId with
      | some tn =>
        if tn = "" then acc
        else
          let tgt := p ++ [tn]
          if (lookupRepo acc tgt).isSome then
            updateRepo acc tgt (fun d => { d with linkF := some (FData.gen (genLinkInfo (basename p) l)) })
          else acc
      | none => acc)
    fs3
  (fs4, pwAdd)

/-- Add the `room-*` children of `p` to the candidate set
(`collectRoomDirectoriesInPath`). -/
def collectCands (p : FPath) (ns : List String) (cand : List FPath) : List FPath :=
  ns.foldl (fun cc n' => insertNew cc (p ++ [n'])) cand

/-- One iteration of the link loop of `traverseCanvasGraph`: clear the
link's target from the candidate set and enqueue it when its name is not
yet visited. -/
def linkStep (p : FPath) (visited1 : List String) (acc : List FPath × List FPath)
    (l : ULinkOut) : List FPath × List FPath :=
  match l.properties.targetCanvasId with
  | some tn =>
    if tn = "" then acc
    else (acc.1.erase (p ++ [tn]),
          if tn ∈ visited1 then acc.2 else acc.2 ++ [p ++ [tn]])
  | none => acc

/-- The state of `traverseCanvasGraph`: the FIFO queue of room paths, the
`referencedRooms` name set, the `unreferencedRoomDirs` candidate set, the
`processedWidgets` path set, the evolving repository, and two write-only
trace fields (`pops`: dequeued room paths in order; `pushed`: enqueued room
paths in order) used only by specification statements. -/
structure TravSt where
  queue : List FPath
  visited : List String
  cand : List FPath
  pw : List FPath
  pops : List FPath
  pushed : List FPath
  fs : Repo
deriving DecidableEq

/-- Result of the BFS loop: normal completion, abort by a thrown JSON parse
error, or fuel exhaustion (a modelling artifact; completed runs are the
`done` case). -/
inductive TravRes where
  | done (s : TravSt)
  | aborted (s : TravSt)
  | outOfFuel (s : TravSt)
deriving DecidableEq

/-- `CanvasStateUnpacker.traverseCanvasGraph`: pop a room path; if its
`canvas-state.json` is missing, warn and skip; otherwise collect its
`room-*` children as deletion candidates, mark the room visited, parse the
snapshot (a parse failure aborts the whole loop), perform `unpackRoom`'s
writes, then for every discovered link with a truthy `targetCanvasId` clear
the target from the candidates and enqueue it if its name is not yet
visited. -/
def traverseCanvasGraph (t : Int) : Nat → TravSt → TravRes
  | 0, s => if s.queue.isEmpty then TravRes.done s else TravRes.outOfFuel s
  | Nat.succ n, s =>
    match s.queue with
    | [] => TravRes.done s
    | p :: rest =>
      let s0 : TravSt := { s with queue := rest, pops := s.pops ++ [p] }
      match snapFileAt s0.fs p with
      | none => traverseCanvasGraph t n s0
      | some parseRes =>
        let cand1 := collectCands p (roomChildNames s0.fs p) s0.cand
        let visited1 := insertNew s0.visited (basename p)
        match parseRes with
        | none => TravRes.aborted { s0 with cand := cand1, visited := visited1 }
        | some cs =>
          let pd := processDocs cs
          let (fs1, pwAdd) := unpackWrites s0.fs p pd cs t
          let (cand2, pushedNew) := pd.canvasLinks.foldl (linkStep p visited1) (cand1, [])
          traverseCanvasGraph t n
            { queue := rest ++ pushedNew
              visited := visited1
              cand := cand2
              pw := s0.pw ++ pwAdd
              pops := s0.pops
              pushed := s0.pushed ++ pushedNew
              fs := fs1 }

/-- Does a path contain a component hidden from recursive scans
(`entry.name.startsWith('.')`)? -/
def hasDotComponent (p : FPath) : Bool := p.any (fun c => strStarts c ".")

/-- `d` is a prefix of `p` (deleting `d` recursively removes `p`). -/
def pathHasPre (d p : FPath) : Bool := decide (p.take d.length = d)

/-- `cleanupOldWidgets`: delete every `widget-*` directory reachable by the
recursive scan (no dot component on its path) whose path is not in
`processedWidgets`. -/
def cleanupWidgets (pw : List FPath) (fs : Repo) : Repo :=
  fs.map (fun e =>
    if hasDotComponent e.1 then e
    else
      let ws := e.2.widgets.filter
        (fun wEnt => !(strStarts wEnt.1 "widget-") || decide ((e.1 ++ [wEnt.1]) ∈ pw))
      (e.1, { e.2 with widgets := ws }))

/-- `cleanupUnreferencedRooms`: recursively delete every remaining candidate
directory. -/
def cleanupRooms (dead : List FPath) (fs : Repo) : Repo :=
  fs.filter (fun e => !(dead.any (fun d => pathHasPre d e.1)))

/-- `identifyRootRoom`'s candidate list: the `room-*` directories directly
under the repository root. -/
def topRoomNames (fs : Repo) : List String :=
  fs.filterMap (fun e =>
    match e.1 with
    | [n] => if strStarts n "room-" then some n else none
    | _ => none)

/-- The initial traversal state. -/
def initSt (fs : Repo) (root : String) : TravSt :=
  { queue := [[root]], visited := [], cand := [], pw := [], pops := [], pushed := [], fs := fs }

/-- `CanvasStateUnpacker.run`: identify the unique root (zero or several
root rooms throw, caught by `run`'s handler which exits with code 1), run
the BFS traversal (a JSON parse error propagates to the same handler:
exit code 1, no cleanup), then run the widget collector pass followed by
the room collector pass.  The result is `(exit code, final repository)`;
`none` is the out-of-fuel modelling artifact. -/
def run (fuel : Nat) (t : Int) (fs : Repo) : Option (Nat × Repo) :=
  match topRoomNames fs with
  | [root] =>
    match traverseCanvasGraph t fuel (initSt fs root) with
    | TravRes.done s => some (0, cleanupRooms s.cand (cleanupWidgets s.pw s.fs))
    | TravRes.aborted s => some (1, s.fs)
    | TravRes.outOfFuel _ => none
  | _ => some (1, fs)

/-! ## Specification vocabulary for the traversal

Definitions used by the formal claim statements: the processed rooms of a
run, the link targets discovered in a processed room, and reachability by a
path of links discovered during the run. -/

/-- The room paths that were dequeued and had a `canvas-state.json`
(these are exactly the rooms whose records were processed in a completed
run). -/
def processedRooms (fs : Repo) (s : TravSt) : List FPath :=
  s.pops.filter (fun p => (snapFileAt fs p).isSome)

/-- The truthy `targetCanvasId`s of a snapshot's canvas-link records. -/
def targetsOf (cs : CanvasState) : List String :=
  (processDocs cs).canvasLinks.filterMap (fun l =>
    match l.properties.targetCanvasId with
    | some tn => if tn = "" then none else some tn
    | none => none)

/-- The widget directory names generated for a snapshot's widget records. -/
def widgetNamesOf (cs : CanvasState) : List String :=
  (processDocs cs).widgets.map (fun w => widgetDirName w.shapeId)

/-- The truthy `targetCanvasId`s of the canvas-link records of the snapshot
at `p` (the links discovered when the room at `p` is processed). -/
def targetsAt (fs : Repo) (p : FPath) : List String :=
  match snapFileAt fs p with
  | some (some cs) => targetsOf cs
  | _ => []

/-- There is a path of link records, each discovered during the run
described by the completed traversal state `s`, leading from the root room
to the directory at the given path. -/
inductive ReachedBy (fs : Repo) (s : TravSt) (root : FPath) : FPath → Prop
  | root : ReachedBy fs s root root
  | step {p : FPath} {tn : String} : ReachedBy fs s root p → p ∈ processedRooms fs s →
      tn ∈ targetsAt fs p → ReachedBy fs s root (p ++ [tn])

/-! ## Concrete scenario repositories -/

/-- Shape props with every field absent. -/
def noProps : UShapeProps :=
  { widgetId := none, templateHandle := none, w := none, h := none, color := none
    zoomScale := none, jsxContent := none, htmlContent := none, targetCanvasId := none
    label := none, linkType := none }

/-- A shape record with only an id, a type and no optional fields. -/
def bareShape (id ty : String) : UShape :=
  { id := id, shapeType := ty, x := none, y := none, rotation := none, opacity := none
    isLocked := none, meta := none, parentId := none, index := none, props := none }

/-- A canvas-link shape targeting `tgt`. -/
def linkShape (id tgt : String) : UShape :=
  { bareShape id "canvas-link" with props := some { noProps with targetCanvasId := some tgt } }

/-- A snapshot with no top-level fields and the given records. -/
def bareCS (docs : List UDoc) : CanvasState :=
  { clock := none, documentClock := none, tombstones := none
    tombstoneHistoryStartsAtClock := none, schema := none, documents := docs }

/-- An empty directory (no snapshot, no files, no widget subdirectories). -/
def bareDir : RoomData :=
  { snapshot := none, metaF := none, gstoreF := none, linkF := none, widgets := [] }

/-- A directory whose `canvas-state.json` parses to `cs`. -/
def dirWithCS (cs : CanvasState) : RoomData := { bareDir with snapshot := some (some cs) }

/-- Scenario for C1/C10: the root `room-A` links to `room-B`; `room-B`
exists on disk but has no snapshot file and contains a child `room-C`. -/
def repoA : Repo :=
  [ (["room-A"], dirWithCS (bareCS [{ state := URec.shape (linkShape "shape:l1" "room-B"), lastChangedClock := some 5 }]))
  , (["room-A", "room-B"], bareDir)
  , (["room-A", "room-B", "room-C"], bareDir) ]

/-- The traversal result of the C1/C10 scenario. -/
def stA : TravSt :=
  match traverseCanvasGraph 0 9 (initSt repoA "room-A") with
  | TravRes.done s => s
  | TravRes.aborted s => s
  | TravRes.outOfFuel s => s

/-! ## Default values used by claim statements -/

/-- Widget properties with every optional field absent. -/
def noPProps : PProps :=
  { shapeId := none, id := none, parentId := none, index := none, posX := none, posY := none
    x := none, y := none, rotation := none, opacity := none, isLocked := none, sizeW := none
    sizeH := none, w := none, h := none, widgetId := none, templateHandle := none
    color := none, zoomScale := none, meta := none, lastChangedClock := none }

/-- Default snapshot record for `List.getD`. -/
def pgdDflt : PGenDoc := { state := PGenState.page "" "", lastChangedClock := 0 }

/-- Default loaded widget for `List.getD`. -/
def lwDflt : LoadedW :=
  { shapeId := "", properties := noPProps, jsxContent := "", htmlContent := ""
    storage := emptyObj }

/-- Default link record for `List.getD`. -/
def plDflt : PLinkRec :=
  { shapeId := ""
    state := { id := "", parentId := "", index := "", x := 0, y := 0, rotation := 0
               isLocked := false, opacity := 1, meta := emptyObj, w := 0, h := 0
               targetCanvasId := "", label := "", linkType := "" }
    lastChangedClock := 0 }

/-- Kind tag of a produced snapshot record. -/
def pKind : PGenState → String
  | PGenState.document .. => "document"
  | PGenState.page .. => "page"
  | PGenState.canvasStorage .. => "canvas_storage"
  | PGenState.widget _ => "widget"
  | PGenState.link _ => "link"

/-! ## Claim C2 -/

/-- C2: when the number of `room-*` directories directly under the
repository root is not exactly one, the whole run aborts as a fatal
configuration error with exit code 1 and the repository is left untouched:
no room is processed and nothing is deleted. -/
theorem c2_unique_root_or_fatal (fuel : Nat) (t : Int) (fs : Repo)
    (h : (topRoomNames fs).length ≠ 1) : run fuel t fs = some (1, fs) := by
  rcases hl : topRoomNames fs with _ | ⟨a, _ | ⟨b, tl⟩⟩
  · simp [run, hl]
  · exact absurd (by rw [hl]; rfl) h
  · simp [run, hl]

/-- Witness for C2: a repository with two root rooms is rejected untouched. -/
theorem c2_unique_root_or_fatal_witness :
    (topRoomNames [(["room-X"], bareDir), (["room-Y"], bareDir)]).length ≠ 1 ∧
    run 5 0 [(["room-X"], bareDir), (["room-Y"], bareDir)] =
      some (1, [(["room-X"], bareDir), (["room-Y"], bareDir)]) :=
  ⟨by decide, c2_unique_root_or_fatal 5 0 _ (by decide)⟩

/-! ## Claim C9 -/

/-- Every link record emitted for a room targets the name of one of its
listed child directories. -/
theorem mem_loadLinks_target (name : String)
    (l : List (String × Option (Option PLinkInfo))) (r : PLinkRec)
    (h : r ∈ loadCanvasLinksForParentRoom name l) :
    r.state.targetCanvasId ∈ l.map Prod.fst := by
  induction l with
  | nil => cases h
  | cons c rest ih =>
    rcases c with ⟨cn, _ | _ | info⟩
    · exact List.mem_cons_of_mem _ (ih h)
    · exact List.mem_cons_of_mem _ (ih h)
    · rw [loadCanvasLinksForParentRoom] at h
      rcases List.mem_append.1 h with h1 | h2
      · dsimp only at h1
        split at h1
        · rw [List.mem_singleton] at h1
          subst h1
          exact List.mem_cons_self _ _
        · cases h1
      · exact List.mem_cons_of_mem _ (ih h2)

/-- C9: when packing a room, an immediate `room-*` child subdirectory with
a parseable link-descriptor file contributes a link record to the parent's
snapshot if and only if the descriptor's recorded `parentCanvasId` equals
the current room's name, so a stale descriptor left by a re-parented link
contributes no link record. -/
theorem c9_parent_id_guard (roomName : String)
    (children : List (String × Option (Option PLinkInfo))) (n : String) (info : PLinkInfo)
    (hmem : (n, some (some info)) ∈ children) (hnd : (children.map Prod.fst).Nodup) :
    (∃ r ∈ loadCanvasLinksForParentRoom roomName children, r.state.targetCanvasId = n) ↔
      info.parentCanvasId = some roomName := by
  induction children with
  | nil => cases hmem
  | cons c rest ih =>
    rw [List.map_cons, List.nodup_cons] at hnd
    rcases List.mem_cons.1 hmem with hc | hrest
    · subst hc
      rw [loadCanvasLinksForParentRoom]
      constructor
      · rintro ⟨r, hr, hrt⟩
        rcases List.mem_append.1 hr with h1 | h2
        · by_cases hcond : info.parentCanvasId = some roomName
          · exact hcond
          · dsimp only at h1
            rw [if_neg hcond] at h1
            cases h1
        · exact absurd (hrt ▸ mem_loadLinks_target roomName rest r h2) hnd.1
      · intro hcond
        refine ⟨linkRecFor n info, List.mem_append.2 (Or.inl ?_), rfl⟩
        dsimp only
        rw [if_pos hcond]
        exact List.mem_singleton.2 rfl
    · have hne : c.1 ≠ n := by
        intro he
        exact hnd.1 (he ▸ List.mem_map_of_mem Prod.fst hrest)
      rcases c with ⟨cn, co⟩
      rw [loadCanvasLinksForParentRoom, ← ih hrest hnd.2]
      constructor
      · rintro ⟨r, hr, hrt⟩
        rcases List.mem_append.1 hr with h1 | h2
        · exfalso
          rcases co with _ | _ | i2
          · cases h1
          · cases h1
          · dsimp only at h1
            split at h1
            · rw [List.mem_singleton] at h1
              subst h1
              exact hne hrt
            · cases h1
        · exact ⟨r, h2, hrt⟩
      · rintro ⟨r, hr, hrt⟩
        exact ⟨r, List.mem_append.2 (Or.inr hr), hrt⟩

/-- A parsed descriptor recording `parentCanvasId = "room-A"`. -/
def info9 : PLinkInfo :=
  { parentCanvasId := some "room-A", linkShapeId := some "shape:l9", posX := none, posY := none
    sizeW := none, sizeH := none, label := none, linkType := none, parentId := none
    index := none, rotation := none, opacity := none, isLocked := none, meta := none
    lastChangedClock := none }

/-- A single child `room-B` carrying the descriptor `info9`. -/
def children9 : List (String × Option (Option PLinkInfo)) := [("room-B", some (some info9))]

/-- Witness for C9: a single child `room-B` whose descriptor records
`parentCanvasId = "room-A"` contributes a record when packing `room-A`. -/
theorem c9_parent_id_guard_witness :
    ("room-B", some (some info9)) ∈ children9 ∧ (children9.map Prod.fst).Nodup ∧
    ((∃ r ∈ loadCanvasLinksForParentRoom "room-A" children9,
        r.state.targetCanvasId = "room-B") ↔ info9.parentCanvasId = some "room-A") :=
  ⟨by decide, by decide,
    c9_parent_id_guard "room-A" children9 "room-B" info9 (by decide) (by decide)⟩

/-! ## Claim C5 -/

/-- A widget directory with `properties.json` and both template files but no
`storage.json`. -/
def c5wd : PWDir :=
  { name := "shape-x", props := some (some noPProps), jsx := some "J", html := some "H"
    storage := none }

/-- Counterexample to C5 as stated: a widget directory with only three of
the four files (no `storage.json`) is nevertheless included by `loadWidget`,
so "included iff all four files are present" fails. -/
theorem c5_counterexample : c5wd.storage = none ∧ (loadWidget c5wd).isSome = true := by
  decide

/-- C5 (amended): a widget subdirectory is included in the produced
snapshot iff its `properties.json` is present and parses, both template
files are present and non-empty, and `storage.json` — which is optional and
defaults to an empty object — is not present-but-malformed.  An incomplete
widget is skipped without error: it contributes nothing to `loadRoomWidgets`
and packing the room still succeeds whenever its metadata file parses. -/
theorem c5_incomplete_widgets_skipped :
    (∀ d : PWDir, (loadWidget d).isSome = true ↔
      ((∃ p, d.props = some (some p)) ∧ d.jsx.getD "" ≠ "" ∧ d.html.getD "" ≠ "" ∧
        d.storage ≠ some none)) ∧
    (∀ (pre post : List PWDir) (d : PWDir), loadWidget d = none →
      loadRoomWidgets (pre ++ d :: post) = loadRoomWidgets (pre ++ post)) ∧
    (∀ (inp : PackRoomInput) (tNow : Int) (md : PMeta), inp.metaFile = some (some md) →
      (packRoom inp tNow).isSome = true) := by
  refine ⟨?_, ?_, ?_⟩
  · intro d
    rcases d with ⟨nm, _ | _ | p, jsx, html, storage⟩
    · simp [loadWidget]
    · simp [loadWidget]
    · by_cases hst : (some (some p) : Option (Option PProps)).isSome ∧ storage = some none
      · simp [loadWidget, hst.2]
      · have hst' : storage ≠ some none := by
          intro he
          exact hst ⟨rfl, he⟩
        by_cases hj : jsx.getD "" = ""
        · simp [loadWidget, hst', hj]
        · by_cases hh : html.getD "" = ""
          · simp [loadWidget, hst', hj, hh]
          · simp [loadWidget, hst', hj, hh]
  · intro pre post d h
    unfold loadRoomWidgets
    rw [List.foldl_append, List.foldl_append, List.foldl_cons, h]
  · intro inp tNow md h
    rw [packRoom, h]
    rfl

/-- Witness for C5 (amended), at the concrete inputs of `c5wd` and a
one-widget room whose metadata parses. -/
theorem c5_incomplete_widgets_skipped_witness :
    ((loadWidget c5wd).isSome = true ↔
      ((∃ p, c5wd.props = some (some p)) ∧ c5wd.jsx.getD "" ≠ "" ∧ c5wd.html.getD "" ≠ "" ∧
        c5wd.storage ≠ some none)) ∧
    (loadWidget { c5wd with jsx := none } = none →
      loadRoomWidgets ([] ++ { c5wd with jsx := none } :: [c5wd]) =
        loadRoomWidgets ([] ++ [c5wd])) ∧
    ((packRoom { roomName := "room-A"
                 metaFile := some (some { canvas := none, pages := [], schema := none
                                          clock := none, documentClock := none
                                          tombstones := none
                                          tombstoneHistoryStartsAtClock := none
                                          canvasStorageClock := none })
                 gstoreFile := none, shapeDirs := [c5wd], children := [] } 0).isSome = true) := by
  refine ⟨c5_incomplete_widgets_skipped.1 c5wd,
    c5_incomplete_widgets_skipped.2.1 [] [c5wd] _,
    c5_incomplete_widgets_skipped.2.2 _ 0 _ rfl⟩

/-! ## Claim C6 -/

/-- One widget record per loaded widget. -/
theorem genWidgetDocs_length (pid : String) (t i : Int) (ws : List LoadedW) :
    (genWidgetDocs pid t i ws).length = ws.length := by
  induction ws generalizing i with
  | nil => rfl
  | cons w rest ih => simp [genWidgetDocs, ih]

/-- One link record per link. -/
theorem genLinkDocs_length (i : Int) (ls : List PLinkRec) :
    (genLinkDocs i ls).length = ls.length := by
  induction ls generalizing i with
  | nil => rfl
  | cons l rest ih => simp [genLinkDocs, ih]

/-- Every record produced by `genWidgetDocs` is a widget record. -/
theorem genWidgetDocs_kinds (pid : String) (t i : Int) (ws : List LoadedW) :
    (genWidgetDocs pid t i ws).map (fun d => pKind d.state) =
      List.replicate ws.length "widget" := by
  induction ws generalizing i with
  | nil => rfl
  | cons w rest ih =>
    simp only [genWidgetDocs, List.map_cons, ih, List.length_cons, List.replicate_succ]
    rfl

/-- Every record produced by `genLinkDocs` is a link record. -/
theorem genLinkDocs_kinds (i : Int) (ls : List PLinkRec) :
    (genLinkDocs i ls).map (fun d => pKind d.state) = List.replicate ls.length "link" := by
  induction ls generalizing i with
  | nil => rfl
  | cons l rest ih =>
    simp only [genLinkDocs, List.map_cons, ih, List.length_cons, List.replicate_succ]
    rfl

/-- The record at position `i` of `genWidgetDocs` starting at shape index
`k` is the record of the `i`-th widget at shape index `k + i`. -/
theorem genWidgetDocs_getD (pid : String) (t : Int) (k : Int) (ws : List LoadedW) (i : Nat)
    (h : i < ws.length) :
    (genWidgetDocs pid t k ws).getD i pgdDflt =
      genWidgetDoc pid t (k + (i : Int)) (ws.getD i lwDflt) := by
  induction ws generalizing k i with
  | nil => cases h
  | cons w rest ih =>
    cases i with
    | zero => simp [genWidgetDocs]
    | succ j =>
      have hj : j < rest.length := by simpa using h
      have := ih (k + 1) j hj
      simp only [genWidgetDocs, List.getD_cons_succ, this]
      have harith : k + 1 + (j : Int) = k + ((j : Int) + 1) := by ring
      rw [harith]
      norm_num

/-- The record at position `j` of `genLinkDocs` starting at shape index `k`
is the record of the `j`-th link at shape index `k + j`. -/
theorem genLinkDocs_getD (k : Int) (ls : List PLinkRec) (j : Nat) (h : j < ls.length) :
    (genLinkDocs k ls).getD j pgdDflt =
      { state := PGenState.link ((ls.getD j plDflt).state)
        lastChangedClock :=
          jsNzOr ((ls.getD j plDflt).lastChangedClock) (k + (j : Int) + 2) } := by
  induction ls generalizing k j with
  | nil => cases h
  | cons l rest ih =>
    cases j with
    | zero => simp [genLinkDocs]
    | succ j' =>
      have hj : j' < rest.length := by simpa using h
      have := ih (k + 1) j' hj
      simp only [genLinkDocs, List.getD_cons_succ, this]
      have harith : k + 1 + (j' : Int) + 2 = k + ((j' : Int) + 1) + 2 := by ring
      rw [harith]
      norm_num

/-- Counterexample to C6 as stated: in a room with no stored clocks at all
(empty metadata, no widgets, no links) the three header records receive the
fallback clocks 2, 0, 2, which are not of the form "position in the record
list plus a constant offset" for any constant. -/
theorem c6_counterexample :
    ¬ ∃ c : Int, ∀ i : Nat, i < 3 →
      ((generateRoomSnapshot none "g" [] [] [] 0).documents.getD i pgdDflt).lastChangedClock
        = (i : Int) + c := by
  rintro ⟨c, hc⟩
  have h0 := hc 0 (by norm_num)
  have h1 := hc 1 (by norm_num)
  have e0 : ((generateRoomSnapshot none "g" [] [] [] 0).documents.getD 0
      pgdDflt).lastChangedClock = 2 := by decide
  have e1 : ((generateRoomSnapshot none "g" [] [] [] 0).documents.getD 1
      pgdDflt).lastChangedClock = 0 := by decide
  rw [e0] at h0
  rw [e1] at h1
  push_cast at h0 h1
  omega

/-- C6 (amended): the snapshot's record list is ordered exactly document,
page, storage, then all widget records in directory-scan order, then all
link records in directory-scan order; the fallback clocks are: the stored
`documentClock` or 2 for the document record, the first page's stored clock
or 0 for the page record, the stored storage clock or
(widgets + links + 2) for the storage record, and for the widget and link
records the stored clock or the record's zero-based position in the list
(1-based shape index plus the constant offset 2). -/
theorem c6_record_order_and_clocks (md : Option PMeta) (gs : Blob)
    (wst : List (String × Blob)) (ws : List LoadedW) (ls : List PLinkRec) (tNow : Int) :
    ((generateRoomSnapshot md gs wst ws ls tNow).documents.map (fun d => pKind d.state) =
      ["document", "page", "canvas_storage"] ++ List.replicate ws.length "widget"
        ++ List.replicate ls.length "link") ∧
    (((generateRoomSnapshot md gs wst ws ls tNow).documents.getD 0 pgdDflt).lastChangedClock =
      jsOrIv (md.bind PMeta.documentClock) 2) ∧
    (((generateRoomSnapshot md gs wst ws ls tNow).documents.getD 1 pgdDflt).lastChangedClock =
      jsOrIv (md.bind fun m => (m.pages.head?).bind PMetaPage.lastChangedClock) 0) ∧
    (((generateRoomSnapshot md gs wst ws ls tNow).documents.getD 2 pgdDflt).lastChangedClock =
      jsOrIv (md.bind PMeta.canvasStorageClock) ((ws.length : Int) + (ls.length : Int) + 2)) ∧
    (∀ i : Nat, i < ws.length →
      ((generateRoomSnapshot md gs wst ws ls tNow).documents.getD (3 + i)
          pgdDflt).lastChangedClock =
        jsOrIv ((ws.getD i lwDflt).properties.lastChangedClock) (3 + (i : Int))) ∧
    (∀ j : Nat, j < ls.length →
      ((generateRoomSnapshot md gs wst ws ls tNow).documents.getD (3 + ws.length + j)
          pgdDflt).lastChangedClock =
        jsNzOr ((ls.getD j plDflt).lastChangedClock) (3 + (ws.length : Int) + (j : Int))) := by
  refine ⟨?_, rfl, rfl, rfl, ?_, ?_⟩
  · rw [generateRoomSnapshot_documents, List.map_append, List.map_append,
      genWidgetDocs_kinds, genLinkDocs_kinds]
    rfl
  · intro i hi
    rw [generateRoomSnapshot_documents, List.append_assoc]
    have h3 : 3 + i = i + 3 := by omega
    rw [h3, List.getD_append_right _ _ pgdDflt _ (by simp)]
    simp only [List.length_cons, List.length_nil]
    have h4 : i + 3 - 3 = i := by omega
    rw [h4, List.getD_append _ _ _ _ (by rw [genWidgetDocs_length]; exact hi)]
    rw [genWidgetDocs_getD _ _ _ _ _ hi]
    show jsOrIv ((ws.getD i lwDflt).properties.lastChangedClock) (1 + (i : Int) + 2) = _
    have h5 : 1 + (i : Int) + 2 = 3 + (i : Int) := by ring
    rw [h5]
  · intro j hj
    rw [generateRoomSnapshot_documents, List.append_assoc]
    have h3 : 3 + ws.length + j = (ws.length + j) + 3 := by omega
    rw [h3, List.getD_append_right _ _ pgdDflt _ (by simp)]
    simp only [List.length_cons, List.length_nil]
    have h4 : ws.length + j + 3 - 3 = ws.length + j := by omega
    rw [h4, List.getD_append_right _ _ _ _ (by rw [genWidgetDocs_length]; omega)]
    rw [genWidgetDocs_length]
    have h5 : ws.length + j - ws.length = j := by omega
    rw [h5, genLinkDocs_getD _ _ _ hj]
    show jsNzOr _ ((ws.length : Int) + 1 + (j : Int) + 2) = _
    have h6 : (ws.length : Int) + 1 + (j : Int) + 2 = 3 + (ws.length : Int) + (j : Int) := by
      ring
    rw [h6]

/-- Witness for C6 (amended): one widget (no stored clock) and one link
(stored clock 0) after empty metadata; the widget record sits at position 3
with fallback clock 3 and the link record at position 4 with fallback 4. -/
theorem c6_record_order_and_clocks_witness :
    ((generateRoomSnapshot none "g" [] [lwDflt] [plDflt] 0).documents.map
        (fun d => pKind d.state) =
      ["document", "page", "canvas_storage"] ++ List.replicate 1 "widget"
        ++ List.replicate 1 "link") ∧
    ((generateRoomSnapshot none "g" [] [lwDflt] [plDflt]
        0).documents.getD 3 pgdDflt).lastChangedClock = 3 ∧
    ((generateRoomSnapshot none "g" [] [lwDflt] [plDflt]
        0).documents.getD 4 pgdDflt).lastChangedClock = 4 := by
  have h := c6_record_order_and_clocks none "g" [] [lwDflt] [plDflt] 0
  refine ⟨h.1, ?_, ?_⟩
  · have := h.2.2.2.2.1 0 (by norm_num)
    simpa using this
  · have := h.2.2.2.2.2 0 (by norm_num)
    simpa using this

/-! ## Claim C4 -/

/-- The parsed content of the `properties.json` file of widget directory `n`
inside the room at `p`, when that file was generated by this run. -/
def propsFileAt (fs : Repo) (p : FPath) (n : String) : Option UWProps :=
  match lookupRepo fs p with
  | some d =>
    match alookup d.widgets n with
    | some wd =>
      match wd.propsF with
      | some (FData.gen wp) => some wp
      | _ => none
    | none => none
  | none => none

/-- A `miyagi-widget` record with every optional field absent. -/
def widgetShapeNR : UShape := bareShape "shape:w1" "miyagi-widget"

/-- A root room whose snapshot holds one widget record with no optional
fields. -/
def repoW : Repo :=
  [(["room-W"], dirWithCS (bareCS
    [{ state := URec.shape widgetShapeNR, lastChangedClock := some 7 }]))]

/-- The repository left by a full unpack run on `repoW`. -/
def runWfs : Repo :=
  match run 5 0 repoW with
  | some (_, fs) => fs
  | none => []

/-- Counterexample to C4 as stated: unpacking a widget record whose
`rotation`, `opacity`, `color` and `zoomScale` are absent writes a
properties file in which those keys are simply absent (`none`), not the
documented defaults 0, 1, "black", 1. -/
theorem c4_counterexample :
    run 5 0 repoW = some (0, runWfs) ∧
    (propsFileAt runWfs ["room-W"] "widget-w1").isSome = true ∧
    (propsFileAt runWfs ["room-W"] "widget-w1").bind UWProps.rotation = none ∧
    (propsFileAt runWfs ["room-W"] "widget-w1").bind UWProps.opacity = none ∧
    (propsFileAt runWfs ["room-W"] "widget-w1").bind UWProps.color = none ∧
    (propsFileAt runWfs ["room-W"] "widget-w1").bind UWProps.zoomScale = none := by
  refine ⟨rfl, ?_, ?_, ?_, ?_, ?_⟩ <;> decide

/-- The widget state of a produced widget record. -/
def genStateW : PGenState → Option PWidgetState
  | PGenState.widget st => some st
  | _ => none

/-- C4 (amended): the unpacker passes the optional widget fields through
unchanged, so an absent `rotation`/`opacity`/`color`/`zoomScale` is simply
omitted from the written properties file (never `null`); the documented
defaults (0, 1, "black", 1) are instead applied by the packer's
`generateRoomSnapshot` when it reads a properties file lacking them. -/
theorem c4_optional_field_defaults :
    (∀ (s : UShape) (clk : Option Int) (st : List (String × Blob)),
      (processMiyagiWidget s clk st).properties.rotation = s.rotation ∧
      (processMiyagiWidget s clk st).properties.opacity = s.opacity ∧
      (processMiyagiWidget s clk st).properties.color = (s.props).bind UShapeProps.color ∧
      (processMiyagiWidget s clk st).properties.zoomScale =
        (s.props).bind UShapeProps.zoomScale) ∧
    (∀ (w : LoadedW) (pid : String) (tNow i : Int),
      (w.properties.rotation = none →
        (genStateW (genWidgetDoc pid tNow i w).state).map PWidgetState.rotation = some 0) ∧
      (w.properties.opacity = none →
        (genStateW (genWidgetDoc pid tNow i w).state).map PWidgetState.opacity = some 1) ∧
      (w.properties.color = none →
        (genStateW (genWidgetDoc pid tNow i w).state).map PWidgetState.color =
          some "black") ∧
      (w.properties.zoomScale = none →
        (genStateW (genWidgetDoc pid tNow i w).state).map PWidgetState.zoomScale =
          some 1)) := by
  refine ⟨fun s clk st => ⟨rfl, rfl, rfl, rfl⟩, fun w pid tNow i => ⟨?_, ?_, ?_, ?_⟩⟩ <;>
    intro h <;> simp [genWidgetDoc, genStateW, h, jsOrIv, jsOrSv]

/-- Witness for C4 (amended) at the concrete record of `repoW` and the
concrete widget `lwDflt` (all fields absent). -/
theorem c4_optional_field_defaults_witness :
    ((processMiyagiWidget widgetShapeNR (some 7) []).properties.rotation =
      widgetShapeNR.rotation) ∧
    (lwDflt.properties.rotation = none →
      (genStateW (genWidgetDoc "page:page" 0 1 lwDflt).state).map PWidgetState.rotation =
        some 0) :=
  ⟨(c4_optional_field_defaults.1 widgetShapeNR (some 7) []).1,
    (c4_optional_field_defaults.2 lwDflt "page:page" 0 1).1⟩

/-! ## Claim C3 (counterexample part) -/

/-- The parsed content of the room's `canvas-metadata.json`, when generated
by this run. -/
def metaFileAt (fs : Repo) (p : FPath) : Option UMetaOut :=
  match lookupRepo fs p with
  | some d =>
    match d.metaF with
    | some (FData.gen m) => some m
    | _ => none
  | none => none

/-- A root room whose snapshot links to `room-B`, which does not exist on
disk. -/
def repoB : Repo :=
  [(["room-A"], dirWithCS (bareCS
    [{ state := URec.shape (linkShape "shape:l1" "room-B"), lastChangedClock := some 5 }]))]

/-- The traversal result of the broken-link scenario. -/
def stB : TravSt :=
  match traverseCanvasGraph 0 9 (initSt repoB "room-A") with
  | TravRes.done s => s
  | TravRes.aborted s => s
  | TravRes.outOfFuel s => s

/-- The repository left by a full unpack run on `repoB`. -/
def runBfs : Repo :=
  match run 9 0 repoB with
  | some (_, fs) => fs
  | none => []

/-- Counterexample to C3 as stated: for a link whose target directory does
not exist, the unpacker indeed writes no link-descriptor file (the target
directory is never created), but it *does* enqueue the target room: the
nonexistent `room-A/room-B` is pushed onto the BFS queue and later popped. -/
theorem c3_counterexample :
    lookupRepo repoB ["room-A", "room-B"] = none ∧
    traverseCanvasGraph 0 9 (initSt repoB "room-A") = TravRes.done stB ∧
    ["room-A", "room-B"] ∈ stB.pushed ∧
    ["room-A", "room-B"] ∈ stB.pops ∧
    run 9 0 repoB = some (0, runBfs) ∧
    lookupRepo runBfs ["room-A", "room-B"] = none := by
  refine ⟨rfl, rfl, ?_, ?_, rfl, rfl⟩ <;> decide

/-! ## Claim C7 (counterexample part) -/

/-- A directory whose `canvas-state.json` exists but is malformed JSON. -/
def dirMalformed : RoomData := { bareDir with snapshot := some none }

/-- Root `room-A` links to siblings `room-B` (malformed snapshot) and
`room-C` (well-formed snapshot). -/
def repoC : Repo :=
  [ (["room-A"], dirWithCS (bareCS
      [ { state := URec.shape (linkShape "shape:l1" "room-B"), lastChangedClock := some 5 }
      , { state := URec.shape (linkShape "shape:l2" "room-C"), lastChangedClock := some 6 } ]))
  , (["room-A", "room-B"], dirMalformed)
  , (["room-A", "room-C"], dirWithCS (bareCS [])) ]

/-- The traversal result of the malformed-snapshot scenario. -/
def stC : TravSt :=
  match traverseCanvasGraph 0 9 (initSt repoC "room-A") with
  | TravRes.done s => s
  | TravRes.aborted s => s
  | TravRes.outOfFuel s => s

/-- Counterexample to C7 as stated: a malformed snapshot in `room-B` aborts
the whole run with exit code 1; the sibling `room-C`, although enqueued with
a perfectly good snapshot, is still in the queue at the abort and is never
processed (its metadata file is never written), and no collector pass runs. -/
theorem c7_counterexample :
    snapFileAt repoC ["room-A", "room-B"] = some none ∧
    snapFileAt repoC ["room-A", "room-C"] = some (some (bareCS [])) ∧
    traverseCanvasGraph 0 9 (initSt repoC "room-A") = TravRes.aborted stC ∧
    stC.queue = [["room-A", "room-C"]] ∧
    metaFileAt stC.fs ["room-A", "room-C"] = none ∧
    run 9 0 repoC = some (1, stC.fs) := by
  refine ⟨rfl, rfl, rfl, ?_, ?_, rfl⟩ <;> decide

/-! ## Claim C8 (counterexample part) -/

/-- The repository left by a second unpack run (at time 1) on `runWfs`. -/
def runW2fs : Repo :=
  match run 5 1 runWfs with
  | some (_, fs) => fs
  | none => []

/-- Counterexample to C8 as stated: running the unpacker twice on the same
snapshot tree rewrites `canvas-metadata.json` with a fresh `generatedAt`
timestamp, so the file written by the second run differs from the one the
first run left on disk. -/
theorem c8_counterexample :
    run 5 0 repoW = some (0, runWfs) ∧
    run 5 1 runWfs = some (0, runW2fs) ∧
    (metaFileAt runWfs ["room-W"]).map UMetaOut.generatedAt = some 0 ∧
    (metaFileAt runW2fs ["room-W"]).map UMetaOut.generatedAt = some 1 ∧
    runW2fs ≠ runWfs := by
  refine ⟨rfl, rfl, ?_, ?_, ?_⟩ <;> decide

/-! ## Claim C1 (counterexample part) -/

/-- Inversion for `ReachedBy`: a reached path is the root or extends a
processed room by one discovered link target. -/
theorem reachedBy_inv {fs : Repo} {s : TravSt} {root q : FPath}
    (h : ReachedBy fs s root q) :
    q = root ∨ ∃ p tn, q = p ++ [tn] ∧ p ∈ processedRooms fs s ∧ tn ∈ targetsAt fs p := by
  cases h with
  | root => exact Or.inl rfl
  | step hr hp ht => exact Or.inr ⟨_, _, rfl, hp, ht⟩

/-- The repository left by a full unpack run on `repoA`. -/
def runAfs : Repo :=
  match run 9 0 repoA with
  | some (_, fs) => fs
  | none => []

/-- Counterexample to C1 as stated: after a full unpack run on `repoA`
(root `room-A` links to `room-B`; `room-B` has no snapshot file and contains
`room-C`), the run completes with exit code 0 and both collector passes,
yet the room directory `room-A/room-B/room-C` is retained in the final tree
although it is not the root and no path of link records discovered during
the run leads to it. -/
theorem c1_counterexample :
    traverseCanvasGraph 0 9 (initSt repoA "room-A") = TravRes.done stA ∧
    run 9 0 repoA = some (0, runAfs) ∧
    (lookupRepo runAfs ["room-A", "room-B", "room-C"]).isSome = true ∧
    ["room-A", "room-B", "room-C"] ≠ (["room-A"] : FPath) ∧
    ¬ ReachedBy repoA stA ["room-A"] ["room-A", "room-B", "room-C"] := by
  refine ⟨rfl, rfl, by decide, by decide, ?_⟩
  intro h
  rcases reachedBy_inv h with heq | ⟨p, tn, heq, hp, _⟩
  · exact absurd heq (by decide)
  · have hpr : processedRooms repoA stA = [["room-A"]] := by decide
    rw [hpr, List.mem_singleton] at hp
    subst hp
    simp at heq

/-! ## Proof machinery: write operations and the skeleton of a repository

The traversal reads the repository only through its *skeleton* (which
directories exist and what their `canvas-state.json` parses to), and its
writes never change that skeleton.  To exploit this, the file writes are
reified as a list of operations (`WOp`) and the control part of the
traversal is factored into `ctrl`, a function of the skeleton alone; the
factoring theorem `traverse_eq_ctrl` proves that `traverseCanvasGraph` equals `ctrl`
followed by `applyOps`. -/

/-- One file-system write of the unpacker. -/
inductive WOp where
  | wmeta (p : FPath) (m : UMetaOut)
  | wgstore (p : FPath) (b : Blob)
  | wwidget (p : FPath) (n : String) (f : WDirF)
  | wlink (p : FPath) (l : ULinkInfoOut)
deriving DecidableEq

/-- Apply one write. -/
def applyOp (fs : Repo) : WOp → Repo
  | WOp.wmeta p m => updateRepo fs p (fun d => { d with metaF := some (FData.gen m) })
  | WOp.wgstore p b => updateRepo fs p (fun d => { d with gstoreF := some (FData.gen b) })
  | WOp.wwidget p n f => updateRepo fs p (fun d => { d with widgets := upsertWidget d.widgets n f })
  | WOp.wlink p l => updateRepo fs p (fun d => { d with linkF := some (FData.gen l) })

/-- Apply a list of writes in order. -/
def applyOps (fs : Repo) (ops : List WOp) : Repo := ops.foldl applyOp fs

/-- The effect of one write on the directory at `p`. -/
def opTransform (o : WOp) (p : FPath) (d : RoomData) : RoomData :=
  match o with
  | WOp.wmeta q m => if q = p then { d with metaF := some (FData.gen m) } else d
  | WOp.wgstore q b => if q = p then { d with gstoreF := some (FData.gen b) } else d
  | WOp.wwidget q n f => if q = p then { d with widgets := upsertWidget d.widgets n f } else d
  | WOp.wlink q l => if q = p then { d with linkF := some (FData.gen l) } else d

/-- The effect of a list of writes on the directory at `p`. -/
def opsTransform (ops : List WOp) (p : FPath) (d : RoomData) : RoomData :=
  ops.foldl (fun d o => opTransform o p d) d

/-- `updateRepo` rewrites every entry at the path, entrywise. -/
theorem applyOp_entrywise (fs : Repo) (o : WOp) :
    applyOp fs o = fs.map (fun e => (e.1, opTransform o e.1 e.2)) := by
  cases o with
  | wmeta q m =>
    simp only [applyOp, updateRepo, opTransform]
    refine List.map_congr_left (fun e _ => ?_)
    by_cases h : e.1 = q
    · subst h
      simp
    · simp [h, Ne.symm h]
  | wgstore q b =>
    simp only [applyOp, updateRepo, opTransform]
    refine List.map_congr_left (fun e _ => ?_)
    by_cases h : e.1 = q
    · subst h
      simp
    · simp [h, Ne.symm h]
  | wwidget q n f =>
    simp only [applyOp, updateRepo, opTransform]
    refine List.map_congr_left (fun e _ => ?_)
    by_cases h : e.1 = q
    · subst h
      simp
    · simp [h, Ne.symm h]
  | wlink q l =>
    simp only [applyOp, updateRepo, opTransform]
    refine List.map_congr_left (fun e _ => ?_)
    by_cases h : e.1 = q
    · subst h
      simp
    · simp [h, Ne.symm h]

/-- `applyOps` acts entrywise via `opsTransform`. -/
theorem applyOps_entrywise (ops : List WOp) (fs : Repo) :
    applyOps fs ops = fs.map (fun e => (e.1, opsTransform ops e.1 e.2)) := by
  induction ops generalizing fs with
  | nil => simp [applyOps, opsTransform]
  | cons o rest ih =>
    show applyOps (applyOp fs o) rest = _
    rw [ih, applyOp_entrywise, List.map_map]
    rfl

/-- Applying writes in two batches. -/
theorem applyOps_append (fs : Repo) (a b : List WOp) :
    applyOps fs (a ++ b) = applyOps (applyOps fs a) b := by
  simp [applyOps, List.foldl_append]

/-- The skeleton of a repository: each directory path with its snapshot
parse result. -/
abbrev Skel := List (FPath × Option (Option CanvasState))

/-- Lookup by path in an association list over paths. -/
def plookup {α : Type} (l : List (FPath × α)) (p : FPath) : Option α :=
  match l with
  | [] => none
  | e :: rest => if e.1 = p then some e.2 else plookup rest p

/-- The skeleton of a repository. -/
def skelOf (fs : Repo) : Skel := fs.map (fun e => (e.1, e.2.snapshot))

/-- Snapshot lookup through the skeleton. -/
def skSnapAt (sk : Skel) (p : FPath) : Option (Option CanvasState) :=
  (plookup sk p).bind id

/-- Directory existence in the skeleton. -/
def skExists (sk : Skel) (p : FPath) : Bool := (plookup sk p).isSome

/-- The `room-*` entries directly inside `p`, read from the skeleton. -/
def skChildren (sk : Skel) (p : FPath) : List String :=
  sk.filterMap (fun e =>
    match childOf p e.1 with
    | some n => if strStarts n "room-" then some n else none
    | none => none)

/-- The writes performed by `unpackRoom` for the room at `p`, as a list of
operations; the existence check of `storeCanvasLinkInfo` is evaluated on
the skeleton. -/
def roomOps (sk : Skel) (p : FPath) (pd : PDocs) (cs : CanvasState) (t : Int) : List WOp :=
  [WOp.wmeta p (genCanvasMetadata pd cs t), WOp.wgstore p (genGlobalStorage pd)]
  ++ pd.widgets.map (fun w => WOp.wwidget p (widgetDirName w.shapeId) (widgetFilesOf w))
  ++ pd.canvasLinks.filterMap (fun l =>
      match l.properties.targetCanvasId with
      | some tn =>
        if tn = "" then none
        else if skExists sk (p ++ [tn]) then
          some (WOp.wlink (p ++ [tn]) (genLinkInfo (basename p) l))
        else none
      | none => none)

/-- The control state of the traversal (everything but the repository). -/
structure CtrlSt where
  queue : List FPath
  visited : List String
  cand : List FPath
  pw : List FPath
  pops : List FPath
  pushed : List FPath
deriving DecidableEq

/-- Result of the control part, carrying the writes it would perform. -/
inductive CtrlRes where
  | done (c : CtrlSt) (ops : List WOp)
  | aborted (c : CtrlSt) (ops : List WOp)
  | outOfFuel (c : CtrlSt) (ops : List WOp)
deriving DecidableEq

/-- The control part of `traverseCanvasGraph`: the same recursion, reading only the
skeleton and emitting the writes instead of performing them. -/
def ctrl (sk : Skel) (t : Int) : Nat → CtrlSt → CtrlRes
  | 0, c => if c.queue.isEmpty then CtrlRes.done c [] else CtrlRes.outOfFuel c []
  | Nat.succ n, c =>
    match c.queue with
    | [] => CtrlRes.done c []
    | p :: rest =>
      let c0 : CtrlSt := { c with queue := rest, pops := c.pops ++ [p] }
      match skSnapAt sk p with
      | none => ctrl sk t n c0
      | some parseRes =>
        let cand1 := collectCands p (skChildren sk p) c0.cand
        let visited1 := insertNew c0.visited (basename p)
        match parseRes with
        | none => CtrlRes.aborted { c0 with cand := cand1, visited := visited1 } []
        | some cs =>
          let pd := processDocs cs
          let (cand2, pushedNew) := pd.canvasLinks.foldl (linkStep p visited1) (cand1, [])
          match ctrl sk t n
            { queue := rest ++ pushedNew
              visited := visited1
              cand := cand2
              pw := c0.pw ++ pd.widgets.map (fun w => p ++ [widgetDirName w.shapeId])
              pops := c0.pops
              pushed := c0.pushed ++ pushedNew } with
          | CtrlRes.done c' ops => CtrlRes.done c' (roomOps sk p pd cs t ++ ops)
          | CtrlRes.aborted c' ops => CtrlRes.aborted c' (roomOps sk p pd cs t ++ ops)
          | CtrlRes.outOfFuel c' ops => CtrlRes.outOfFuel c' (roomOps sk p pd cs t ++ ops)

/-- The control fields of a traversal state. -/
def ctrlOfTrav (st : TravSt) : CtrlSt :=
  { queue := st.queue, visited := st.visited, cand := st.cand, pw := st.pw
    pops := st.pops, pushed := st.pushed }

/-- Rebuild a traversal state from a control state and the writes. -/
def travOfCtrl (fs : Repo) (c : CtrlSt) (ops : List WOp) : TravSt :=
  { queue := c.queue, visited := c.visited, cand := c.cand, pw := c.pw
    pops := c.pops, pushed := c.pushed, fs := applyOps fs ops }

/-- Package a control result as a traversal result over `fs`. -/
def travResOfCtrl (fs : Repo) : CtrlRes → TravRes
  | CtrlRes.done c ops => TravRes.done (travOfCtrl fs c ops)
  | CtrlRes.aborted c ops => TravRes.aborted (travOfCtrl fs c ops)
  | CtrlRes.outOfFuel c ops => TravRes.outOfFuel (travOfCtrl fs c ops)

/-! ## Bridging repository reads and skeleton reads -/

/-- Skeleton lookup is repository lookup projected to the snapshot. -/
theorem plookup_skelOf (fs : Repo) (p : FPath) :
    plookup (skelOf fs) p = (lookupRepo fs p).map RoomData.snapshot := by
  induction fs with
  | nil => rfl
  | cons e rest ih =>
    simp only [skelOf, List.map_cons, plookup, lookupRepo]
    by_cases h : e.1 = p
    · simp [h]
    · simp only [h, if_false]
      exact ih

/-- Snapshot reads agree between repository and skeleton. -/
theorem skSnapAt_skelOf (fs : Repo) (p : FPath) : skSnapAt (skelOf fs) p = snapFileAt fs p := by
  rw [skSnapAt, plookup_skelOf, snapFileAt]
  cases lookupRepo fs p <;> rfl

/-- Existence checks agree between repository and skeleton. -/
theorem skExists_skelOf (fs : Repo) (p : FPath) :
    skExists (skelOf fs) p = (lookupRepo fs p).isSome := by
  rw [skExists, plookup_skelOf]
  cases lookupRepo fs p <;> rfl

/-- Child listings agree between repository and skeleton. -/
theorem skChildren_skelOf (fs : Repo) (p : FPath) :
    skChildren (skelOf fs) p = roomChildNames fs p := by
  rw [skChildren, skelOf, List.filterMap_map]
  rfl

/-- A write never changes a directory's snapshot. -/
theorem opTransform_snapshot (o : WOp) (p : FPath) (d : RoomData) :
    (opTransform o p d).snapshot = d.snapshot := by
  cases o <;> simp only [opTransform] <;> split <;> rfl

/-- A write never changes the skeleton. -/
theorem skelOf_applyOp (fs : Repo) (o : WOp) : skelOf (applyOp fs o) = skelOf fs := by
  rw [applyOp_entrywise, skelOf, skelOf, List.map_map]
  refine List.map_congr_left (fun e _ => ?_)
  simp [opTransform_snapshot]

/-- Writes never change the skeleton. -/
theorem skelOf_applyOps (fs : Repo) (ops : List WOp) : skelOf (applyOps fs ops) = skelOf fs := by
  induction ops generalizing fs with
  | nil => rfl
  | cons o rest ih =>
    show skelOf (applyOps (applyOp fs o) rest) = _
    rw [ih, skelOf_applyOp]

/-- The widget-directory write loop, factored. -/
theorem widgetFold_eq (p : FPath) (ws : List UWidgetOut) :
    ∀ (fs : Repo) (acc : List FPath),
    ws.foldl
      (fun (acc : Repo × List FPath) w =>
        let n := widgetDirName w.shapeId
        (updateRepo acc.1 p (fun d => { d with widgets := upsertWidget d.widgets n (widgetFilesOf w) }),
         acc.2 ++ [p ++ [n]]))
      (fs, acc) =
    (applyOps fs (ws.map (fun w => WOp.wwidget p (widgetDirName w.shapeId) (widgetFilesOf w))),
     acc ++ ws.map (fun w => p ++ [widgetDirName w.shapeId])) := by
  induction ws with
  | nil => intro fs acc; simp [applyOps]
  | cons w rest ih =>
    intro fs acc
    rw [List.foldl_cons, ih]
    simp only [applyOps, List.map_cons, List.foldl_cons, List.append_assoc]
    rfl

/-- The link-descriptor write loop, factored through the skeleton. -/
theorem linkFold_eq (p : FPath) (pn : String) (ls : List ULinkOut) :
    ∀ fs : Repo,
    ls.foldl
      (fun acc l =>
        match l.properties.targetCanvasId with
        | some tn =>
          if tn = "" then acc
          else
            let tgt := p ++ [tn]
            if (lookupRepo acc tgt).isSome then
              updateRepo acc tgt (fun d => { d with linkF := some (FData.gen (genLinkInfo pn l)) })
            else acc
        | none => acc)
      fs =
    applyOps fs (ls.filterMap (fun l =>
      match l.properties.targetCanvasId with
      | some tn =>
        if tn = "" then none
        else if skExists (skelOf fs) (p ++ [tn]) then
          some (WOp.wlink (p ++ [tn]) (genLinkInfo pn l))
        else none
      | none => none)) := by
  induction ls with
  | nil => intro fs; rfl
  | cons l rest ih =>
    intro fs
    rw [List.foldl_cons, List.filterMap_cons]
    rcases hl : l.properties.targetCanvasId with _ | tn
    · simp only [hl]
      exact ih fs
    · simp only [hl]
      by_cases he : tn = ""
      · simp only [he, if_pos rfl]
        exact ih fs
      · rw [if_neg he, if_neg he, skExists_skelOf]
        by_cases hex : (lookupRepo fs (p ++ [tn])).isSome = true
        · rw [if_pos hex, if_pos hex]
          have hstep : (updateRepo fs (p ++ [tn])
              (fun d => { d with linkF := some (FData.gen (genLinkInfo pn l)) })) =
              applyOp fs (WOp.wlink (p ++ [tn]) (genLinkInfo pn l)) := rfl
          rw [hstep, ih]
          rw [show skelOf (applyOp fs (WOp.wlink (p ++ [tn]) (genLinkInfo pn l))) = skelOf fs
            from skelOf_applyOp fs _]
          rfl
        · rw [if_neg hex, if_neg hex]
          exact ih fs

/-- `unpackRoom`'s writes are exactly `roomOps` applied to the repository,
and the `processedWidgets` additions are the generated widget paths. -/
theorem unpackWrites_eq (fs : Repo) (p : FPath) (pd : PDocs) (cs : CanvasState) (t : Int) :
    unpackWrites fs p pd cs t =
      (applyOps fs (roomOps (skelOf fs) p pd cs t),
       pd.widgets.map (fun w => p ++ [widgetDirName w.shapeId])) := by
  rw [unpackWrites]
  have h1 : updateRepo fs p (fun d => { d with metaF := some (FData.gen (genCanvasMetadata pd cs t)) }) =
      applyOp fs (WOp.wmeta p (genCanvasMetadata pd cs t)) := rfl
  have h2 : ∀ fs' : Repo,
      updateRepo fs' p (fun d => { d with gstoreF := some (FData.gen (genGlobalStorage pd)) }) =
      applyOp fs' (WOp.wgstore p (genGlobalStorage pd)) := fun _ => rfl
  rw [h1, h2, widgetFold_eq p pd.widgets]
  dsimp only
  rw [linkFold_eq p (basename p) pd.canvasLinks]
  rw [roomOps]
  have hsk : skelOf (applyOps (applyOp (applyOp fs (WOp.wmeta p (genCanvasMetadata pd cs t)))
      (WOp.wgstore p (genGlobalStorage pd)))
      (pd.widgets.map (fun w => WOp.wwidget p (widgetDirName w.shapeId) (widgetFilesOf w)))) =
      skelOf fs := by
    rw [skelOf_applyOps, skelOf_applyOp, skelOf_applyOp]
  rw [hsk]
  rw [applyOps_append, applyOps_append]
  rfl

/-- Prepend writes to a control result. -/
def prependOps (ro : List WOp) : CtrlRes → CtrlRes
  | CtrlRes.done c ops => CtrlRes.done c (ro ++ ops)
  | CtrlRes.aborted c ops => CtrlRes.aborted c (ro ++ ops)
  | CtrlRes.outOfFuel c ops => CtrlRes.outOfFuel c (ro ++ ops)

/-- Packaging after prepended writes. -/
theorem travResOfCtrl_prepend (fs : Repo) (ro : List WOp) (r : CtrlRes) :
    travResOfCtrl (applyOps fs ro) r = travResOfCtrl fs (prependOps ro r) := by
  cases r <;> simp [travResOfCtrl, prependOps, travOfCtrl, applyOps_append]

/-- Factoring theorem: the traversal is its control part (a function of the
repository's skeleton alone) followed by the emitted writes. -/
theorem traverse_eq_ctrl (t : Int) :
    ∀ (n : Nat) (st : TravSt),
    traverseCanvasGraph t n st = travResOfCtrl st.fs (ctrl (skelOf st.fs) t n (ctrlOfTrav st)) := by
  intro n
  induction n with
  | zero =>
    intro st
    rw [traverseCanvasGraph, ctrl]
    by_cases h : st.queue.isEmpty
    · rw [if_pos h, if_pos (show (ctrlOfTrav st).queue.isEmpty = true from h)]
      rfl
    · rw [if_neg h, if_neg (show ¬(ctrlOfTrav st).queue.isEmpty = true from h)]
      rfl
  | succ n ih =>
    intro st
    obtain ⟨q, v, cd, pw, pos, pu, fs⟩ := st
    rw [traverseCanvasGraph, ctrl]
    rcases q with _ | ⟨p, rest⟩
    · rfl
    · dsimp only [ctrlOfTrav]
      rw [skSnapAt_skelOf]
      cases hsnap : snapFileAt fs p with
      | none =>
        dsimp only
        exact ih _
      | some pres =>
        cases pres with
        | none =>
          dsimp only
          rw [skChildren_skelOf]
          rfl
        | some cs =>
          dsimp only
          rw [skChildren_skelOf]
          rw [unpackWrites_eq]
          dsimp only
          rw [ih]
          dsimp only [ctrlOfTrav]
          rw [skelOf_applyOps, travResOfCtrl_prepend]
          rcases hr : ctrl (skelOf fs) t n _ with ⟨c', ops⟩ | ⟨c', ops⟩ | ⟨c', ops⟩ <;>
            simp only [prependOps]

/-! ## Invariants of the control part

These lemmas characterise the sets accumulated by a completed control run:
which directories end up as deletion candidates, which names are visited,
which widget paths are protected, and which writes are emitted. -/

/-- Membership in a `Set.add`. -/
theorem mem_insertNew {α : Type} [DecidableEq α] (l : List α) (x y : α) :
    y ∈ insertNew l x ↔ y ∈ l ∨ y = x := by
  by_cases h : x ∈ l
  · simp only [insertNew, if_pos h]
    constructor
    · exact Or.inl
    · rintro (hy | rfl)
      · exact hy
      · exact h
  · simp [insertNew, if_neg h]

/-- `Set.add` keeps the list duplicate-free. -/
theorem insertNew_nodup {α : Type} [DecidableEq α] (l : List α) (x : α) (h : l.Nodup) :
    (insertNew l x).Nodup := by
  by_cases hx : x ∈ l
  · simpa [insertNew, if_pos hx] using h
  · simp [insertNew, if_neg hx, List.nodup_append, h, hx]

/-- Membership after collecting the `room-*` children of `p`. -/
theorem mem_collectCands (p : FPath) (ns : List String) (cand : List FPath) (x : FPath) :
    x ∈ collectCands p ns cand ↔ x ∈ cand ∨ ∃ n' ∈ ns, x = p ++ [n'] := by
  induction ns generalizing cand with
  | nil => simp [collectCands]
  | cons n' rest ih =>
    rw [collectCands, List.foldl_cons]
    rw [show List.foldl (fun cc m => insertNew cc (p ++ [m])) (insertNew cand (p ++ [n'])) rest
      = collectCands p rest (insertNew cand (p ++ [n'])) from rfl]
    rw [ih, mem_insertNew]
    constructor
    · rintro ((hc | rfl) | ⟨m, hm, rfl⟩)
      · exact Or.inl hc
      · exact Or.inr ⟨n', List.mem_cons_self _ _, rfl⟩
      · exact Or.inr ⟨m, List.mem_cons_of_mem _ hm, rfl⟩
    · rintro (hc | ⟨m, hm, rfl⟩)
      · exact Or.inl (Or.inl hc)
      · rcases List.mem_cons.1 hm with rfl | hm'
        · exact Or.inl (Or.inr rfl)
        · exact Or.inr ⟨m, hm', rfl⟩

/-- Candidate collection keeps the set duplicate-free. -/
theorem collectCands_nodup (p : FPath) (ns : List String) (cand : List FPath)
    (h : cand.Nodup) : (collectCands p ns cand).Nodup := by
  induction ns generalizing cand with
  | nil => exact h
  | cons n' rest ih =>
    rw [collectCands, List.foldl_cons]
    exact ih _ (insertNew_nodup _ _ h)

/-- The truthy targets of a list of link records. -/
def linkTargets (ls : List ULinkOut) : List String :=
  ls.filterMap (fun l =>
    match l.properties.targetCanvasId with
    | some tn => if tn = "" then none else some tn
    | none => none)

/-- `targetsOf` through `linkTargets`. -/
theorem targetsOf_eq (cs : CanvasState) :
    targetsOf cs = linkTargets (processDocs cs).canvasLinks := rfl

/-- `linkTargets` on a cons cell. -/
theorem linkTargets_cons (l : ULinkOut) (rest : List ULinkOut) :
    linkTargets (l :: rest) =
      (match l.properties.targetCanvasId with
       | some tn => if tn = "" then linkTargets rest else tn :: linkTargets rest
       | none => linkTargets rest) := by
  rw [linkTargets, List.filterMap_cons]
  rcases l.properties.targetCanvasId with _ | tn
  · rfl
  · by_cases he : tn = "" <;> simp [he, linkTargets]

/-- The link loop keeps the candidate set duplicate-free. -/
theorem linkFold_nodup (p : FPath) (vis : List String) (ls : List ULinkOut) :
    ∀ acc : List FPath × List FPath, acc.1.Nodup → (ls.foldl (linkStep p vis) acc).1.Nodup := by
  induction ls with
  | nil => intro acc h; exact h
  | cons l rest ih =>
    intro acc h
    rw [List.foldl_cons]
    refine ih _ ?_
    rcases hl : l.properties.targetCanvasId with _ | tn
    · simpa [linkStep, hl] using h
    · by_cases he : tn = ""
      · simpa [linkStep, hl, he] using h
      · simpa [linkStep, hl, he] using h.erase _

/-- After the link loop, a path is still a candidate iff it was one before
and is not a truthy link target of the processed room. -/
theorem linkFold_fst_mem (p : FPath) (vis : List String) (ls : List ULinkOut) :
    ∀ (acc : List FPath × List FPath) (x : FPath), acc.1.Nodup →
    (x ∈ (ls.foldl (linkStep p vis) acc).1 ↔
      x ∈ acc.1 ∧ ¬∃ tn ∈ linkTargets ls, x = p ++ [tn]) := by
  induction ls with
  | nil => intro acc x h; simp [linkTargets]
  | cons l rest ih =>
    intro acc x h
    rw [List.foldl_cons]
    rcases hl : l.properties.targetCanvasId with _ | tn
    · rw [show linkStep p vis acc l = acc from by simp [linkStep, hl]]
      rw [ih acc x h, linkTargets_cons, hl]
    · by_cases he : tn = ""
      · rw [show linkStep p vis acc l = acc from by simp [linkStep, hl, he]]
        rw [ih acc x h, linkTargets_cons, hl]
        dsimp only
        rw [if_pos he]
      · rw [show linkStep p vis acc l =
          (acc.1.erase (p ++ [tn]), if tn ∈ vis then acc.2 else acc.2 ++ [p ++ [tn]]) from by
            simp [linkStep, hl, he]]
        rw [ih _ x (h.erase _)]
        rw [linkTargets_cons, hl]
        dsimp only
        rw [if_neg he]
        rw [h.mem_erase_iff]
        constructor
        · rintro ⟨⟨hne, hx⟩, hnt⟩
          refine ⟨hx, ?_⟩
          rintro ⟨tn', htn', rfl⟩
          rcases List.mem_cons.1 htn' with rfl | htn''
          · exact hne rfl
          · exact hnt ⟨tn', htn'', rfl⟩
        · rintro ⟨hx, hnt⟩
          refine ⟨⟨?_, hx⟩, ?_⟩
          · intro he2
            exact hnt ⟨tn, List.mem_cons_self _ _, he2⟩
          · rintro ⟨tn', htn', rfl⟩
            exact hnt ⟨tn', List.mem_cons_of_mem _ htn', rfl⟩

/-- After the link loop, the enqueued paths are exactly the truthy targets
whose names are not yet visited. -/
theorem linkFold_snd_mem (p : FPath) (vis : List String) (ls : List ULinkOut) :
    ∀ (acc : List FPath × List FPath) (x : FPath),
    (x ∈ (ls.foldl (linkStep p vis) acc).2 ↔
      x ∈ acc.2 ∨ ∃ tn ∈ linkTargets ls, x = p ++ [tn] ∧ tn ∉ vis) := by
  induction ls with
  | nil => intro acc x; simp [linkTargets]
  | cons l rest ih =>
    intro acc x
    rw [List.foldl_cons]
    rcases hl : l.properties.targetCanvasId with _ | tn
    · rw [show linkStep p vis acc l = acc from by simp [linkStep, hl]]
      rw [ih acc x, linkTargets_cons, hl]
    · by_cases he : tn = ""
      · rw [show linkStep p vis acc l = acc from by simp [linkStep, hl, he]]
        rw [ih acc x, linkTargets_cons, hl]
        dsimp only
        rw [if_pos he]
      · rw [show linkStep p vis acc l =
          (acc.1.erase (p ++ [tn]), if tn ∈ vis then acc.2 else acc.2 ++ [p ++ [tn]]) from by
            simp [linkStep, hl, he]]
        rw [ih, linkTargets_cons, hl]
        dsimp only
        rw [if_neg he]
        by_cases hv : tn ∈ vis
        · rw [if_pos hv]
          constructor
          · rintro (hx | ⟨tn', ht', rfl, hnv⟩)
            · exact Or.inl hx
            · exact Or.inr ⟨tn', List.mem_cons_of_mem _ ht', rfl, hnv⟩
          · rintro (hx | ⟨tn', ht', rfl, hnv⟩)
            · exact Or.inl hx
            · rcases List.mem_cons.1 ht' with rfl | ht''
              · exact absurd hv hnv
              · exact Or.inr ⟨tn', ht'', rfl, hnv⟩
        · rw [if_neg hv]
          constructor
          · rintro (hx | ⟨tn', ht', rfl, hnv⟩)
            · rcases List.mem_append.1 hx with hx' | hx''
              · exact Or.inl hx'
              · rw [List.mem_singleton] at hx''
                exact Or.inr ⟨tn, List.mem_cons_self _ _, hx'', hv⟩
            · exact Or.inr ⟨tn', List.mem_cons_of_mem _ ht', rfl, hnv⟩
          · rintro (hx | ⟨tn', ht', rfl, hnv⟩)
            · exact Or.inl (List.mem_append.2 (Or.inl hx))
            · rcases List.mem_cons.1 ht' with rfl | ht''
              · exact Or.inl (List.mem_append.2 (Or.inr (List.mem_singleton.2 rfl)))
              · exact Or.inr ⟨tn', ht'', rfl, hnv⟩

/-- The processed rooms of a control run: popped paths whose snapshot
parses. -/
def procdC (sk : Skel) (pops : List FPath) : List FPath :=
  pops.filter (fun p =>
    match skSnapAt sk p with
    | some (some _) => true
    | _ => false)

/-- The writes one dequeued path contributes. -/
def opsOfRoom (sk : Skel) (t : Int) (p : FPath) : List WOp :=
  match skSnapAt sk p with
  | some (some cs) => roomOps sk p (processDocs cs) cs t
  | _ => []

/-- A directory is *linked*: the room containing it has a parseable
snapshot with a truthy link record targeting its name. -/
def Linked (sk : Skel) (x : FPath) : Prop :=
  ∃ cs, skSnapAt sk x.dropLast = some (some cs) ∧ basename x ∈ targetsOf cs

/-- Every proper-depth stage of the path is linked. -/
def WellChained (sk : Skel) (x : FPath) : Prop :=
  ∀ k, 2 ≤ k → k ≤ x.length → Linked sk (x.take k)

/-- `basename` of an extended path. -/
theorem basename_concat (p : FPath) (n : String) : basename (p ++ [n]) = n := by
  simp [basename]

/-- `dropLast` of an extended path. -/
theorem dropLast_concat' (p : FPath) (n : String) : (p ++ [n]).dropLast = p :=
  List.dropLast_concat ..

/-- A well-chained path of depth at least two is itself linked. -/
theorem WellChained.self {sk : Skel} {x : FPath} (h : WellChained sk x) (hl : 2 ≤ x.length) :
    Linked sk x := by
  have := h x.length hl le_rfl
  rwa [List.take_length] at this

/-- Extending a well-chained path by a linked step. -/
theorem WellChained.extend {sk : Skel} {p : FPath} {n : String}
    (h : WellChained sk p) (hl : Linked sk (p ++ [n])) : WellChained sk (p ++ [n]) := by
  intro k hk2 hkle
  rw [List.length_append, List.length_singleton] at hkle
  rcases Nat.lt_or_ge k (p.length + 1) with hlt | hge
  · rw [List.take_append_of_le_length (by omega)]
    exact h k hk2 (by omega)
  · have hk : k = p.length + 1 := by omega
    rw [hk, show p.length + 1 = (p ++ [n]).length from by simp, List.take_length]
    exact hl

/-- `childOf` recognises exactly one-step extensions. -/
theorem childOf_eq (p : FPath) : ∀ (q : FPath) (n : String),
    childOf p q = some n ↔ q = p ++ [n] := by
  induction p with
  | nil =>
    intro q n
    rcases q with _ | ⟨b, _ | ⟨b2, q2⟩⟩
    · simp [childOf]
    · simp [childOf]
    · simp [childOf]
  | cons a p' ih =>
    intro q n
    rcases q with _ | ⟨b, q'⟩
    · simp [childOf]
    · rw [childOf]
      by_cases hab : a = b
      · subst hab
        rw [if_pos rfl, ih]
        simp
      · rw [if_neg hab]
        simp [Ne.symm hab]

/-- A key present in the association list makes `plookup` succeed. -/
theorem plookup_isSome_of_mem {α : Type} (l : List (FPath × α)) (p : FPath) (v : α)
    (h : (p, v) ∈ l) : (plookup l p).isSome = true := by
  induction l with
  | nil => cases h
  | cons e rest ih =>
    rw [plookup]
    by_cases he : e.1 = p
    · simp [he]
    · rcases List.mem_cons.1 h with rfl | h'
      · exact absurd rfl he
      · simp only [he, if_false]
        exact ih h'

/-- Members of a child listing exist on disk and are `room-*` named. -/
theorem skChildren_mem (sk : Skel) (p : FPath) (n' : String) (h : n' ∈ skChildren sk p) :
    skExists sk (p ++ [n']) = true ∧ strStarts n' "room-" = true := by
  rw [skChildren] at h
  rcases List.mem_filterMap.1 h with ⟨e, hmem, he⟩
  rcases hc : childOf p e.1 with _ | m
  · rw [hc] at he
    cases he
  · rw [hc] at he
    dsimp only at he
    by_cases hr : strStarts m "room-" = true
    · rw [if_pos hr] at he
      injection he with he'
      subst he'
      have hq : e.1 = p ++ [m] := (childOf_eq p e.1 m).1 hc
      refine ⟨?_, hr⟩
      rw [skExists, ← hq]
      exact plookup_isSome_of_mem sk e.1 e.2 hmem
    · rw [if_neg hr] at he
      cases he

/-- `procdC` over an extended pop list, processed case. -/
theorem procdC_append_parse (sk : Skel) (pops : List FPath) (p : FPath) (cs : CanvasState)
    (h : skSnapAt sk p = some (some cs)) :
    procdC sk (pops ++ [p]) = procdC sk pops ++ [p] := by
  rw [procdC, List.filter_append, procdC]
  congr 1
  simp [h]

/-- `procdC` over an extended pop list, skipped case. -/
theorem procdC_append_skip (sk : Skel) (pops : List FPath) (p : FPath)
    (h : skSnapAt sk p = none) :
    procdC sk (pops ++ [p]) = procdC sk pops := by
  rw [procdC, List.filter_append, procdC]
  simp [h]

/-- A successful `plookup` comes from a list entry. -/
theorem plookup_mem {α : Type} (l : List (FPath × α)) (p : FPath) (v : α)
    (h : plookup l p = some v) : (p, v) ∈ l := by
  induction l with
  | nil => cases h
  | cons e rest ih =>
    rw [plookup] at h
    by_cases he : e.1 = p
    · rw [if_pos he] at h
      injection h with h'
      subst h'
      rw [← he]
      exact List.mem_cons_self _ _
    · rw [if_neg he] at h
      exact List.mem_cons_of_mem _ (ih h)

/-- Existing `room-*` subdirectories are listed by `skChildren`. -/
theorem skChildren_mem_of (sk : Skel) (p : FPath) (n' : String)
    (hex : skExists sk (p ++ [n']) = true) (hr : strStarts n' "room-" = true) :
    n' ∈ skChildren sk p := by
  rw [skExists] at hex
  rcases Option.isSome_iff_exists.1 hex with ⟨v, hv⟩
  rw [skChildren]
  refine List.mem_filterMap.2 ⟨(p ++ [n'], v), plookup_mem sk _ v hv, ?_⟩
  rw [show childOf p (p ++ [n']) = some n' from (childOf_eq p _ n').2 rfl]
  dsimp only
  rw [if_pos hr]

/-- The invariants maintained by the control loop. -/
structure CInv (sk : Skel) (c : CtrlSt) : Prop where
  qChain : ∀ x ∈ c.queue, x ≠ [] ∧ WellChained sk x
  popsChain : ∀ x ∈ c.pops, x ≠ [] ∧ WellChained sk x
  pushedLinked : ∀ x ∈ c.pushed, Linked sk x ∧ x ≠ [] ∧ WellChained sk x
  pushedSeen : ∀ x ∈ c.pushed, x ∈ c.pops ∨ x ∈ c.queue
  candNL : ∀ x ∈ c.cand, ¬ Linked sk x
  candNd : c.cand.Nodup
  candShape : ∀ x ∈ c.cand, x ≠ [] ∧ x.dropLast ∈ procdC sk c.pops ∧
      skExists sk x = true ∧ strStarts (basename x) "room-" = true
  candCover : ∀ p ∈ procdC sk c.pops, ∀ n', n' ∈ skChildren sk p →
      ¬ Linked sk (p ++ [n']) → (p ++ [n']) ∈ c.cand
  visIff : ∀ s, s ∈ c.visited ↔ ∃ p ∈ procdC sk c.pops, basename p = s
  pwShape : ∀ w ∈ c.pw, w ≠ [] ∧ w.dropLast ∈ procdC sk c.pops ∧
      ∃ cs, skSnapAt sk w.dropLast = some (some cs) ∧ basename w ∈ widgetNamesOf cs
  pwCover : ∀ p ∈ procdC sk c.pops, ∀ cs, skSnapAt sk p = some (some cs) →
      ∀ wn ∈ widgetNamesOf cs, (p ++ [wn]) ∈ c.pw
  linkHandled : ∀ p ∈ procdC sk c.pops, ∀ cs, skSnapAt sk p = some (some cs) →
      ∀ tn ∈ targetsOf cs, (p ++ [tn]) ∈ c.pushed ∨ tn ∈ c.visited

/-- Master lemma: a completed control run preserves the invariants, drains
its queue, only appends to the traces, and emits exactly the writes of the
processed rooms, in pop order. -/
theorem ctrl_done_facts (sk : Skel) (t : Int) :
    ∀ (n : Nat) (c c' : CtrlSt) (ops : List WOp),
    ctrl sk t n c = CtrlRes.done c' ops → CInv sk c →
    CInv sk c' ∧ c'.queue = [] ∧
    (∃ suf, c'.pops = c.pops ++ suf ∧ ops = suf.bind (opsOfRoom sk t)) ∧
    (∀ x ∈ c.queue, x ∈ c'.pops) ∧
    (∀ x ∈ c.pushed, x ∈ c'.pushed) ∧
    (∀ s ∈ c.visited, s ∈ c'.visited) ∧
    (∀ w ∈ c.pw, w ∈ c'.pw) := by
  intro n
  induction n with
  | zero =>
    intro c c' ops hctrl hinv
    rw [ctrl] at hctrl
    by_cases hq : c.queue.isEmpty
    · rw [if_pos hq] at hctrl
      injection hctrl with h1 h2
      subst h1
      subst h2
      refine ⟨hinv, List.isEmpty_iff.1 hq, ⟨[], by simp⟩, ?_, fun _ h => h, fun _ h => h,
        fun _ h => h⟩
      intro x hx
      rw [List.isEmpty_iff.1 hq] at hx
      cases hx
    · rw [if_neg hq] at hctrl
      cases hctrl
  | succ n ih =>
    intro c c' ops hctrl hinv
    rw [ctrl] at hctrl
    rcases hq : c.queue with _ | ⟨p, rest⟩
    · rw [hq] at hctrl
      dsimp only at hctrl
      injection hctrl with h1 h2
      subst h1
      subst h2
      refine ⟨hinv, hq, ⟨[], by simp⟩, ?_, fun _ h => h, fun _ h => h, fun _ h => h⟩
      intro x hx
      cases hx
    · rw [hq] at hctrl
      dsimp only at hctrl
      have hpq : p ∈ c.queue := by
        rw [hq]
        exact List.mem_cons_self _ _
      have hpChain := hinv.qChain p hpq
      cases hsnap : skSnapAt sk p with
      | none =>
        rw [hsnap] at hctrl
        have hproc0 : procdC sk (c.pops ++ [p]) = procdC sk c.pops :=
          procdC_append_skip sk c.pops p hsnap
        have hinv0 : CInv sk
            { c with queue := rest, pops := c.pops ++ [p] } := by
          refine ⟨?_, ?_, ?_, ?_, ?_, hinv.candNd, ?_, ?_, ?_, ?_, ?_, ?_⟩
          · intro x hx
            exact hinv.qChain x (by rw [hq]; exact List.mem_cons_of_mem _ hx)
          · intro x hx
            rcases List.mem_append.1 hx with hx' | hx''
            · exact hinv.popsChain x hx'
            · rw [List.mem_singleton] at hx''
              subst hx''
              exact hpChain
          · exact hinv.pushedLinked
          · intro x hx
            rcases hinv.pushedSeen x hx with h1 | h2
            · exact Or.inl (List.mem_append.2 (Or.inl h1))
            · rw [hq] at h2
              rcases List.mem_cons.1 h2 with rfl | h3
              · exact Or.inl (List.mem_append.2 (Or.inr (List.mem_singleton.2 rfl)))
              · exact Or.inr h3
          · exact hinv.candNL
          · intro x hx
            have := hinv.candShape x hx
            rw [show ({ c with queue := rest, pops := c.pops ++ [p] } : CtrlSt).pops
              = c.pops ++ [p] from rfl, hproc0]
            exact this
          · intro pr hpr
            rw [show ({ c with queue := rest, pops := c.pops ++ [p] } : CtrlSt).pops
              = c.pops ++ [p] from rfl, hproc0] at hpr
            exact hinv.candCover pr hpr
          · intro s
            rw [show ({ c with queue := rest, pops := c.pops ++ [p] } : CtrlSt).pops
              = c.pops ++ [p] from rfl, hproc0]
            exact hinv.visIff s
          · intro w hw
            have := hinv.pwShape w hw
            rw [show ({ c with queue := rest, pops := c.pops ++ [p] } : CtrlSt).pops
              = c.pops ++ [p] from rfl, hproc0]
            exact this
          · intro pr hpr
            rw [show ({ c with queue := rest, pops := c.pops ++ [p] } : CtrlSt).pops
              = c.pops ++ [p] from rfl, hproc0] at hpr
            exact hinv.pwCover pr hpr
          · intro pr hpr
            rw [show ({ c with queue := rest, pops := c.pops ++ [p] } : CtrlSt).pops
              = c.pops ++ [p] from rfl, hproc0] at hpr
            exact hinv.linkHandled pr hpr
        rcases ih _ c' ops hctrl hinv0 with
          ⟨hinv', hq', ⟨suf, hsuf, hops⟩, hqueue', hpushed', hvis', hpw'⟩
        refine ⟨hinv', hq', ⟨p :: suf, ?_, ?_⟩, ?_, hpushed', hvis', hpw'⟩
        · rw [hsuf]
          simp
        · rw [hops]
          rw [show (p :: suf).bind (opsOfRoom sk t)
            = opsOfRoom sk t p ++ suf.bind (opsOfRoom sk t) from rfl]
          rw [show opsOfRoom sk t p = [] from by rw [opsOfRoom, hsnap]]
          rfl
        · intro x hx
          rcases List.mem_cons.1 hx with rfl | hx'
          · rw [hsuf]
            exact List.mem_append.2 (Or.inl (List.mem_append.2 (Or.inr (by simp))))
          · exact hqueue' x hx'
      | some pres =>
        rw [hsnap] at hctrl
        cases pres with
        | none =>
          dsimp only at hctrl
          cases hctrl
        | some cs =>
          dsimp only at hctrl
          rcases hfold : (processDocs cs).canvasLinks.foldl
              (linkStep p (insertNew c.visited (basename p)))
              (collectCands p (skChildren sk p) c.cand, []) with ⟨cand2, pushedNew⟩
          rw [hfold] at hctrl
          dsimp only at hctrl
          have hcand1nd : (collectCands p (skChildren sk p) c.cand).Nodup :=
            collectCands_nodup _ _ _ hinv.candNd
          have hfst : ∀ x : FPath, x ∈ cand2 ↔
              (x ∈ collectCands p (skChildren sk p) c.cand ∧
                ¬∃ tn ∈ targetsOf cs, x = p ++ [tn]) := by
            intro x
            have h2 := linkFold_fst_mem p (insertNew c.visited (basename p))
              (processDocs cs).canvasLinks
              (collectCands p (skChildren sk p) c.cand, []) x hcand1nd
            rw [hfold] at h2
            exact h2
          have hsnd : ∀ x : FPath, x ∈ pushedNew ↔
              ∃ tn ∈ targetsOf cs, x = p ++ [tn] ∧
                tn ∉ insertNew c.visited (basename p) := by
            intro x
            have h2 := linkFold_snd_mem p (insertNew c.visited (basename p))
              (processDocs cs).canvasLinks
              (collectCands p (skChildren sk p) c.cand, []) x
            rw [hfold] at h2
            constructor
            · intro hx
              rcases h2.1 hx with h3 | h3
              · exact absurd h3 (List.not_mem_nil x)
              · exact h3
            · intro hx
              exact h2.2 (Or.inr hx)
          have hc1 : ∀ x : FPath, x ∈ collectCands p (skChildren sk p) c.cand ↔
              x ∈ c.cand ∨ ∃ n' ∈ skChildren sk p, x = p ++ [n'] :=
            fun x => mem_collectCands p _ c.cand x
          have hv1 : ∀ s : String, s ∈ insertNew c.visited (basename p) ↔
              s ∈ c.visited ∨ s = basename p :=
            fun s => mem_insertNew c.visited (basename p) s
          have hproc : procdC sk (c.pops ++ [p]) = procdC sk c.pops ++ [p] :=
            procdC_append_parse sk c.pops p cs hsnap
          have hLinkTn : ∀ tn ∈ targetsOf cs, Linked sk (p ++ [tn]) := by
            intro tn htn
            refine ⟨cs, ?_, ?_⟩
            · rw [dropLast_concat']
              exact hsnap
            · rw [basename_concat]
              exact htn
          have hChainTn : ∀ tn ∈ targetsOf cs,
              (p ++ [tn]) ≠ [] ∧ WellChained sk (p ++ [tn]) := by
            intro tn htn
            exact ⟨by simp, WellChained.extend hpChain.2 (hLinkTn tn htn)⟩
          split at hctrl
          · rename_i c'' ops'' heq
            injection hctrl with h1 h2
            subst h1
            subst h2
            have hinvN : CInv sk
                { queue := rest ++ pushedNew
                  visited := insertNew c.visited (basename p)
                  cand := cand2
                  pw := c.pw ++ (processDocs cs).widgets.map
                    (fun w => p ++ [widgetDirName w.shapeId])
                  pops := c.pops ++ [p]
                  pushed := c.pushed ++ pushedNew } := by
              refine ⟨?_, ?_, ?_, ?_, ?_, ?_, ?_, ?_, ?_, ?_, ?_, ?_⟩
              · dsimp only
                intro x hx
                rcases List.mem_append.1 hx with hx' | hx''
                · exact hinv.qChain x (by rw [hq]; exact List.mem_cons_of_mem _ hx')
                · rcases (hsnd x).1 hx'' with ⟨tn, htn, rfl, _⟩
                  exact hChainTn tn htn
              · dsimp only
                intro x hx
                rcases List.mem_append.1 hx with hx' | hx''
                · exact hinv.popsChain x hx'
                · rw [List.mem_singleton] at hx''
                  subst hx''
                  exact hpChain
              · dsimp only
                intro x hx
                rcases List.mem_append.1 hx with hx' | hx''
                · exact hinv.pushedLinked x hx'
                · rcases (hsnd x).1 hx'' with ⟨tn, htn, rfl, _⟩
                  exact ⟨hLinkTn tn htn, hChainTn tn htn⟩
              · dsimp only
                intro x hx
                rcases List.mem_append.1 hx with hx' | hx''
                · rcases hinv.pushedSeen x hx' with h1 | h2
                  · exact Or.inl (List.mem_append.2 (Or.inl h1))
                  · rw [hq] at h2
                    rcases List.mem_cons.1 h2 with rfl | h3
                    · exact Or.inl (List.mem_append.2 (Or.inr (List.mem_singleton.2 rfl)))
                    · exact Or.inr (List.mem_append.2 (Or.inl h3))
                · exact Or.inr (List.mem_append.2 (Or.inr hx''))
              · dsimp only
                intro x hx
                rcases (hfst x).1 hx with ⟨hx1, hnt⟩
                rcases (hc1 x).1 hx1 with hxc | ⟨n', hn', rfl⟩
                · exact hinv.candNL x hxc
                · intro hL
                  rcases hL with ⟨cs', hcs', hbn⟩
                  rw [dropLast_concat'] at hcs'
                  rw [hsnap] at hcs'
                  injection hcs' with h3
                  injection h3 with h4
                  subst h4
                  rw [basename_concat] at hbn
                  exact hnt ⟨n', hbn, rfl⟩
              · dsimp only
                have h2 := linkFold_nodup p (insertNew c.visited (basename p))
                  (processDocs cs).canvasLinks
                  (collectCands p (skChildren sk p) c.cand, []) hcand1nd
                rw [hfold] at h2
                exact h2
              · dsimp only
                intro x hx
                rcases (hfst x).1 hx with ⟨hx1, _⟩
                rcases (hc1 x).1 hx1 with hxc | ⟨n', hn', rfl⟩
                · rcases hinv.candShape x hxc with ⟨h1, h2, h3, h4⟩
                  exact ⟨h1, by rw [hproc]; exact List.mem_append.2 (Or.inl h2), h3, h4⟩
                · rcases skChildren_mem sk p n' hn' with ⟨hex, hr⟩
                  refine ⟨by simp, ?_, hex, ?_⟩
                  · rw [hproc, dropLast_concat']
                    exact List.mem_append.2 (Or.inr (List.mem_singleton.2 rfl))
                  · rw [basename_concat]
                    exact hr
              · dsimp only
                intro pr hpr n' hn' hnl
                rw [hproc] at hpr
                refine (hfst _).2 ⟨?_, ?_⟩
                · rcases List.mem_append.1 hpr with hpr' | hpr''
                  · exact (hc1 _).2 (Or.inl (hinv.candCover pr hpr' n' hn' hnl))
                  · rw [List.mem_singleton] at hpr''
                    subst hpr''
                    exact (hc1 _).2 (Or.inr ⟨n', hn', rfl⟩)
                · rintro ⟨tn, htn, he⟩
                  rw [he] at hnl
                  exact hnl (hLinkTn tn htn)
              · dsimp only
                intro s
                rw [hproc]
                constructor
                · intro hs
                  rcases (hv1 s).1 hs with hs' | rfl
                  · rcases (hinv.visIff s).1 hs' with ⟨pr, hpr, hb⟩
                    exact ⟨pr, List.mem_append.2 (Or.inl hpr), hb⟩
                  · exact ⟨p, List.mem_append.2 (Or.inr (List.mem_singleton.2 rfl)), rfl⟩
                · rintro ⟨pr, hpr, hb⟩
                  rcases List.mem_append.1 hpr with hpr' | hpr''
                  · exact (hv1 s).2 (Or.inl ((hinv.visIff s).2 ⟨pr, hpr', hb⟩))
                  · rw [List.mem_singleton] at hpr''
                    subst hpr''
                    exact (hv1 s).2 (Or.inr hb.symm)
              · dsimp only
                intro w hw
                rcases List.mem_append.1 hw with hw' | hw''
                · rcases hinv.pwShape w hw' with ⟨h1, h2, h3⟩
                  exact ⟨h1, by rw [hproc]; exact List.mem_append.2 (Or.inl h2), h3⟩
                · rcases List.mem_map.1 hw'' with ⟨w0, hw0, rfl⟩
                  refine ⟨by simp, ?_, cs, ?_, ?_⟩
                  · rw [hproc, dropLast_concat']
                    exact List.mem_append.2 (Or.inr (List.mem_singleton.2 rfl))
                  · rw [dropLast_concat']
                    exact hsnap
                  · rw [basename_concat]
                    show widgetDirName w0.shapeId ∈
                      (processDocs cs).widgets.map (fun w => widgetDirName w.shapeId)
                    exact List.mem_map.2 ⟨w0, hw0, rfl⟩
              · dsimp only
                intro pr hpr cs' hcs' wn hwn
                rw [hproc] at hpr
                rcases List.mem_append.1 hpr with hpr' | hpr''
                · exact List.mem_append.2 (Or.inl (hinv.pwCover pr hpr' cs' hcs' wn hwn))
                · rw [List.mem_singleton] at hpr''
                  subst hpr''
                  rw [hsnap] at hcs'
                  injection hcs' with h3
                  injection h3 with h4
                  subst h4
                  refine List.mem_append.2 (Or.inr ?_)
                  have hwn' : wn ∈ (processDocs cs).widgets.map
                    (fun w => widgetDirName w.shapeId) := hwn
                  rcases List.mem_map.1 hwn' with ⟨w0, hw0, rfl⟩
                  exact List.mem_map.2 ⟨w0, hw0, rfl⟩
              · dsimp only
                intro pr hpr cs' hcs' tn htn
                rw [hproc] at hpr
                rcases List.mem_append.1 hpr with hpr' | hpr''
                · rcases hinv.linkHandled pr hpr' cs' hcs' tn htn with h1 | h2
                  · exact Or.inl (List.mem_append.2 (Or.inl h1))
                  · exact Or.inr ((hv1 tn).2 (Or.inl h2))
                · rw [List.mem_singleton] at hpr''
                  subst pr
                  rw [hsnap] at hcs'
                  injection hcs' with h3
                  injection h3 with h4
                  subst h4
                  by_cases hv : tn ∈ insertNew c.visited (basename p)
                  · exact Or.inr hv
                  · exact Or.inl (List.mem_append.2 (Or.inr ((hsnd _).2 ⟨tn, htn, rfl, hv⟩)))
            rcases ih _ _ _ heq hinvN with
              ⟨hinv', hq', ⟨suf, hsuf, hops⟩, hqueue', hpushed', hvis', hpw'⟩
            refine ⟨hinv', hq', ⟨p :: suf, ?_, ?_⟩, ?_, ?_, ?_, ?_⟩
            · rw [hsuf]
              simp
            · rw [hops]
              rw [show (p :: suf).bind (opsOfRoom sk t)
                = opsOfRoom sk t p ++ suf.bind (opsOfRoom sk t) from rfl]
              rw [show opsOfRoom sk t p = roomOps sk p (processDocs cs) cs t from by
                rw [opsOfRoom, hsnap]]
            · intro x hx
              rcases List.mem_cons.1 hx with rfl | hx'
              · rw [hsuf]
                exact List.mem_append.2 (Or.inl (List.mem_append.2 (Or.inr (by simp))))
              · exact hqueue' x (List.mem_append.2 (Or.inl hx'))
            · intro x hx
              exact hpushed' x (List.mem_append.2 (Or.inl hx))
            · intro s hs
              exact hvis' s ((hv1 s).2 (Or.inl hs))
            · intro w hw
              exact hpw' w (List.mem_append.2 (Or.inl hw))
          · cases hctrl
          · cases hctrl

/-! ## Completed runs: corollaries of the master lemma -/

/-- The initial control state of a run rooted at `root`. -/
def initCtrl (root : String) : CtrlSt :=
  { queue := [[root]], visited := [], cand := [], pw := [], pops := [], pushed := [] }

/-- The invariants hold at the start of a run. -/
theorem CInv_init (sk : Skel) (root : String) : CInv sk (initCtrl root) := by
  refine ⟨?_, ?_, ?_, ?_, ?_, ?_, ?_, ?_, ?_, ?_, ?_, ?_⟩
  · intro x hx
    rw [show (initCtrl root).queue = [[root]] from rfl, List.mem_singleton] at hx
    subst hx
    refine ⟨by simp, ?_⟩
    intro k hk2 hkle
    rw [show ([root] : FPath).length = 1 from rfl] at hkle
    omega
  · intro x hx
    cases hx
  · intro x hx
    cases hx
  · intro x hx
    cases hx
  · intro x hx
    cases hx
  · exact List.nodup_nil
  · intro x hx
    cases hx
  · intro p hp
    cases hp
  · intro s
    constructor
    · intro hs
      cases hs
    · rintro ⟨p, hp, _⟩
      cases hp
  · intro w hw
    cases hw
  · intro p hp
    cases hp
  · intro p hp
    cases hp

/-- A completed control run determines `run`'s output. -/
theorem run_eq_of_ctrl_done (fuel : Nat) (t : Int) (fs : Repo) (root : String)
    (c' : CtrlSt) (ops : List WOp)
    (hroot : topRoomNames fs = [root])
    (hct : ctrl (skelOf fs) t fuel (initCtrl root) = CtrlRes.done c' ops) :
    run fuel t fs
      = some (0, cleanupRooms c'.cand (cleanupWidgets c'.pw (applyOps fs ops))) := by
  rw [run, hroot]
  dsimp only
  rw [show traverseCanvasGraph t fuel (initSt fs root)
      = travResOfCtrl fs (ctrl (skelOf fs) t fuel (initCtrl root)) from
    traverse_eq_ctrl t fuel (initSt fs root)]
  rw [hct]
  rfl

/-- Every path is a prefix of itself. -/
theorem pathHasPre_refl (p : FPath) : pathHasPre p p = true := by
  simp [pathHasPre]

/-- A prefix of a one-step extension is a prefix of the base or the whole
extension. -/
theorem pathHasPre_concat {d p : FPath} {n : String}
    (h : pathHasPre d (p ++ [n]) = true) : pathHasPre d p = true ∨ d = p ++ [n] := by
  rw [pathHasPre, decide_eq_true_iff] at h
  rcases Nat.lt_or_ge d.length (p.length + 1) with hlt | hge
  · left
    rw [pathHasPre, decide_eq_true_iff]
    rw [List.take_append_of_le_length (by omega)] at h
    exact h
  · right
    have h2 := congrArg List.length h
    rw [List.length_take, List.length_append, List.length_singleton] at h2
    have hlen : d.length = p.length + 1 := by omega
    rw [← h, hlen]
    rw [show p.length + 1 = (p ++ [n]).length from by simp]
    rw [List.take_length]

/-- The deletion-candidate set never holds a prefix of a nonempty
well-chained path, so such a path survives the room collector pass. -/
theorem candNoPre {sk : Skel} {c' : CtrlSt} (hinv : CInv sk c')
    {x : FPath} (hx : x ≠ []) (hwc : WellChained sk x) :
    ∀ d ∈ c'.cand, pathHasPre d x = false := by
  intro d hd
  by_contra hcon
  have hpre : pathHasPre d x = true := by
    cases hph : pathHasPre d x
    · exact absurd hph hcon
    · rfl
  rw [pathHasPre, decide_eq_true_iff] at hpre
  rcases hinv.candShape d hd with ⟨hdne, hdrop, _, _⟩
  have hdlen : 1 ≤ d.length := by
    cases hdl : d.length with
    | zero => exact absurd (List.eq_nil_of_length_eq_zero hdl) hdne
    | succ k => omega
  have hdle : d.length ≤ x.length := by
    have h2 := congrArg List.length hpre
    rw [List.length_take] at h2
    omega
  rcases Nat.lt_or_ge d.length 2 with hlt | hge
  · have hd1 : d.length = 1 := by omega
    have hdl0 : d.dropLast = [] := by
      have h3 : d.dropLast.length = 0 := by
        rw [List.length_dropLast, hd1]
      exact List.eq_nil_of_length_eq_zero h3
    rw [hdl0] at hdrop
    have hmem : ([] : FPath) ∈ c'.pops := List.mem_of_mem_filter hdrop
    exact (hinv.popsChain [] hmem).1 rfl
  · have hL : Linked sk (x.take d.length) := hwc d.length hge hdle
    rw [hpre] at hL
    exact hinv.candNL d hd hL

/-- Lookup after a key-preserving entrywise map. -/
theorem lookupRepo_mapEntry (fs : Repo) (f : FPath → RoomData → RoomData) (p : FPath) :
    lookupRepo (fs.map (fun e => (e.1, f e.1 e.2))) p = (lookupRepo fs p).map (f p) := by
  induction fs with
  | nil => rfl
  | cons e rest ih =>
    rw [List.map_cons, lookupRepo, lookupRepo]
    by_cases h : e.1 = p
    · subst h
      rw [if_pos rfl, if_pos rfl]
      rfl
    · rw [if_neg h, if_neg h, ih]

/-- Lookup after applying the emitted writes. -/
theorem lookupRepo_applyOps (fs : Repo) (ops : List WOp) (p : FPath) :
    lookupRepo (applyOps fs ops) p = (lookupRepo fs p).map (opsTransform ops p) := by
  rw [applyOps_entrywise]
  exact lookupRepo_mapEntry fs (fun q d => opsTransform ops q d) p

/-- `cleanupOldWidgets`' per-directory transform. -/
def wcDir (pw : List FPath) (q : FPath) (d : RoomData) : RoomData :=
  if hasDotComponent q then d
  else
    let ws := d.widgets.filter
      (fun wEnt => !(strStarts wEnt.1 "widget-") || decide ((q ++ [wEnt.1]) ∈ pw))
    { d with widgets := ws }

/-- The widget collector pass as a key-preserving entrywise map. -/
theorem cleanupWidgets_eq (pw : List FPath) (fs : Repo) :
    cleanupWidgets pw fs = fs.map (fun e => (e.1, wcDir pw e.1 e.2)) := by
  rw [cleanupWidgets]
  refine List.map_congr_left (fun e _ => ?_)
  by_cases h : hasDotComponent e.1 <;> simp [wcDir, h]

/-- Lookup after the widget collector pass. -/
theorem lookupRepo_cleanupWidgets (pw : List FPath) (fs : Repo) (p : FPath) :
    lookupRepo (cleanupWidgets pw fs) p = (lookupRepo fs p).map (wcDir pw p) := by
  rw [cleanupWidgets_eq]
  exact lookupRepo_mapEntry fs (wcDir pw) p

/-- Lookup after the room collector pass. -/
theorem lookupRepo_cleanupRooms (dead : List FPath) (fs : Repo) (p : FPath) :
    lookupRepo (cleanupRooms dead fs) p
      = if dead.any (fun d => pathHasPre d p) then none else lookupRepo fs p := by
  induction fs with
  | nil =>
    rw [cleanupRooms]
    cases dead.any (fun d => pathHasPre d p) <;> rfl
  | cons e rest ih =>
    rw [show cleanupRooms dead rest = List.filter
      (fun e => !(dead.any (fun d => pathHasPre d e.1))) rest from rfl] at ih
    rw [cleanupRooms, List.filter_cons]
    by_cases he : e.1 = p
    · subst he
      cases hdp : dead.any (fun d => pathHasPre d e.1) <;>
        simp [hdp, lookupRepo, ih]
    · cases hdp : dead.any (fun d => pathHasPre d e.1) <;>
        simp [hdp, lookupRepo, he, ih]

/-- Skeleton lookup through a key-filtered association list. -/
theorem plookup_filter {α : Type} (l : List (FPath × α)) (pb : FPath → Bool) (p : FPath) :
    plookup (l.filter (fun e => pb e.1)) p = if pb p then plookup l p else none := by
  induction l with
  | nil =>
    rw [List.filter_nil]
    cases pb p <;> rfl
  | cons e rest ih =>
    rw [List.filter_cons]
    by_cases he : e.1 = p
    · subst he
      cases hp : pb e.1 <;> simp [hp, plookup, ih]
    · cases hp : pb e.1 <;> simp [hp, plookup, he, ih]

/-- The widget collector pass keeps the skeleton. -/
theorem skelOf_cleanupWidgets (pw : List FPath) (fs : Repo) :
    skelOf (cleanupWidgets pw fs) = skelOf fs := by
  rw [cleanupWidgets_eq, skelOf, skelOf, List.map_map]
  refine List.map_congr_left (fun e _ => ?_)
  by_cases h : hasDotComponent e.1 <;> simp [wcDir, h]

/-- The room collector pass filters the skeleton by key. -/
theorem skelOf_cleanupRooms (dead : List FPath) (fs : Repo) :
    skelOf (cleanupRooms dead fs)
      = (skelOf fs).filter (fun e => !(dead.any (fun d => pathHasPre d e.1))) := by
  rw [skelOf, skelOf, cleanupRooms, List.filter_map]
  rfl

/-- Lookup in the final tree of a completed run, for a path no remaining
candidate is a prefix of. -/
theorem surviving_lookup (dead pw : List FPath) (ops : List WOp) (fs : Repo) (p : FPath)
    (hnd : dead.any (fun d => pathHasPre d p) = false) :
    lookupRepo (cleanupRooms dead (cleanupWidgets pw (applyOps fs ops))) p
      = ((lookupRepo fs p).map (opsTransform ops p)).map (wcDir pw p) := by
  rw [lookupRepo_cleanupRooms, hnd, lookupRepo_cleanupWidgets, lookupRepo_applyOps]
  simp

/-- A popped path is never a member of `procdC` when its snapshot read
fails. -/
theorem not_procdC_of_no_snap (fs : Repo) (pops : List FPath) (p : FPath)
    (hsnap : snapFileAt fs p = none) : p ∉ procdC (skelOf fs) pops := by
  intro h
  rcases List.mem_filter.1 h with ⟨_, hpred⟩
  rw [skSnapAt_skelOf, hsnap] at hpred
  cases hpred

/-! ## Claim C10 -/

/-- C10: in a completed run, a room `p` reached by the traversal whose
`canvas-state.json` is missing is skipped: it is not processed (the visited
name set still holds exactly the basenames of the processed rooms), its
directory survives the room collector pass, and its child `room-*`
subdirectories are never collected as deletion candidates, never traversed,
and never deleted by the room collector pass in that run. -/
theorem c10_snapshotless_room_skipped (fuel : Nat) (t : Int) (fs : Repo) (root : String)
    (c' : CtrlSt) (ops : List WOp) (p : FPath) (n' : String)
    (hroot : topRoomNames fs = [root])
    (hct : ctrl (skelOf fs) t fuel (initCtrl root) = CtrlRes.done c' ops)
    (hp : p ∈ c'.pops) (hsnap : snapFileAt fs p = none) :
    run fuel t fs = some (0, cleanupRooms c'.cand (cleanupWidgets c'.pw (applyOps fs ops))) ∧
    p ∉ procdC (skelOf fs) c'.pops ∧
    (∀ s, s ∈ c'.visited ↔ ∃ q ∈ procdC (skelOf fs) c'.pops, basename q = s) ∧
    (lookupRepo (cleanupRooms c'.cand (cleanupWidgets c'.pw (applyOps fs ops))) p).isSome
      = (lookupRepo fs p).isSome ∧
    (p ++ [n']) ∉ c'.cand ∧
    (p ++ [n']) ∉ c'.pops ∧
    (lookupRepo (cleanupRooms c'.cand (cleanupWidgets c'.pw (applyOps fs ops))) (p ++ [n'])).isSome
      = (lookupRepo fs (p ++ [n'])).isSome := by
  rcases ctrl_done_facts (skelOf fs) t fuel (initCtrl root) c' ops hct (CInv_init _ root)
    with ⟨hinv', _, _, _, _, _, _⟩
  have hnp : p ∉ procdC (skelOf fs) c'.pops := not_procdC_of_no_snap fs c'.pops p hsnap
  rcases hinv'.popsChain p hp with ⟨hpne, hpwc⟩
  have hsurvP : ∀ d ∈ c'.cand, pathHasPre d p = false := candNoPre hinv' hpne hpwc
  have hnc : (p ++ [n']) ∉ c'.cand := by
    intro h
    rcases hinv'.candShape _ h with ⟨_, hdrop, _, _⟩
    rw [dropLast_concat'] at hdrop
    exact hnp hdrop
  have hnpops : (p ++ [n']) ∉ c'.pops := by
    intro h
    rcases hinv'.popsChain _ h with ⟨_, hwc⟩
    have hlen : 2 ≤ (p ++ [n']).length := by
      have h1 : 1 ≤ p.length := List.length_pos.2 hpne
      rw [List.length_append, List.length_singleton]
      omega
    rcases hwc.self hlen with ⟨cs, hcs, _⟩
    rw [dropLast_concat', skSnapAt_skelOf, hsnap] at hcs
    cases hcs
  have hanyP : c'.cand.any (fun d => pathHasPre d p) = false := by
    rw [List.any_eq_false]
    intro d hd
    rw [hsurvP d hd]
    exact Bool.false_ne_true
  have hanyC : c'.cand.any (fun d => pathHasPre d (p ++ [n'])) = false := by
    rw [List.any_eq_false]
    intro d hd
    cases hph : pathHasPre d (p ++ [n'])
    · exact Bool.false_ne_true
    · rcases pathHasPre_concat hph with h1 | h1
      · rw [hsurvP d hd] at h1
        cases h1
      · subst h1
        exact absurd hd hnc
  refine ⟨run_eq_of_ctrl_done fuel t fs root c' ops hroot hct, hnp, hinv'.visIff, ?_, hnc,
    hnpops, ?_⟩
  · rw [surviving_lookup c'.cand c'.pw ops fs p hanyP]
    cases lookupRepo fs p <;> rfl
  · rw [surviving_lookup c'.cand c'.pw ops fs (p ++ [n']) hanyC]
    cases lookupRepo fs (p ++ [n']) <;> rfl

/-- The control result of the C1/C10 scenario run. -/
def c10res : CtrlRes := ctrl (skelOf repoA) 0 9 (initCtrl "room-A")

/-- Its final control state. -/
def c10c : CtrlSt :=
  match c10res with
  | CtrlRes.done c _ => c
  | CtrlRes.aborted c _ => c
  | CtrlRes.outOfFuel c _ => c

/-- Its emitted writes. -/
def c10ops : List WOp :=
  match c10res with
  | CtrlRes.done _ o => o
  | CtrlRes.aborted _ o => o
  | CtrlRes.outOfFuel _ o => o

/-- Witness for C10 on the concrete scenario `repoA`: `room-A/room-B` is
popped with no snapshot file and is left alone together with its child
`room-C`. -/
theorem c10_snapshotless_room_skipped_witness :
    run 9 0 repoA
      = some (0, cleanupRooms c10c.cand (cleanupWidgets c10c.pw (applyOps repoA c10ops))) ∧
    (["room-A", "room-B"] : FPath) ∉ procdC (skelOf repoA) c10c.pops ∧
    (∀ s, s ∈ c10c.visited ↔ ∃ q ∈ procdC (skelOf repoA) c10c.pops, basename q = s) ∧
    (lookupRepo (cleanupRooms c10c.cand (cleanupWidgets c10c.pw (applyOps repoA c10ops)))
        ["room-A", "room-B"]).isSome
      = (lookupRepo repoA ["room-A", "room-B"]).isSome ∧
    ((["room-A", "room-B"] : FPath) ++ ["room-C"]) ∉ c10c.cand ∧
    ((["room-A", "room-B"] : FPath) ++ ["room-C"]) ∉ c10c.pops ∧
    (lookupRepo (cleanupRooms c10c.cand (cleanupWidgets c10c.pw (applyOps repoA c10ops)))
        ((["room-A", "room-B"] : FPath) ++ ["room-C"])).isSome
      = (lookupRepo repoA ((["room-A", "room-B"] : FPath) ++ ["room-C"])).isSome :=
  c10_snapshotless_room_skipped 9 0 repoA "room-A" c10c c10ops
    ["room-A", "room-B"] "room-C" rfl rfl (by decide) rfl

/-- Any link-descriptor write ever emitted targets an existing directory
(`storeCanvasLinkInfo`'s existence check). -/
theorem wlink_mem_opsOfRoom {sk : Skel} {t : Int} {q x : FPath} {l : ULinkInfoOut}
    (h : WOp.wlink x l ∈ opsOfRoom sk t q) : skExists sk x = true := by
  rw [opsOfRoom] at h
  rcases hsq : skSnapAt sk q with _ | pres
  · rw [hsq] at h
    cases h
  · rw [hsq] at h
    rcases pres with _ | cs
    · cases h
    · dsimp only at h
      rw [roomOps] at h
      rcases List.mem_append.1 h with h1 | h2
      · rcases List.mem_append.1 h1 with h3 | h4
        · rcases List.mem_cons.1 h3 with h5 | h5
          · cases h5
          · rw [List.mem_singleton] at h5
            cases h5
        · rcases List.mem_map.1 h4 with ⟨w, _, hw⟩
          cases hw
      · rcases List.mem_filterMap.1 h2 with ⟨l0, _, hl0⟩
        rcases htc : l0.properties.targetCanvasId with _ | tn'
        · rw [htc] at hl0
          cases hl0
        · rw [htc] at hl0
          dsimp only at hl0
          by_cases hemp : tn' = ""
          · rw [if_pos hemp] at hl0
            cases hl0
          · rw [if_neg hemp] at hl0
            by_cases hex : skExists sk (q ++ [tn'])
            · rw [if_pos hex] at hl0
              injection hl0 with h6
              injection h6 with hx _
              rw [← hx]
              exact hex
            · rw [if_neg hex] at hl0
              cases hl0

/-! ## Claim C3 -/

/-- C3 (amended): in a completed run, a truthy link of a processed room `p`
whose target directory `p/tn` does not exist on disk produces no
link-descriptor write at all, but the target IS still pushed onto the BFS
queue (unless its name is already visited); when popped it is skipped
without contributing any write, because its snapshot read fails. -/
theorem c3_missing_target_no_write_still_enqueued (fuel : Nat) (t : Int) (fs : Repo)
    (root : String) (c' : CtrlSt) (ops : List WOp) (p : FPath) (cs : CanvasState)
    (tn : String)
    (hroot : topRoomNames fs = [root])
    (hct : ctrl (skelOf fs) t fuel (initCtrl root) = CtrlRes.done c' ops)
    (hp : p ∈ c'.pops) (hcs : snapFileAt fs p = some (some cs))
    (htn : tn ∈ targetsOf cs)
    (hne : lookupRepo fs (p ++ [tn]) = none) :
    run fuel t fs = some (0, cleanupRooms c'.cand (cleanupWidgets c'.pw (applyOps fs ops))) ∧
    (∀ l, WOp.wlink (p ++ [tn]) l ∉ ops) ∧
    ((p ++ [tn]) ∈ c'.pushed ∨ tn ∈ c'.visited) ∧
    (p ++ [tn]) ∉ procdC (skelOf fs) c'.pops ∧
    opsOfRoom (skelOf fs) t (p ++ [tn]) = [] := by
  rcases ctrl_done_facts (skelOf fs) t fuel (initCtrl root) c' ops hct (CInv_init _ root)
    with ⟨hinv', _, ⟨suf, hsuf, hops⟩, _, _, _, _⟩
  have hsuf' : c'.pops = suf := by
    rw [hsuf]
    rfl
  have hx : skExists (skelOf fs) (p ++ [tn]) = false := by
    rw [skExists_skelOf, hne]
    rfl
  have hxsnap : snapFileAt fs (p ++ [tn]) = none := by
    rw [snapFileAt, hne]
    rfl
  have hpproc : p ∈ procdC (skelOf fs) c'.pops := by
    refine List.mem_filter.2 ⟨hp, ?_⟩
    rw [skSnapAt_skelOf, hcs]
  refine ⟨run_eq_of_ctrl_done fuel t fs root c' ops hroot hct, ?_, ?_, ?_, ?_⟩
  · intro l hl
    rw [hops, ← hsuf'] at hl
    rcases List.mem_bind.1 hl with ⟨q, _, hq⟩
    rw [wlink_mem_opsOfRoom hq] at hx
    cases hx
  · exact hinv'.linkHandled p hpproc cs (by rw [skSnapAt_skelOf, hcs]) tn htn
  · exact not_procdC_of_no_snap fs c'.pops (p ++ [tn]) hxsnap
  · rw [opsOfRoom, skSnapAt_skelOf, hxsnap]

/-- The control result of the broken-link scenario run. -/
def c3res : CtrlRes := ctrl (skelOf repoB) 0 9 (initCtrl "room-A")

/-- Its final control state. -/
def c3c : CtrlSt :=
  match c3res with
  | CtrlRes.done c _ => c
  | CtrlRes.aborted c _ => c
  | CtrlRes.outOfFuel c _ => c

/-- Its emitted writes. -/
def c3ops : List WOp :=
  match c3res with
  | CtrlRes.done _ o => o
  | CtrlRes.aborted _ o => o
  | CtrlRes.outOfFuel _ o => o

/-- Witness for C3 on the concrete scenario `repoB`: the link of `room-A`
to the nonexistent `room-B` writes no descriptor yet enqueues the target. -/
theorem c3_missing_target_no_write_still_enqueued_witness :
    run 9 0 repoB
      = some (0, cleanupRooms c3c.cand (cleanupWidgets c3c.pw (applyOps repoB c3ops))) ∧
    (∀ l, WOp.wlink ((["room-A"] : FPath) ++ ["room-B"]) l ∉ c3ops) ∧
    (((["room-A"] : FPath) ++ ["room-B"]) ∈ c3c.pushed ∨ "room-B" ∈ c3c.visited) ∧
    ((["room-A"] : FPath) ++ ["room-B"]) ∉ procdC (skelOf repoB) c3c.pops ∧
    opsOfRoom (skelOf repoB) 0 ((["room-A"] : FPath) ++ ["room-B"]) = [] :=
  c3_missing_target_no_write_still_enqueued 9 0 repoB "room-A" c3c c3ops ["room-A"]
    (bareCS [{ state := URec.shape (linkShape "shape:l1" "room-B"), lastChangedClock := some 5 }])
    "room-B" rfl rfl (by decide) rfl (by decide) rfl

/-- An aborted control run popped a last room whose snapshot is present but
malformed; the emitted writes are exactly those of the rooms popped so far,
and nothing after the malformed room is processed. -/
theorem ctrl_aborted_facts (sk : Skel) (t : Int) :
    ∀ (n : Nat) (c c' : CtrlSt) (ops : List WOp),
    ctrl sk t n c = CtrlRes.aborted c' ops →
    ∃ suf p0, c'.pops = c.pops ++ suf ++ [p0] ∧ skSnapAt sk p0 = some none ∧
      ops = (suf ++ [p0]).bind (opsOfRoom sk t) := by
  intro n
  induction n with
  | zero =>
    intro c c' ops hctrl
    rw [ctrl] at hctrl
    by_cases hq : c.queue.isEmpty
    · rw [if_pos hq] at hctrl
      cases hctrl
    · rw [if_neg hq] at hctrl
      cases hctrl
  | succ n ih =>
    intro c c' ops hctrl
    rw [ctrl] at hctrl
    rcases hq : c.queue with _ | ⟨p, rest⟩
    · rw [hq] at hctrl
      dsimp only at hctrl
      cases hctrl
    · rw [hq] at hctrl
      dsimp only at hctrl
      cases hsnap : skSnapAt sk p with
      | none =>
        rw [hsnap] at hctrl
        rcases ih _ c' ops hctrl with ⟨suf, p0, hpops, hp0, hops⟩
        refine ⟨p :: suf, p0, ?_, hp0, ?_⟩
        · rw [hpops]
          simp
        · rw [hops]
          rw [show ((p :: suf) ++ [p0]).bind (opsOfRoom sk t)
            = opsOfRoom sk t p ++ (suf ++ [p0]).bind (opsOfRoom sk t) from rfl]
          rw [show opsOfRoom sk t p = [] from by rw [opsOfRoom, hsnap]]
          rfl
      | some pres =>
        rw [hsnap] at hctrl
        cases pres with
        | none =>
          dsimp only at hctrl
          injection hctrl with h1 h2
          subst h1
          subst h2
          refine ⟨[], p, ?_, hsnap, ?_⟩
          · simp
          · rw [show (([] : List FPath) ++ [p]).bind (opsOfRoom sk t)
              = opsOfRoom sk t p ++ [] from rfl]
            rw [show opsOfRoom sk t p = [] from by rw [opsOfRoom, hsnap]]
            rfl
        | some cs =>
          dsimp only at hctrl
          rcases hfold : (processDocs cs).canvasLinks.foldl
              (linkStep p (insertNew c.visited (basename p)))
              (collectCands p (skChildren sk p) c.cand, []) with ⟨cand2, pushedNew⟩
          rw [hfold] at hctrl
          dsimp only at hctrl
          split at hctrl
          · cases hctrl
          · rename_i c'' ops'' heq
            injection hctrl with h1 h2
            subst h1
            subst h2
            rcases ih _ c'' ops'' heq with ⟨suf, p0, hpops, hp0, hops⟩
            refine ⟨p :: suf, p0, ?_, hp0, ?_⟩
            · rw [hpops]
              simp
            · rw [hops]
              rw [show ((p :: suf) ++ [p0]).bind (opsOfRoom sk t)
                = opsOfRoom sk t p ++ (suf ++ [p0]).bind (opsOfRoom sk t) from rfl]
              rw [show opsOfRoom sk t p = roomOps sk p (processDocs cs) cs t from by
                rw [opsOfRoom, hsnap]]
          · cases hctrl

/-! ## Claim C7 -/

/-- C7 (amended): a malformed `canvas-state.json` aborts the whole run.
The parse error is rethrown out of `unpackRoom` into `run`'s handler: the
process exits with code 1, the final tree holds exactly the writes of the
rooms popped before the failure (no collector pass runs), and the popped
sequence ends at the malformed room, so rooms still in the queue — the
siblings — are never processed. -/
theorem c7_malformed_snapshot_aborts_run (fuel : Nat) (t : Int) (fs : Repo) (root : String)
    (c' : CtrlSt) (ops : List WOp)
    (hroot : topRoomNames fs = [root])
    (hab : ctrl (skelOf fs) t fuel (initCtrl root) = CtrlRes.aborted c' ops) :
    run fuel t fs = some (1, applyOps fs ops) ∧
    ∃ suf p0, c'.pops = suf ++ [p0] ∧ snapFileAt fs p0 = some none ∧
      ops = (suf ++ [p0]).bind (opsOfRoom (skelOf fs) t) := by
  rcases ctrl_aborted_facts (skelOf fs) t fuel (initCtrl root) c' ops hab
    with ⟨suf, p0, hpops, hp0, hops⟩
  refine ⟨?_, suf, p0, ?_, ?_, hops⟩
  · rw [run, hroot]
    dsimp only
    rw [show traverseCanvasGraph t fuel (initSt fs root)
        = travResOfCtrl fs (ctrl (skelOf fs) t fuel (initCtrl root)) from
      traverse_eq_ctrl t fuel (initSt fs root)]
    rw [hab]
    rfl
  · rw [hpops]
    rfl
  · rw [← skSnapAt_skelOf]
    exact hp0

/-- The control result of the malformed-snapshot scenario run. -/
def c7res : CtrlRes := ctrl (skelOf repoC) 0 9 (initCtrl "room-A")

/-- Its final control state. -/
def c7c : CtrlSt :=
  match c7res with
  | CtrlRes.done c _ => c
  | CtrlRes.aborted c _ => c
  | CtrlRes.outOfFuel c _ => c

/-- Its emitted writes. -/
def c7ops : List WOp :=
  match c7res with
  | CtrlRes.done _ o => o
  | CtrlRes.aborted _ o => o
  | CtrlRes.outOfFuel _ o => o

/-- Witness for C7 on the concrete scenario `repoC`: the malformed
`room-B` aborts the run with exit code 1. -/
theorem c7_malformed_snapshot_aborts_run_witness :
    run 9 0 repoC = some (1, applyOps repoC c7ops) ∧
    ∃ suf p0, c7c.pops = suf ++ [p0] ∧ snapFileAt repoC p0 = some none ∧
      c7ops = (suf ++ [p0]).bind (opsOfRoom (skelOf repoC) 0) :=
  c7_malformed_snapshot_aborts_run 9 0 repoC "room-A" c7c c7ops rfl rfl

/-! ## Field-wise characterization of the emitted writes -/

/-- The last metadata write targeting `q` (later writes win). -/
def lastMeta : List WOp → FPath → Option UMetaOut
  | [], _ => none
  | o :: rest, q =>
    match lastMeta rest q with
    | some m => some m
    | none =>
      match o with
      | WOp.wmeta p m => if p = q then some m else none
      | _ => none

/-- The last global-storage write targeting `q`. -/
def lastGstore : List WOp → FPath → Option Blob
  | [], _ => none
  | o :: rest, q =>
    match lastGstore rest q with
    | some b => some b
    | none =>
      match o with
      | WOp.wgstore p b => if p = q then some b else none
      | _ => none

/-- The last link-descriptor write targeting `q`. -/
def lastLink : List WOp → FPath → Option ULinkInfoOut
  | [], _ => none
  | o :: rest, q =>
    match lastLink rest q with
    | some l => some l
    | none =>
      match o with
      | WOp.wlink p l => if p = q then some l else none
      | _ => none

/-- The widget-directory writes targeting `q`, in order. -/
def widgetOpsFor : List WOp → FPath → List (String × WDirF)
  | [], _ => []
  | WOp.wwidget p n f :: rest, q =>
    if p = q then (n, f) :: widgetOpsFor rest q else widgetOpsFor rest q
  | _ :: rest, q => widgetOpsFor rest q

/-- Apply a sequence of widget-directory writes. -/
def wApply (l : List (String × WDirF)) (ws : List (String × WDirF)) :
    List (String × WDirF) :=
  ws.foldl (fun acc e => upsertWidget acc e.1 e.2) l

/-- What the emitted writes do to the directory at `q`, field by field. -/
theorem opsTransform_fields (ops : List WOp) (q : FPath) :
    ∀ d : RoomData, opsTransform ops q d =
      { snapshot := d.snapshot
        metaF := match lastMeta ops q with
          | some m => some (FData.gen m)
          | none => d.metaF
        gstoreF := match lastGstore ops q with
          | some b => some (FData.gen b)
          | none => d.gstoreF
        linkF := match lastLink ops q with
          | some l => some (FData.gen l)
          | none => d.linkF
        widgets := wApply d.widgets (widgetOpsFor ops q) } := by
  induction ops with
  | nil =>
    intro d
    rfl
  | cons o rest ih =>
    intro d
    rw [show opsTransform (o :: rest) q d = opsTransform rest q (opTransform o q d) from rfl,
      ih]
    cases o with
    | wmeta p m =>
      by_cases h : p = q <;>
        cases hm : lastMeta rest q <;>
        cases hg : lastGstore rest q <;>
        cases hk : lastLink rest q <;>
        simp [opTransform, lastMeta, lastGstore, lastLink, widgetOpsFor, h, hm, hg, hk]
    | wgstore p b =>
      by_cases h : p = q <;>
        cases hm : lastMeta rest q <;>
        cases hg : lastGstore rest q <;>
        cases hk : lastLink rest q <;>
        simp [opTransform, lastMeta, lastGstore, lastLink, widgetOpsFor, h, hm, hg, hk]
    | wwidget p n f =>
      by_cases h : p = q <;>
        cases hm : lastMeta rest q <;>
        cases hg : lastGstore rest q <;>
        cases hk : lastLink rest q <;>
        simp [opTransform, lastMeta, lastGstore, lastLink, widgetOpsFor, wApply, h, hm, hg,
          hk]
    | wlink p l =>
      by_cases h : p = q <;>
        cases hm : lastMeta rest q <;>
        cases hg : lastGstore rest q <;>
        cases hk : lastLink rest q <;>
        simp [opTransform, lastMeta, lastGstore, lastLink, widgetOpsFor, h, hm, hg, hk]

/-- The last widget write in a write sequence for a given name. -/
def lastW : List (String × WDirF) → String → Option WDirF
  | [], _ => none
  | e :: rest, n =>
    match lastW rest n with
    | some f => some f
    | none => if e.1 = n then some e.2 else none

/-- `lastW` is `none` exactly when the name is untouched. -/
theorem lastW_eq_none_iff (ws : List (String × WDirF)) (n : String) :
    lastW ws n = none ↔ ∀ e ∈ ws, e.1 ≠ n := by
  induction ws with
  | nil => simp [lastW]
  | cons e rest ih =>
    rw [lastW]
    cases hl : lastW rest n
    · dsimp only
      by_cases he : e.1 = n
      · rw [if_pos he]
        constructor
        · intro h
          cases h
        · intro h
          exact absurd he (h e (List.mem_cons_self _ _))
      · rw [if_neg he]
        constructor
        · intro _ x hx
          rcases List.mem_cons.1 hx with rfl | hx'
          · exact he
          · exact ih.1 hl x hx'
        · intro _
          rfl
    · dsimp only
      constructor
      · intro h
        cases h
      · intro h
        have h2 := ih.2 (fun x hx => h x (List.mem_cons_of_mem _ hx))
        rw [h2] at hl
        cases hl

/-- Lookup through an in-place overwrite of one name. -/
theorem alookup_map_replace (l : List (String × WDirF)) (k : String) (f : WDirF)
    (n : String) :
    alookup (l.map (fun e => if e.1 = k then (k, f) else e)) n
      = (alookup l n).map (fun v => if n = k then f else v) := by
  induction l with
  | nil => rfl
  | cons e rest ih =>
    rw [List.map_cons]
    by_cases he : e.1 = k
    · rw [if_pos he]
      by_cases hn : n = k
      · subst hn
        rw [alookup_cons, if_pos rfl, alookup_cons, if_pos he]
        simp
      · rw [alookup_cons, if_neg (fun h => hn h.symm), alookup_cons,
          if_neg (fun h => hn (h.symm.trans he)), ih]
    · rw [if_neg he]
      by_cases hen : e.1 = n
      · have hnk : ¬n = k := fun h => he (hen.trans h)
        rw [alookup_cons, if_pos hen, alookup_cons, if_pos hen]
        simp [hnk]
      · rw [alookup_cons, if_neg hen, alookup_cons, if_neg hen, ih]

/-- Lookup through an append. -/
theorem alookup_append {α : Type} (l l' : List (String × α)) (n : String) :
    alookup (l ++ l') n
      = match alookup l n with
        | some v => some v
        | none => alookup l' n := by
  induction l with
  | nil => rfl
  | cons e rest ih =>
    rw [List.cons_append]
    rcases e with ⟨k', v⟩
    rw [alookup_cons, alookup_cons]
    by_cases he : k' = n
    · rw [if_pos he, if_pos he]
    · rw [if_neg he, if_neg he, ih]

/-- Lookup after one create-or-overwrite. -/
theorem alookup_upsert (l : List (String × WDirF)) (k : String) (f : WDirF) (n : String) :
    alookup (upsertWidget l k f) n = if n = k then some f else alookup l n := by
  rw [upsertWidget]
  by_cases hk : (alookup l k).isSome
  · rw [if_pos hk, alookup_map_replace]
    by_cases hn : n = k
    · subst hn
      rcases Option.isSome_iff_exists.1 hk with ⟨v, hv⟩
      rw [hv]
      simp
    · rw [if_neg hn]
      cases alookup l n <;> simp [hn]
  · rw [if_neg hk, alookup_append]
    by_cases hn : n = k
    · subst hn
      rw [if_pos rfl]
      have h0 : alookup l n = none := by
        cases h : alookup l n
        · rfl
        · rw [h] at hk
          exact absurd rfl hk
      rw [h0]
      rw [alookup_cons, if_pos rfl]
    · rw [if_neg hn]
      cases hln : alookup l n
      · rw [alookup_cons, if_neg (fun h => hn h.symm)]
        rfl
      · rfl

/-- Lookup after an applied write sequence: the last write wins, otherwise
the original entry shows through. -/
theorem alookup_wApply (ws : List (String × WDirF)) (n : String) :
    ∀ l, alookup (wApply l ws) n
      = match lastW ws n with
        | some f => some f
        | none => alookup l n := by
  induction ws with
  | nil =>
    intro l
    rfl
  | cons e rest ih =>
    intro l
    rw [show wApply l (e :: rest) = wApply (upsertWidget l e.1 e.2) rest from rfl, ih,
      lastW]
    cases hl : lastW rest n
    · dsimp only
      rw [alookup_upsert]
      by_cases he : e.1 = n
      · rw [if_pos he, if_pos he.symm]
      · rw [if_neg he, if_neg (fun h => he h.symm)]
    · dsimp only

/-- An entry with an untouched name passes through one upsert. -/
theorem mem_upsert_of_ne (l : List (String × WDirF)) (k : String) (f : WDirF)
    (n : String) (v : WDirF) (hne : n ≠ k) :
    (n, v) ∈ upsertWidget l k f ↔ (n, v) ∈ l := by
  rw [upsertWidget]
  by_cases hk : (alookup l k).isSome
  · rw [if_pos hk]
    constructor
    · intro h
      rcases List.mem_map.1 h with ⟨e, he, heq⟩
      by_cases h1 : e.1 = k
      · rw [if_pos h1] at heq
        injection heq with h2 _
        exact absurd h2.symm hne
      · rw [if_neg h1] at heq
        rw [← heq]
        exact he
    · intro h
      refine List.mem_map.2 ⟨(n, v), h, ?_⟩
      rw [if_neg hne]
  · rw [if_neg hk]
    constructor
    · intro h
      rcases List.mem_append.1 h with h1 | h1
      · exact h1
      · rw [List.mem_singleton] at h1
        injection h1 with h2 _
        exact absurd h2 hne
    · intro h
      exact List.mem_append.2 (Or.inl h)

/-- Every entry named `k` after an upsert of `k` carries the new files. -/
theorem mem_upsert_self_val (l : List (String × WDirF)) (k : String) (f : WDirF)
    (v : WDirF) (h : (k, v) ∈ upsertWidget l k f) : v = f := by
  rw [upsertWidget] at h
  by_cases hk : (alookup l k).isSome
  · rw [if_pos hk] at h
    rcases List.mem_map.1 h with ⟨e, _, heq⟩
    by_cases h1 : e.1 = k
    · rw [if_pos h1] at heq
      injection heq with _ h3
      exact h3.symm
    · rw [if_neg h1] at heq
      rw [heq] at h1
      exact absurd rfl h1
  · rw [if_neg hk] at h
    rcases List.mem_append.1 h with h1 | h1
    · have h2 : (alookup l k).isSome = true := by
        clear h hk
        induction l with
        | nil => cases h1
        | cons e rest ih =>
          rcases List.mem_cons.1 h1 with rfl | h2
          · rw [alookup_cons, if_pos rfl]
            rfl
          · rw [alookup_cons]
            by_cases he : e.1 = k
            · rw [if_pos he]
              rfl
            · rw [if_neg he]
              exact ih h2
      exact absurd h2 hk
    · rw [List.mem_singleton, Prod.mk.injEq] at h1
      exact h1.2

/-- Entries with names untouched by the write sequence pass through. -/
theorem mem_wApply_of_untouched (ws : List (String × WDirF)) (n : String) (v : WDirF)
    (hn : ∀ e ∈ ws, e.1 ≠ n) : ∀ l, (n, v) ∈ wApply l ws ↔ (n, v) ∈ l := by
  induction ws with
  | nil =>
    intro l
    exact Iff.rfl
  | cons e rest ih =>
    intro l
    rw [show wApply l (e :: rest) = wApply (upsertWidget l e.1 e.2) rest from rfl]
    rw [ih (fun x hx => hn x (List.mem_cons_of_mem _ hx))]
    exact mem_upsert_of_ne l e.1 e.2 n v (fun h => hn e (List.mem_cons_self _ _) h.symm)

/-- Every entry of an applied write sequence whose name was written carries
the last written files. -/
theorem wApply_entry_last (ws : List (String × WDirF)) :
    ∀ (l : List (String × WDirF)) (e : String × WDirF), e ∈ wApply l ws →
    ∀ f, lastW ws e.1 = some f → e.2 = f := by
  induction ws with
  | nil =>
    intro l e _ f hf
    cases hf
  | cons w rest ih =>
    intro l e he f hf
    rw [show wApply l (w :: rest) = wApply (upsertWidget l w.1 w.2) rest from rfl] at he
    rw [lastW] at hf
    cases hl : lastW rest e.1
    · rw [hl] at hf
      dsimp only at hf
      by_cases hw : w.1 = e.1
      · rw [if_pos hw] at hf
        injection hf with hf2
        have huntouched : ∀ x ∈ rest, x.1 ≠ e.1 := (lastW_eq_none_iff rest e.1).1 hl
        have hmem : (e.1, e.2) ∈ wApply (upsertWidget l w.1 w.2) rest := by
          rw [show (e.1, e.2) = e from rfl]
          exact he
        rw [mem_wApply_of_untouched rest e.1 e.2 huntouched] at hmem
        rw [← hw] at hmem
        rw [← hf2]
        exact mem_upsert_self_val l w.1 w.2 e.2 hmem
      · rw [if_neg hw] at hf
        cases hf
    · rw [hl] at hf
      dsimp only at hf
      injection hf with hf2
      rw [← hf2]
      exact ih _ e he _ hl

/-- Generated widget directory names are `widget-*` named. -/
theorem widgetDirName_starts (s : String) : strStarts (widgetDirName s) "widget-" = true := by
  rw [widgetDirName, strStarts, String.data_append]
  rw [List.isPrefixOf_iff_prefix]
  exact List.prefix_append _ _

/-- Membership in the widget-write extraction. -/
theorem mem_widgetOpsFor (ops : List WOp) (q : FPath) (wn : String) (f : WDirF) :
    (wn, f) ∈ widgetOpsFor ops q ↔ WOp.wwidget q wn f ∈ ops := by
  induction ops with
  | nil => simp [widgetOpsFor]
  | cons o rest ih =>
    cases o with
    | wmeta p m =>
      rw [show widgetOpsFor (WOp.wmeta p m :: rest) q = widgetOpsFor rest q from rfl, ih]
      constructor
      · exact fun hm => List.mem_cons_of_mem _ hm
      · intro hm
        rcases List.mem_cons.1 hm with heq | hm'
        · cases heq
        · exact hm'
    | wgstore p b =>
      rw [show widgetOpsFor (WOp.wgstore p b :: rest) q = widgetOpsFor rest q from rfl, ih]
      constructor
      · exact fun hm => List.mem_cons_of_mem _ hm
      · intro hm
        rcases List.mem_cons.1 hm with heq | hm'
        · cases heq
        · exact hm'
    | wlink p l =>
      rw [show widgetOpsFor (WOp.wlink p l :: rest) q = widgetOpsFor rest q from rfl, ih]
      constructor
      · exact fun hm => List.mem_cons_of_mem _ hm
      · intro hm
        rcases List.mem_cons.1 hm with heq | hm'
        · cases heq
        · exact hm'
    | wwidget p n fl =>
      by_cases h : p = q
      · subst h
        rw [show widgetOpsFor (WOp.wwidget p n fl :: rest) p
            = (n, fl) :: widgetOpsFor rest p from by rw [widgetOpsFor, if_pos rfl]]
        constructor
        · intro hm
          rcases List.mem_cons.1 hm with heq | hm'
          · rw [Prod.mk.injEq] at heq
            rw [heq.1, heq.2]
            exact List.mem_cons_self _ _
          · exact List.mem_cons_of_mem _ (ih.1 hm')
        · intro hm
          rcases List.mem_cons.1 hm with heq | hm'
          · injection heq with _ h2 h3
            rw [h2, h3]
            exact List.mem_cons_self _ _
          · exact List.mem_cons_of_mem _ (ih.2 hm')
      · rw [show widgetOpsFor (WOp.wwidget p n fl :: rest) q
            = widgetOpsFor rest q from by rw [widgetOpsFor, if_neg h], ih]
        constructor
        · exact fun hm => List.mem_cons_of_mem _ hm
        · intro hm
          rcases List.mem_cons.1 hm with heq | hm'
          · injection heq with h1 _ _
            exact absurd h1.symm h
          · exact hm'

/-- A widget-directory write only ever comes from the widget records of the
emitting room's own snapshot. -/
theorem wwidget_mem_opsOfRoom {sk : Skel} {t : Int} {p q : FPath} {n : String} {f : WDirF}
    (h : WOp.wwidget q n f ∈ opsOfRoom sk t p) :
    q = p ∧ ∃ cs, skSnapAt sk p = some (some cs) ∧
      ∃ w ∈ (processDocs cs).widgets, n = widgetDirName w.shapeId ∧ f = widgetFilesOf w := by
  rw [opsOfRoom] at h
  rcases hsq : skSnapAt sk p with _ | pres
  · rw [hsq] at h
    cases h
  · rw [hsq] at h
    rcases pres with _ | cs
    · cases h
    · dsimp only at h
      rw [roomOps] at h
      rcases List.mem_append.1 h with h1 | h2
      · rcases List.mem_append.1 h1 with h3 | h4
        · rcases List.mem_cons.1 h3 with h5 | h5
          · cases h5
          · rw [List.mem_singleton] at h5
            cases h5
        · rcases List.mem_map.1 h4 with ⟨w, hw, hweq⟩
          injection hweq with hp1 hp2 hp3
          exact ⟨hp1.symm, cs, rfl, w, hw, hp2.symm, hp3.symm⟩
      · rcases List.mem_filterMap.1 h2 with ⟨l0, _, hl0⟩
        rcases htc : l0.properties.targetCanvasId with _ | tn'
        · rw [htc] at hl0
          cases hl0
        · rw [htc] at hl0
          dsimp only at hl0
          by_cases hemp : tn' = ""
          · rw [if_pos hemp] at hl0
            cases hl0
          · rw [if_neg hemp] at hl0
            by_cases hex : skExists sk (p ++ [tn'])
            · rw [if_pos hex] at hl0
              injection hl0 with h6
              cases h6
            · rw [if_neg hex] at hl0
              cases hl0

/-- Processed rooms contribute a widget-directory write for each widget
record of their snapshot. -/
theorem wwidget_of_procd (sk : Skel) (t : Int) (pops : List FPath) (q : FPath)
    (cs : CanvasState) (hq : q ∈ pops) (hcs : skSnapAt sk q = some (some cs))
    (w : UWidgetOut) (hw : w ∈ (processDocs cs).widgets) :
    WOp.wwidget q (widgetDirName w.shapeId) (widgetFilesOf w)
      ∈ pops.bind (opsOfRoom sk t) := by
  refine List.mem_bind.2 ⟨q, hq, ?_⟩
  rw [opsOfRoom, hcs]
  dsimp only
  rw [roomOps]
  refine List.mem_append.2 (Or.inl (List.mem_append.2 (Or.inr ?_)))
  exact List.mem_map.2 ⟨w, hw, rfl⟩

/-- Membership in `procdC`, spelled out. -/
theorem mem_procdC (sk : Skel) (pops : List FPath) (q : FPath) :
    q ∈ procdC sk pops ↔ (q ∈ pops ∧ ∃ cs, skSnapAt sk q = some (some cs)) := by
  rw [procdC, List.mem_filter]
  constructor
  · rintro ⟨hq, hpred⟩
    refine ⟨hq, ?_⟩
    rcases hsq : skSnapAt sk q with _ | pres
    · rw [hsq] at hpred
      cases hpred
    · rcases pres with _ | cs
      · rw [hsq] at hpred
        cases hpred
      · exact ⟨cs, rfl⟩
  · rintro ⟨hq, cs, hcs⟩
    refine ⟨hq, ?_⟩
    rw [hcs]

/-- Rebuilding a nonempty path from its directory and base name. -/
theorem eq_dropLast_concat_basename {x : FPath} (hx : x ≠ []) :
    x.dropLast ++ [basename x] = x := by
  have h1 : basename x = x.getLast hx := by
    rw [basename, List.getLastD_eq_getLast?, List.getLast?_eq_getLast x hx]
    rfl
  rw [h1]
  exact List.dropLast_append_getLast hx

/-- Lookup through a key-based filter of a widget directory list. -/
theorem alookup_filter_key {α : Type} (l : List (String × α)) (pb : String → Bool)
    (n : String) :
    alookup (l.filter (fun e => pb e.1)) n = if pb n then alookup l n else none := by
  induction l with
  | nil =>
    rw [List.filter_nil]
    cases pb n <;> rfl
  | cons e rest ih =>
    rw [List.filter_cons]
    by_cases he : e.1 = n
    · subst he
      cases hp : pb e.1 <;> simp [hp, alookup, ih]
    · cases hp : pb e.1 <;> simp [hp, alookup, he, ih]

/-- The final deletion-candidate set, characterised: the existing `room-*`
children of processed rooms that no link record of the containing room's
snapshot targets. -/
theorem cand_iff {sk : Skel} {c' : CtrlSt} (hinv : CInv sk c') (x : FPath) :
    x ∈ c'.cand ↔ (¬ Linked sk x ∧ x ≠ [] ∧ x.dropLast ∈ procdC sk c'.pops ∧
      skExists sk x = true ∧ strStarts (basename x) "room-" = true) := by
  constructor
  · intro h
    rcases hinv.candShape x h with ⟨h1, h2, h3, h4⟩
    exact ⟨hinv.candNL x h, h1, h2, h3, h4⟩
  · rintro ⟨hnl, hne, hdrop, hex, hroomname⟩
    have hx : x.dropLast ++ [basename x] = x := eq_dropLast_concat_basename hne
    have hch : basename x ∈ skChildren sk x.dropLast := by
      apply skChildren_mem_of
      · rw [hx]
        exact hex
      · exact hroomname
    have h2 := hinv.candCover x.dropLast hdrop (basename x) hch (by rw [hx]; exact hnl)
    rw [hx] at h2
    exact h2

/-! ## Claim C1 -/

/-- C1 (amended): after a completed unpack run, (i) a directory is present
in the final tree iff it was present initially and no remaining deletion
candidate is a prefix of its path; (ii) the remaining candidates are exactly
the existing `room-*` children of processed rooms not targeted by any link
record of the containing room's snapshot; and (iii) inside any surviving,
non-hidden directory, a `widget-*` entry is present iff the directory is a
room that was processed during the traversal and the name is one of the
widget records of that room's snapshot. -/
theorem c1_retention_after_run (fuel : Nat) (t : Int) (fs : Repo) (root : String)
    (c' : CtrlSt) (ops : List WOp)
    (hroot : topRoomNames fs = [root])
    (hct : ctrl (skelOf fs) t fuel (initCtrl root) = CtrlRes.done c' ops) :
    run fuel t fs = some (0, cleanupRooms c'.cand (cleanupWidgets c'.pw (applyOps fs ops))) ∧
    (∀ q, (lookupRepo (cleanupRooms c'.cand (cleanupWidgets c'.pw (applyOps fs ops))) q).isSome
        = ((lookupRepo fs q).isSome && !(c'.cand.any (fun d => pathHasPre d q)))) ∧
    (∀ x, x ∈ c'.cand ↔ (¬ Linked (skelOf fs) x ∧ x ≠ [] ∧
        x.dropLast ∈ procdC (skelOf fs) c'.pops ∧ skExists (skelOf fs) x = true ∧
        strStarts (basename x) "room-" = true)) ∧
    (∀ q d', lookupRepo (cleanupRooms c'.cand (cleanupWidgets c'.pw (applyOps fs ops))) q
        = some d' → hasDotComponent q = false →
      ∀ wn, strStarts wn "widget-" = true →
        ((alookup d'.widgets wn).isSome = true ↔
          ∃ cs, snapFileAt fs q = some (some cs) ∧ q ∈ c'.pops ∧
            wn ∈ widgetNamesOf cs)) := by
  rcases ctrl_done_facts (skelOf fs) t fuel (initCtrl root) c' ops hct (CInv_init _ root)
    with ⟨hinv', _, ⟨suf, hsuf, hops⟩, _, _, _, _⟩
  have hpops : c'.pops = suf := hsuf
  have hops2 : ops = c'.pops.bind (opsOfRoom (skelOf fs) t) := by
    rw [hpops]
    exact hops
  refine ⟨run_eq_of_ctrl_done fuel t fs root c' ops hroot hct, ?_, cand_iff hinv', ?_⟩
  · intro q
    rw [lookupRepo_cleanupRooms, lookupRepo_cleanupWidgets, lookupRepo_applyOps]
    cases ha : c'.cand.any (fun d => pathHasPre d q) <;>
      cases hlq : lookupRepo fs q <;> simp [ha, hlq]
  · intro q d' hd' hdot wn hwn
    rw [lookupRepo_cleanupRooms] at hd'
    cases ha : c'.cand.any (fun d => pathHasPre d q)
    · rw [ha, if_neg Bool.false_ne_true] at hd'
      rw [lookupRepo_cleanupWidgets, lookupRepo_applyOps] at hd'
      cases hlq : lookupRepo fs q with
      | none =>
        rw [hlq] at hd'
        cases hd'
      | some d0 =>
        rw [hlq] at hd'
        injection hd' with hd2
        subst hd2
        rw [wcDir, if_neg (by rw [hdot]; exact Bool.false_ne_true)]
        dsimp only
        rw [opsTransform_fields]
        dsimp only
        rw [alookup_filter_key _
          (fun n => !(strStarts n "widget-") || decide ((q ++ [n]) ∈ c'.pw)) wn]
        by_cases hpw : (q ++ [wn]) ∈ c'.pw
        · rw [if_pos (by simp [hwn, hpw])]
          rcases hinv'.pwShape _ hpw with ⟨_, hdrop, cs, hcs, hbn⟩
          rw [dropLast_concat'] at hdrop hcs
          rw [basename_concat] at hbn
          refine iff_of_true ?_ ?_
          · rcases List.mem_map.1 (show wn ∈ (processDocs cs).widgets.map
                (fun w => widgetDirName w.shapeId) from hbn) with ⟨w, hw, hwn2⟩
            have hqpops : q ∈ c'.pops := ((mem_procdC _ _ _).1 hdrop).1
            have hop : WOp.wwidget q wn (widgetFilesOf w) ∈ ops := by
              rw [hops2]
              rw [← hwn2]
              exact wwidget_of_procd (skelOf fs) t c'.pops q cs hqpops hcs w hw
            have hentry : (wn, widgetFilesOf w) ∈ widgetOpsFor ops q :=
              (mem_widgetOpsFor ops q wn (widgetFilesOf w)).2 hop
            rw [alookup_wApply]
            cases hlw : lastW (widgetOpsFor ops q) wn
            · exact absurd rfl
                ((lastW_eq_none_iff _ _).1 hlw (wn, widgetFilesOf w) hentry)
            · rfl
          · refine ⟨cs, ?_, ((mem_procdC _ _ _).1 hdrop).1, hbn⟩
            rw [← skSnapAt_skelOf]
            exact hcs
        · rw [if_neg (by simp [hwn, hpw])]
          refine iff_of_false (by simp) ?_
          rintro ⟨cs, hcs, hqpops, hwnames⟩
          refine hpw (hinv'.pwCover q ?_ cs ?_ wn hwnames)
          · exact (mem_procdC _ _ _).2 ⟨hqpops, cs, by rw [skSnapAt_skelOf]; exact hcs⟩
          · rw [skSnapAt_skelOf]
            exact hcs
    · rw [ha] at hd'
      simp at hd'

/-- The control result of the C1 scenario run. -/
def c1res : CtrlRes := ctrl (skelOf repoA) 0 9 (initCtrl "room-A")

/-- Its final control state. -/
def c1c : CtrlSt :=
  match c1res with
  | CtrlRes.done c _ => c
  | CtrlRes.aborted c _ => c
  | CtrlRes.outOfFuel c _ => c

/-- Its emitted writes. -/
def c1ops : List WOp :=
  match c1res with
  | CtrlRes.done _ o => o
  | CtrlRes.aborted _ o => o
  | CtrlRes.outOfFuel _ o => o

/-- Witness for C1 on the concrete scenario `repoA`. -/
theorem c1_retention_after_run_witness :
    run 9 0 repoA
      = some (0, cleanupRooms c1c.cand (cleanupWidgets c1c.pw (applyOps repoA c1ops))) ∧
    (∀ q, (lookupRepo (cleanupRooms c1c.cand (cleanupWidgets c1c.pw (applyOps repoA c1ops)))
          q).isSome
        = ((lookupRepo repoA q).isSome && !(c1c.cand.any (fun d => pathHasPre d q)))) ∧
    (∀ x, x ∈ c1c.cand ↔ (¬ Linked (skelOf repoA) x ∧ x ≠ [] ∧
        x.dropLast ∈ procdC (skelOf repoA) c1c.pops ∧ skExists (skelOf repoA) x = true ∧
        strStarts (basename x) "room-" = true)) ∧
    (∀ q d', lookupRepo (cleanupRooms c1c.cand (cleanupWidgets c1c.pw (applyOps repoA c1ops)))
        q = some d' → hasDotComponent q = false →
      ∀ wn, strStarts wn "widget-" = true →
        ((alookup d'.widgets wn).isSome = true ↔
          ∃ cs, snapFileAt repoA q = some (some cs) ∧ q ∈ c1c.pops ∧
            wn ∈ widgetNamesOf cs)) :=
  c1_retention_after_run 9 0 repoA "room-A" c1c c1ops rfl rfl

/-! ## Idempotence of the write layer -/

/-- Overwrite every entry whose name the write sequence touches with the
last written files. -/
def substW (l : List (String × WDirF)) (ws : List (String × WDirF)) :
    List (String × WDirF) :=
  l.map (fun e =>
    match lastW ws e.1 with
    | some f => (e.1, f)
    | none => e)

/-- When every written name is already present, applying the writes is an
in-place overwrite. -/
theorem wApply_eq_substW (ws : List (String × WDirF)) :
    ∀ l, (∀ e ∈ ws, (alookup l e.1).isSome = true) → wApply l ws = substW l ws := by
  induction ws with
  | nil =>
    intro l _
    rw [show wApply l [] = l from rfl, substW]
    have h1 : List.map (fun e => match lastW ([] : List (String × WDirF)) e.1 with
        | some f => (e.1, f)
        | none => e) l = List.map id l :=
      List.map_congr_left (fun e _ => rfl)
    rw [h1, List.map_id]
  | cons w rest ih =>
    intro l hpres
    rw [show wApply l (w :: rest) = wApply (upsertWidget l w.1 w.2) rest from rfl]
    have hw : (alookup l w.1).isSome = true := hpres w (List.mem_cons_self _ _)
    have hpres' : ∀ e ∈ rest, (alookup (upsertWidget l w.1 w.2) e.1).isSome = true := by
      intro e he
      rw [alookup_upsert]
      by_cases h : e.1 = w.1
      · rw [if_pos h]
        rfl
      · rw [if_neg h]
        exact hpres e (List.mem_cons_of_mem _ he)
    rw [ih _ hpres']
    rw [upsertWidget, if_pos hw, substW, substW, List.map_map]
    refine List.map_congr_left (fun e _ => ?_)
    dsimp only [Function.comp]
    by_cases he : e.1 = w.1
    · rw [if_pos he]
      dsimp only
      have hlw : lastW rest w.1 = lastW rest e.1 := by rw [he]
      rw [lastW]
      cases hl : lastW rest e.1
      · rw [hlw, hl]
        dsimp only
        rw [if_pos he.symm]
        rw [← he]
      · rw [hlw, hl]
        dsimp only
        rw [← he]
    · rw [if_neg he]
      rw [lastW]
      cases hl : lastW rest e.1
      · dsimp only
        rw [if_neg (fun h => he h.symm)]
      · dsimp only

/-- On a list already carrying the last written files, the overwrite is the
identity. -/
theorem substW_eq_self (l ws : List (String × WDirF))
    (h : ∀ e ∈ l, ∀ f, lastW ws e.1 = some f → e.2 = f) : substW l ws = l := by
  rw [substW]
  have h1 : ∀ e ∈ l, (match lastW ws e.1 with
      | some f => (e.1, f)
      | none => e) = id e := by
    intro e he
    cases hl : lastW ws e.1
    · rfl
    · dsimp only [id]
      rw [show e = (e.1, e.2) from rfl]
      rw [h e he _ hl]
  rw [List.map_congr_left h1, List.map_id]

/-- Every written name is present after the writes are applied. -/
theorem alookup_wApply_isSome (l ws : List (String × WDirF)) (e : String × WDirF)
    (he : e ∈ ws) : (alookup (wApply l ws) e.1).isSome = true := by
  rw [alookup_wApply]
  cases hl : lastW ws e.1
  · exact absurd rfl ((lastW_eq_none_iff ws e.1).1 hl e he)
  · rfl

/-- Applying the same write sequence twice is the same as applying it
once. -/
theorem wApply_wApply (l ws : List (String × WDirF)) :
    wApply (wApply l ws) ws = wApply l ws := by
  rw [wApply_eq_substW ws (wApply l ws) (fun e he => alookup_wApply_isSome l ws e he)]
  exact substW_eq_self _ _ (wApply_entry_last ws l)

/-- Filtering twice by the same predicate filters once. -/
theorem filter_idem {α : Type} (l : List α) (pb : α → Bool) :
    (l.filter pb).filter pb = l.filter pb := by
  induction l with
  | nil => rfl
  | cons e rest ih =>
    rw [List.filter_cons]
    cases hp : pb e
    · rw [if_neg Bool.false_ne_true]
      exact ih
    · rw [if_pos rfl]
      rw [List.filter_cons, hp, if_pos rfl, ih]

/-- Re-applying a write sequence to the filtered result changes nothing
when the filter keeps every written name. -/
theorem wApply_filter_wApply (l ws : List (String × WDirF)) (pb : String → Bool)
    (hW : ∀ e ∈ ws, pb e.1 = true) :
    wApply ((wApply l ws).filter (fun e => pb e.1)) ws
      = (wApply l ws).filter (fun e => pb e.1) := by
  have hpres : ∀ e ∈ ws, (alookup ((wApply l ws).filter (fun e => pb e.1)) e.1).isSome
      = true := by
    intro e he
    rw [alookup_filter_key _ pb e.1, if_pos (hW e he)]
    exact alookup_wApply_isSome l ws e he
  rw [wApply_eq_substW ws _ hpres]
  refine substW_eq_self _ _ ?_
  intro e he f hf
  exact wApply_entry_last ws l e (List.mem_of_mem_filter he) f hf

/-- The combined effect on one directory of a run's writes followed by the
widget collector pass. -/
def xform (M : Option UMetaOut) (G : Option Blob) (K : Option ULinkInfoOut)
    (W : List (String × WDirF)) (dot : Bool) (pb : String → Bool) (d : RoomData) :
    RoomData :=
  { snapshot := d.snapshot
    metaF := match M with
      | some m => some (FData.gen m)
      | none => d.metaF
    gstoreF := match G with
      | some b => some (FData.gen b)
      | none => d.gstoreF
    linkF := match K with
      | some l => some (FData.gen l)
      | none => d.linkF
    widgets := if dot then wApply d.widgets W
      else (wApply d.widgets W).filter (fun e => pb e.1) }

/-- Writes-then-collector on one directory, as an `xform`. -/
theorem wcDir_opsTransform_eq_xform (pw : List FPath) (ops : List WOp) (q : FPath)
    (d : RoomData) :
    wcDir pw q (opsTransform ops q d)
      = xform (lastMeta ops q) (lastGstore ops q) (lastLink ops q) (widgetOpsFor ops q)
          (hasDotComponent q)
          (fun n => !(strStarts n "widget-") || decide ((q ++ [n]) ∈ pw)) d := by
  rw [opsTransform_fields, wcDir, xform.eq_def]
  cases hdot : hasDotComponent q
  · rw [if_neg Bool.false_ne_true, if_neg Bool.false_ne_true]
  · rw [if_pos rfl, if_pos rfl]

/-- `xform` is idempotent when the collector keeps every written widget
name. -/
theorem xform_xform (M : Option UMetaOut) (G : Option Blob) (K : Option ULinkInfoOut)
    (W : List (String × WDirF)) (dot : Bool) (pb : String → Bool)
    (hW : ∀ e ∈ W, pb e.1 = true) (d : RoomData) :
    xform M G K W dot pb (xform M G K W dot pb d) = xform M G K W dot pb d := by
  cases M <;> cases G <;> cases K <;> cases dot <;>
    simp [xform, wApply_wApply, wApply_filter_wApply _ _ _ hW, filter_idem]

/-- Re-running the writes and the widget collector on an already written
and collected directory changes nothing. -/
theorem roomdata_absorb (pw : List FPath) (ops : List WOp) (q : FPath) (d0 : RoomData)
    (hW : ∀ n f, (n, f) ∈ widgetOpsFor ops q →
      (!(strStarts n "widget-") || decide ((q ++ [n]) ∈ pw)) = true) :
    wcDir pw q (opsTransform ops q (wcDir pw q (opsTransform ops q d0)))
      = wcDir pw q (opsTransform ops q d0) := by
  rw [wcDir_opsTransform_eq_xform, wcDir_opsTransform_eq_xform]
  refine xform_xform _ _ _ _ _ _ ?_ d0
  intro e he
  exact hW e.1 e.2 (by rw [show (e.1, e.2) = e from rfl]; exact he)

/-- Re-running the writes and the widget collector on a completed run's
final tree changes nothing. -/
theorem cleanup_absorb (pw D : List FPath) (ops : List WOp) (fs : Repo)
    (hWall : ∀ q n f, (n, f) ∈ widgetOpsFor ops q →
      (!(strStarts n "widget-") || decide ((q ++ [n]) ∈ pw)) = true) :
    cleanupWidgets pw (applyOps (cleanupRooms D (cleanupWidgets pw (applyOps fs ops))) ops)
      = cleanupRooms D (cleanupWidgets pw (applyOps fs ops)) := by
  rw [cleanupWidgets_eq, applyOps_entrywise, List.map_map]
  refine (List.map_congr_left ?_).trans (List.map_id _)
  intro e he
  have he2 : e ∈ cleanupWidgets pw (applyOps fs ops) := by
    rw [cleanupRooms] at he
    exact List.mem_of_mem_filter he
  rw [cleanupWidgets_eq, applyOps_entrywise, List.map_map] at he2
  rcases List.mem_map.1 he2 with ⟨e0, _, heq⟩
  rw [← heq]
  dsimp only [Function.comp]
  rw [roomdata_absorb pw ops e0.1 e0.2 (fun n f hnf => hWall e0.1 n f hnf)]
  rfl

/-- One skipped pop (missing snapshot) preserves the invariants. -/
theorem CInv_skip_step {sk : Skel} {c : CtrlSt} {p : FPath} {rest : List FPath}
    (hinv : CInv sk c) (hq : c.queue = p :: rest) (hsnap : skSnapAt sk p = none) :
    CInv sk { c with queue := rest, pops := c.pops ++ [p] } := by
  have hpChain := hinv.qChain p (by rw [hq]; exact List.mem_cons_self _ _)
  have hproc0 : procdC sk (c.pops ++ [p]) = procdC sk c.pops :=
    procdC_append_skip sk c.pops p hsnap
  refine ⟨?_, ?_, ?_, ?_, ?_, hinv.candNd, ?_, ?_, ?_, ?_, ?_, ?_⟩
  · intro x hx
    exact hinv.qChain x (by rw [hq]; exact List.mem_cons_of_mem _ hx)
  · intro x hx
    rcases List.mem_append.1 hx with hx' | hx''
    · exact hinv.popsChain x hx'
    · rw [List.mem_singleton] at hx''
      subst hx''
      exact hpChain
  · exact hinv.pushedLinked
  · intro x hx
    rcases hinv.pushedSeen x hx with h1 | h2
    · exact Or.inl (List.mem_append.2 (Or.inl h1))
    · rw [hq] at h2
      rcases List.mem_cons.1 h2 with rfl | h3
      · exact Or.inl (List.mem_append.2 (Or.inr (List.mem_singleton.2 rfl)))
      · exact Or.inr h3
  · exact hinv.candNL
  · intro x hx
    have h2 := hinv.candShape x hx
    rw [show ({ c with queue := rest, pops := c.pops ++ [p] } : CtrlSt).pops
      = c.pops ++ [p] from rfl, hproc0]
    exact h2
  · intro pr hpr
    rw [show ({ c with queue := rest, pops := c.pops ++ [p] } : CtrlSt).pops
      = c.pops ++ [p] from rfl, hproc0] at hpr
    exact hinv.candCover pr hpr
  · intro s
    rw [show ({ c with queue := rest, pops := c.pops ++ [p] } : CtrlSt).pops
      = c.pops ++ [p] from rfl, hproc0]
    exact hinv.visIff s
  · intro w hw
    have h2 := hinv.pwShape w hw
    rw [show ({ c with queue := rest, pops := c.pops ++ [p] } : CtrlSt).pops
      = c.pops ++ [p] from rfl, hproc0]
    exact h2
  · intro pr hpr
    rw [show ({ c with queue := rest, pops := c.pops ++ [p] } : CtrlSt).pops
      = c.pops ++ [p] from rfl, hproc0] at hpr
    exact hinv.pwCover pr hpr
  · intro pr hpr
    rw [show ({ c with queue := rest, pops := c.pops ++ [p] } : CtrlSt).pops
      = c.pops ++ [p] from rfl, hproc0] at hpr
    exact hinv.linkHandled pr hpr

/-- One processed pop (snapshot parses) preserves the invariants. -/
theorem CInv_proc_step {sk : Skel} {c : CtrlSt} {p : FPath} {rest : List FPath}
    {cs : CanvasState} {cand2 pushedNew : List FPath}
    (hinv : CInv sk c) (hq : c.queue = p :: rest)
    (hsnap : skSnapAt sk p = some (some cs))
    (hfold : (processDocs cs).canvasLinks.foldl
        (linkStep p (insertNew c.visited (basename p)))
        (collectCands p (skChildren sk p) c.cand, []) = (cand2, pushedNew)) :
    CInv sk
      { queue := rest ++ pushedNew
        visited := insertNew c.visited (basename p)
        cand := cand2
        pw := c.pw ++ (processDocs cs).widgets.map
          (fun w => p ++ [widgetDirName w.shapeId])
        pops := c.pops ++ [p]
        pushed := c.pushed ++ pushedNew } := by
  have hpChain := hinv.qChain p (by rw [hq]; exact List.mem_cons_self _ _)
  have hcand1nd : (collectCands p (skChildren sk p) c.cand).Nodup :=
    collectCands_nodup _ _ _ hinv.candNd
  have hfst : ∀ x : FPath, x ∈ cand2 ↔
      (x ∈ collectCands p (skChildren sk p) c.cand ∧
        ¬∃ tn ∈ targetsOf cs, x = p ++ [tn]) := by
    intro x
    have h2 := linkFold_fst_mem p (insertNew c.visited (basename p))
      (processDocs cs).canvasLinks
      (collectCands p (skChildren sk p) c.cand, []) x hcand1nd
    rw [hfold] at h2
    exact h2
  have hsnd : ∀ x : FPath, x ∈ pushedNew ↔
      ∃ tn ∈ targetsOf cs, x = p ++ [tn] ∧
        tn ∉ insertNew c.visited (basename p) := by
    intro x
    have h2 := linkFold_snd_mem p (insertNew c.visited (basename p))
      (processDocs cs).canvasLinks
      (collectCands p (skChildren sk p) c.cand, []) x
    rw [hfold] at h2
    constructor
    · intro hx
      rcases h2.1 hx with h3 | h3
      · exact absurd h3 (List.not_mem_nil x)
      · exact h3
    · intro hx
      exact h2.2 (Or.inr hx)
  have hc1 : ∀ x : FPath, x ∈ collectCands p (skChildren sk p) c.cand ↔
      x ∈ c.cand ∨ ∃ n' ∈ skChildren sk p, x = p ++ [n'] :=
    fun x => mem_collectCands p _ c.cand x
  have hv1 : ∀ s : String, s ∈ insertNew c.visited (basename p) ↔
      s ∈ c.visited ∨ s = basename p :=
    fun s => mem_insertNew c.visited (basename p) s
  have hproc : procdC sk (c.pops ++ [p]) = procdC sk c.pops ++ [p] :=
    procdC_append_parse sk c.pops p cs hsnap
  have hLinkTn : ∀ tn ∈ targetsOf cs, Linked sk (p ++ [tn]) := by
    intro tn htn
    refine ⟨cs, ?_, ?_⟩
    · rw [dropLast_concat']
      exact hsnap
    · rw [basename_concat]
      exact htn
  have hChainTn : ∀ tn ∈ targetsOf cs,
      (p ++ [tn]) ≠ [] ∧ WellChained sk (p ++ [tn]) := by
    intro tn htn
    exact ⟨by simp, WellChained.extend hpChain.2 (hLinkTn tn htn)⟩
  refine ⟨?_, ?_, ?_, ?_, ?_, ?_, ?_, ?_, ?_, ?_, ?_, ?_⟩
  · dsimp only
    intro x hx
    rcases List.mem_append.1 hx with hx' | hx''
    · exact hinv.qChain x (by rw [hq]; exact List.mem_cons_of_mem _ hx')
    · rcases (hsnd x).1 hx'' with ⟨tn, htn, rfl, _⟩
      exact hChainTn tn htn
  · dsimp only
    intro x hx
    rcases List.mem_append.1 hx with hx' | hx''
    · exact hinv.popsChain x hx'
    · rw [List.mem_singleton] at hx''
      subst hx''
      exact hpChain
  · dsimp only
    intro x hx
    rcases List.mem_append.1 hx with hx' | hx''
    · exact hinv.pushedLinked x hx'
    · rcases (hsnd x).1 hx'' with ⟨tn, htn, rfl, _⟩
      exact ⟨hLinkTn tn htn, hChainTn tn htn⟩
  · dsimp only
    intro x hx
    rcases List.mem_append.1 hx with hx' | hx''
    · rcases hinv.pushedSeen x hx' with h1 | h2
      · exact Or.inl (List.mem_append.2 (Or.inl h1))
      · rw [hq] at h2
        rcases List.mem_cons.1 h2 with rfl | h3
        · exact Or.inl (List.mem_append.2 (Or.inr (List.mem_singleton.2 rfl)))
        · exact Or.inr (List.mem_append.2 (Or.inl h3))
    · exact Or.inr (List.mem_append.2 (Or.inr hx''))
  · dsimp only
    intro x hx
    rcases (hfst x).1 hx with ⟨hx1, hnt⟩
    rcases (hc1 x).1 hx1 with hxc | ⟨n', hn', rfl⟩
    · exact hinv.candNL x hxc
    · intro hL
      rcases hL with ⟨cs', hcs', hbn⟩
      rw [dropLast_concat'] at hcs'
      rw [hsnap] at hcs'
      injection hcs' with h3
      injection h3 with h4
      subst h4
      rw [basename_concat] at hbn
      exact hnt ⟨n', hbn, rfl⟩
  · dsimp only
    have h2 := linkFold_nodup p (insertNew c.visited (basename p))
      (processDocs cs).canvasLinks
      (collectCands p (skChildren sk p) c.cand, []) hcand1nd
    rw [hfold] at h2
    exact h2
  · dsimp only
    intro x hx
    rcases (hfst x).1 hx with ⟨hx1, _⟩
    rcases (hc1 x).1 hx1 with hxc | ⟨n', hn', rfl⟩
    · rcases hinv.candShape x hxc with ⟨h1, h2, h3, h4⟩
      exact ⟨h1, by rw [hproc]; exact List.mem_append.2 (Or.inl h2), h3, h4⟩
    · rcases skChildren_mem sk p n' hn' with ⟨hex, hr⟩
      refine ⟨by simp, ?_, hex, ?_⟩
      · rw [hproc, dropLast_concat']
        exact List.mem_append.2 (Or.inr (List.mem_singleton.2 rfl))
      · rw [basename_concat]
        exact hr
  · dsimp only
    intro pr hpr n' hn' hnl
    rw [hproc] at hpr
    refine (hfst _).2 ⟨?_, ?_⟩
    · rcases List.mem_append.1 hpr with hpr' | hpr''
      · exact (hc1 _).2 (Or.inl (hinv.candCover pr hpr' n' hn' hnl))
      · rw [List.mem_singleton] at hpr''
        subst hpr''
        exact (hc1 _).2 (Or.inr ⟨n', hn', rfl⟩)
    · rintro ⟨tn, htn, he⟩
      rw [he] at hnl
      exact hnl (hLinkTn tn htn)
  · dsimp only
    intro s
    rw [hproc]
    constructor
    · intro hs
      rcases (hv1 s).1 hs with hs' | rfl
      · rcases (hinv.visIff s).1 hs' with ⟨pr, hpr, hb⟩
        exact ⟨pr, List.mem_append.2 (Or.inl hpr), hb⟩
      · exact ⟨p, List.mem_append.2 (Or.inr (List.mem_singleton.2 rfl)), rfl⟩
    · rintro ⟨pr, hpr, hb⟩
      rcases List.mem_append.1 hpr with hpr' | hpr''
      · exact (hv1 s).2 (Or.inl ((hinv.visIff s).2 ⟨pr, hpr', hb⟩))
      · rw [List.mem_singleton] at hpr''
        subst hpr''
        exact (hv1 s).2 (Or.inr hb.symm)
  · dsimp only
    intro w hw
    rcases List.mem_append.1 hw with hw' | hw''
    · rcases hinv.pwShape w hw' with ⟨h1, h2, h3⟩
      exact ⟨h1, by rw [hproc]; exact List.mem_append.2 (Or.inl h2), h3⟩
    · rcases List.mem_map.1 hw'' with ⟨w0, hw0, rfl⟩
      refine ⟨by simp, ?_, cs, ?_, ?_⟩
      · rw [hproc, dropLast_concat']
        exact List.mem_append.2 (Or.inr (List.mem_singleton.2 rfl))
      · rw [dropLast_concat']
        exact hsnap
      · rw [basename_concat]
        show widgetDirName w0.shapeId ∈
          (processDocs cs).widgets.map (fun w => widgetDirName w.shapeId)
        exact List.mem_map.2 ⟨w0, hw0, rfl⟩
  · dsimp only
    intro pr hpr cs' hcs' wn hwn
    rw [hproc] at hpr
    rcases List.mem_append.1 hpr with hpr' | hpr''
    · exact List.mem_append.2 (Or.inl (hinv.pwCover pr hpr' cs' hcs' wn hwn))
    · rw [List.mem_singleton] at hpr''
      subst hpr''
      rw [hsnap] at hcs'
      injection hcs' with h3
      injection h3 with h4
      subst h4
      refine List.mem_append.2 (Or.inr ?_)
      have hwn' : wn ∈ (processDocs cs).widgets.map
        (fun w => widgetDirName w.shapeId) := hwn
      rcases List.mem_map.1 hwn' with ⟨w0, hw0, rfl⟩
      exact List.mem_map.2 ⟨w0, hw0, rfl⟩
  · dsimp only
    intro pr hpr cs' hcs' tn htn
    rw [hproc] at hpr
    rcases List.mem_append.1 hpr with hpr' | hpr''
    · rcases hinv.linkHandled pr hpr' cs' hcs' tn htn with h1 | h2
      · exact Or.inl (List.mem_append.2 (Or.inl h1))
      · exact Or.inr ((hv1 tn).2 (Or.inl h2))
    · rw [List.mem_singleton] at hpr''
      subst pr
      rw [hsnap] at hcs'
      injection hcs' with h3
      injection h3 with h4
      subst h4
      by_cases hv : tn ∈ insertNew c.visited (basename p)
      · exact Or.inr hv
      · exact Or.inl (List.mem_append.2 (Or.inr ((hsnd _).2 ⟨tn, htn, rfl, hv⟩)))

/-- `filterMap` respects pointwise equal functions. -/
theorem filterMap_congr_fn {α β : Type} (f g : α → Option β) (l : List α)
    (h : ∀ a ∈ l, f a = g a) : l.filterMap f = l.filterMap g := by
  induction l with
  | nil => rfl
  | cons a rest ih =>
    rw [List.filterMap_cons, List.filterMap_cons, h a (List.mem_cons_self _ _),
      ih (fun x hx => h x (List.mem_cons_of_mem _ hx))]

/-- The enqueue part of the link loop ignores the candidate accumulator. -/
theorem linkFold_snd_indep (p : FPath) (vis : List String) (ls : List ULinkOut) :
    ∀ (a b l : List FPath),
    (ls.foldl (linkStep p vis) (a, l)).2 = (ls.foldl (linkStep p vis) (b, l)).2 := by
  induction ls with
  | nil =>
    intro a b l
    rfl
  | cons x rest ih =>
    intro a b l
    rw [List.foldl_cons, List.foldl_cons]
    rcases hl : x.properties.targetCanvasId with _ | tn
    · rw [show linkStep p vis (a, l) x = (a, l) from by simp [linkStep, hl]]
      rw [show linkStep p vis (b, l) x = (b, l) from by simp [linkStep, hl]]
      exact ih a b l
    · by_cases he : tn = ""
      · rw [show linkStep p vis (a, l) x = (a, l) from by simp [linkStep, hl, he]]
        rw [show linkStep p vis (b, l) x = (b, l) from by simp [linkStep, hl, he]]
        exact ih a b l
      · rw [show linkStep p vis (a, l) x
          = (a.erase (p ++ [tn]), if tn ∈ vis then l else l ++ [p ++ [tn]]) from by
            simp [linkStep, hl, he]]
        rw [show linkStep p vis (b, l) x
          = (b.erase (p ++ [tn]), if tn ∈ vis then l else l ++ [p ++ [tn]]) from by
            simp [linkStep, hl, he]]
        exact ih _ _ _

/-- Lockstep lemma for re-running the traversal on a completed run's final
tree: on the pruned skeleton, the control loop pops the same rooms, visits
the same names, pushes the same paths, protects the same widget paths and
emits the same writes; only the candidate set stays empty throughout. -/
theorem ctrl_lockstep (sk sk1 : Skel) (t : Int) (D : List FPath) (c' : CtrlSt)
    (hsk1 : ∀ q, plookup sk1 q
      = if D.any (fun d => pathHasPre d q) then none else plookup sk q)
    (hDnl : ∀ x ∈ D, ¬ Linked sk x)
    (hQD : ∀ p ∈ c'.pops, D.any (fun d => pathHasPre d p) = false)
    (hChild : ∀ p ∈ procdC sk c'.pops, ∀ n', n' ∈ skChildren sk p →
      (p ++ [n']) ∉ D → Linked sk (p ++ [n'])) :
    ∀ (n : Nat) (c : CtrlSt) (ops : List WOp),
    ctrl sk t n c = CtrlRes.done c' ops → CInv sk c →
    ctrl sk1 t n { c with cand := ([] : List FPath) }
      = CtrlRes.done { c' with cand := ([] : List FPath) } ops := by
  have hpl : ∀ p ∈ c'.pops, plookup sk1 p = plookup sk p := by
    intro p hp
    rw [hsk1 p, hQD p hp, if_neg Bool.false_ne_true]
  have hsnapEq : ∀ p ∈ c'.pops, skSnapAt sk1 p = skSnapAt sk p := by
    intro p hp
    rw [skSnapAt, skSnapAt, hpl p hp]
  have hsnapNone : ∀ q, skSnapAt sk q = none → skSnapAt sk1 q = none := by
    intro q h
    rw [skSnapAt] at h
    rw [skSnapAt, hsk1 q]
    cases hD : D.any (fun d => pathHasPre d q)
    · rw [if_neg Bool.false_ne_true]
      exact h
    · rw [if_pos rfl]
      rfl
  have hexTgt : ∀ p ∈ c'.pops, ∀ cs, skSnapAt sk p = some (some cs) →
      ∀ tn ∈ targetsOf cs, skExists sk1 (p ++ [tn]) = skExists sk (p ++ [tn]) := by
    intro p hp cs hcs tn htn
    rw [skExists, skExists, hsk1]
    cases hD : D.any (fun d => pathHasPre d (p ++ [tn]))
    · rw [if_neg Bool.false_ne_true]
    · exfalso
      rcases List.any_eq_true.1 hD with ⟨d, hd, hpre⟩
      rcases pathHasPre_concat hpre with h1 | h1
      · have h2 : D.any (fun d => pathHasPre d p) = true :=
          List.any_eq_true.2 ⟨d, hd, h1⟩
        rw [hQD p hp] at h2
        cases h2
      · subst h1
        refine hDnl _ hd ⟨cs, ?_, ?_⟩
        · rw [dropLast_concat']
          exact hcs
        · rw [basename_concat]
          exact htn
  have hchild1 : ∀ p ∈ c'.pops, ∀ n', n' ∈ skChildren sk1 p →
      n' ∈ skChildren sk p ∧ (p ++ [n']) ∉ D := by
    intro p hp n' hn'
    rcases skChildren_mem sk1 p n' hn' with ⟨hex1, hr⟩
    rw [skExists, hsk1] at hex1
    cases hD : D.any (fun d => pathHasPre d (p ++ [n']))
    · rw [hD, if_neg Bool.false_ne_true] at hex1
      have hnotD : (p ++ [n']) ∉ D := by
        intro hmem
        have h2 : D.any (fun d => pathHasPre d (p ++ [n'])) = true :=
          List.any_eq_true.2 ⟨_, hmem, pathHasPre_refl _⟩
        rw [hD] at h2
        cases h2
      exact ⟨skChildren_mem_of sk p n' hex1 hr, hnotD⟩
    · rw [hD, if_pos rfl] at hex1
      cases hex1
  have hroomOps : ∀ p ∈ c'.pops, ∀ cs, skSnapAt sk p = some (some cs) →
      roomOps sk1 p (processDocs cs) cs t = roomOps sk p (processDocs cs) cs t := by
    intro p hp cs hcs
    rw [roomOps, roomOps]
    have hC : (processDocs cs).canvasLinks.filterMap (fun l =>
        match l.properties.targetCanvasId with
        | some tn =>
          if tn = "" then none
          else if skExists sk1 (p ++ [tn]) then
            some (WOp.wlink (p ++ [tn]) (genLinkInfo (basename p) l))
          else none
        | none => none)
      = (processDocs cs).canvasLinks.filterMap (fun l =>
        match l.properties.targetCanvasId with
        | some tn =>
          if tn = "" then none
          else if skExists sk (p ++ [tn]) then
            some (WOp.wlink (p ++ [tn]) (genLinkInfo (basename p) l))
          else none
        | none => none) := by
      refine filterMap_congr_fn _ _ _ ?_
      intro l hl
      rcases htc : l.properties.targetCanvasId with _ | tn
      · rfl
      · dsimp only
        by_cases hemp : tn = ""
        · rw [if_pos hemp, if_pos hemp]
        · rw [if_neg hemp, if_neg hemp]
          have htn : tn ∈ targetsOf cs := List.mem_filterMap.2 ⟨l, hl, by
            rw [htc]
            dsimp only
            rw [if_neg hemp]⟩
          rw [hexTgt p hp cs hcs tn htn]
    rw [hC]
  intro n
  induction n with
  | zero =>
    intro c ops hctrl hinv
    rw [ctrl] at hctrl
    by_cases hq : c.queue.isEmpty
    · rw [if_pos hq] at hctrl
      injection hctrl with h1 h2
      subst h1
      subst h2
      rw [ctrl, if_pos (show ({ c with cand := ([] : List FPath) } : CtrlSt).queue.isEmpty
        = true from hq)]
    · rw [if_neg hq] at hctrl
      cases hctrl
  | succ n ih =>
    intro c ops hctrl hinv
    have hfacts := ctrl_done_facts sk t (Nat.succ n) c c' ops hctrl hinv
    rcases hfacts with ⟨_, _, _, hqsub, _, _, _⟩
    rw [ctrl] at hctrl
    rw [ctrl]
    rw [show ({ c with cand := ([] : List FPath) } : CtrlSt).queue = c.queue from rfl]
    rcases hq : c.queue with _ | ⟨p, rest⟩
    · rw [hq] at hctrl
      dsimp only at hctrl
      injection hctrl with h1 h2
      subst h1
      subst h2
      dsimp only
      rw [hq]
    · rw [hq] at hctrl
      dsimp only at hctrl
      dsimp only
      have hp : p ∈ c'.pops := hqsub p (by rw [hq]; exact List.mem_cons_self _ _)
      cases hsnap : skSnapAt sk p with
      | none =>
        rw [hsnap] at hctrl
        rw [hsnapNone p hsnap]
        exact ih _ ops hctrl (CInv_skip_step hinv hq hsnap)
      | some pres =>
        rw [hsnap] at hctrl
        rw [show skSnapAt sk1 p = some pres from (hsnapEq p hp).trans hsnap]
        cases pres with
        | none =>
          dsimp only at hctrl
          cases hctrl
        | some cs =>
          dsimp only at hctrl
          dsimp only
          rcases hfold : (processDocs cs).canvasLinks.foldl
              (linkStep p (insertNew c.visited (basename p)))
              (collectCands p (skChildren sk p) c.cand, []) with ⟨cand2, pushedNew⟩
          rw [hfold] at hctrl
          dsimp only at hctrl
          rcases hfold1 : (processDocs cs).canvasLinks.foldl
              (linkStep p (insertNew c.visited (basename p)))
              (collectCands p (skChildren sk1 p) ([] : List FPath), []) with
            ⟨cand2x, pushedNewx⟩
          dsimp only
          have hpn : pushedNewx = pushedNew := by
            have h2 := linkFold_snd_indep p (insertNew c.visited (basename p))
              (processDocs cs).canvasLinks
              (collectCands p (skChildren sk1 p) ([] : List FPath))
              (collectCands p (skChildren sk p) c.cand) []
            rw [hfold, hfold1] at h2
            exact h2
          have hc2x : cand2x = [] := by
            rw [List.eq_nil_iff_forall_not_mem]
            intro x hx
            have hnd : (collectCands p (skChildren sk1 p) ([] : List FPath)).Nodup :=
              collectCands_nodup _ _ _ List.nodup_nil
            have h2 := linkFold_fst_mem p (insertNew c.visited (basename p))
              (processDocs cs).canvasLinks
              (collectCands p (skChildren sk1 p) ([] : List FPath), []) x hnd
            rw [hfold1] at h2
            rcases h2.1 hx with ⟨hx1, hnt⟩
            rcases (mem_collectCands p _ _ x).1 hx1 with hx0 | ⟨n', hn', rfl⟩
            · cases hx0
            · rcases hchild1 p hp n' hn' with ⟨hnsk, hnotD⟩
              have hL : Linked sk (p ++ [n']) := by
                refine hChild p ?_ n' hnsk hnotD
                exact (mem_procdC sk c'.pops p).2 ⟨hp, cs, hsnap⟩
              rcases hL with ⟨cs0, hcs0, hbn⟩
              rw [dropLast_concat'] at hcs0
              rw [hsnap] at hcs0
              injection hcs0 with h3
              injection h3 with h4
              subst h4
              rw [basename_concat] at hbn
              exact hnt ⟨n', hbn, rfl⟩
          rw [hpn, hc2x]
          split at hctrl
          · rename_i c'' ops'' heq
            injection hctrl with h1 h2
            subst h1
            subst h2
            have hrec := ih _ ops'' heq (CInv_proc_step hinv hq hsnap hfold)
            rw [hrec]
            dsimp only
            rw [hroomOps p hp cs hsnap]
          · cases hctrl
          · cases hctrl

/-- Entries dropped by a filter that contribute nothing can be filtered
before a `filterMap`. -/
theorem filterMap_mem_filter {α β : Type} (f : α → Option β) (q : α → Bool) (l : List α)
    (h : ∀ e ∈ l, q e = false → f e = none) :
    (l.filter q).filterMap f = l.filterMap f := by
  induction l with
  | nil => rfl
  | cons e rest ih =>
    rw [List.filter_cons]
    cases hq : q e
    · rw [if_neg Bool.false_ne_true, List.filterMap_cons, h e (List.mem_cons_self _ _) hq]
      exact ih (fun x hx hqx => h x (List.mem_cons_of_mem _ hx) hqx)
    · rw [if_pos rfl, List.filterMap_cons, List.filterMap_cons]
      cases f e <;> dsimp only <;>
        rw [ih (fun x hx hqx => h x (List.mem_cons_of_mem _ hx) hqx)]

/-- Key-preserving entrywise maps do not change the root-room listing. -/
theorem topRoomNames_mapEntry (fs : Repo) (g : FPath → RoomData → RoomData) :
    topRoomNames (fs.map (fun e => (e.1, g e.1 e.2))) = topRoomNames fs := by
  rw [topRoomNames, topRoomNames, List.filterMap_map]
  rfl

/-- A completed run's cleanups never touch the top-level room listing. -/
theorem topRoomNames_run_final (fs : Repo) (pw D : List FPath) (ops : List WOp)
    (hD : ∀ d ∈ D, 2 ≤ d.length) :
    topRoomNames (cleanupRooms D (cleanupWidgets pw (applyOps fs ops)))
      = topRoomNames fs := by
  have h1 : topRoomNames (cleanupRooms D (cleanupWidgets pw (applyOps fs ops)))
      = topRoomNames (cleanupWidgets pw (applyOps fs ops)) := by
    rw [topRoomNames, cleanupRooms, topRoomNames]
    refine filterMap_mem_filter _ _ _ ?_
    intro e _ hq
    have hany : D.any (fun d => pathHasPre d e.1) = true := by
      cases hA : D.any (fun d => pathHasPre d e.1)
      · rw [hA] at hq
        cases hq
      · rfl
    rcases List.any_eq_true.1 hany with ⟨d, hd, hpre⟩
    rw [pathHasPre, decide_eq_true_iff] at hpre
    have hlen : 2 ≤ e.1.length := by
      have h2 := congrArg List.length hpre
      rw [List.length_take] at h2
      have h3 := hD d hd
      omega
    rcases he : e.1 with _ | ⟨a, _ | ⟨b, r⟩⟩ <;>
      first
      | rfl
      | (rw [he] at hlen; simp at hlen)
  rw [h1, cleanupWidgets_eq, topRoomNames_mapEntry, applyOps_entrywise,
    topRoomNames_mapEntry]

/-- The room collector with no candidates left deletes nothing. -/
theorem cleanupRooms_nil (fs : Repo) : cleanupRooms [] fs = fs := by
  rw [cleanupRooms]
  exact List.filter_eq_self.2 (fun e _ => rfl)

/-! ## Claim C8 -/

/-- C8 (amended): with the metadata timestamp held fixed, a completed
unpack run is idempotent: running the unpacker a second time on the tree the
first run left behind rewrites every file with identical content and deletes
nothing, reproducing exactly the same tree. -/
theorem c8_second_run_fixed_point (fuel : Nat) (t : Int) (fs : Repo) (root : String)
    (c' : CtrlSt) (ops : List WOp)
    (hroot : topRoomNames fs = [root])
    (hct : ctrl (skelOf fs) t fuel (initCtrl root) = CtrlRes.done c' ops) :
    run fuel t fs = some (0, cleanupRooms c'.cand (cleanupWidgets c'.pw (applyOps fs ops))) ∧
    run fuel t (cleanupRooms c'.cand (cleanupWidgets c'.pw (applyOps fs ops)))
      = some (0, cleanupRooms c'.cand (cleanupWidgets c'.pw (applyOps fs ops))) := by
  rcases ctrl_done_facts (skelOf fs) t fuel (initCtrl root) c' ops hct (CInv_init _ root)
    with ⟨hinv', _, ⟨suf, hsuf, hops⟩, _, _, _, _⟩
  have hpops : c'.pops = suf := hsuf
  have hops2 : ops = c'.pops.bind (opsOfRoom (skelOf fs) t) := by
    rw [hpops]
    exact hops
  have hD2 : ∀ d ∈ c'.cand, 2 ≤ d.length := by
    intro d hd
    rcases hinv'.candShape d hd with ⟨hne, hdrop, _, _⟩
    have h1 : d.dropLast ∈ c'.pops := List.mem_of_mem_filter hdrop
    have h2 : d.dropLast ≠ [] := (hinv'.popsChain _ h1).1
    have h3 : 1 ≤ d.dropLast.length := List.length_pos.2 h2
    rw [List.length_dropLast] at h3
    omega
  have hskel1 : skelOf (cleanupRooms c'.cand (cleanupWidgets c'.pw (applyOps fs ops)))
      = (skelOf fs).filter (fun e => !(c'.cand.any (fun d => pathHasPre d e.1))) := by
    rw [skelOf_cleanupRooms, skelOf_cleanupWidgets, skelOf_applyOps]
  have hsk1 : ∀ q,
      plookup (skelOf (cleanupRooms c'.cand (cleanupWidgets c'.pw (applyOps fs ops)))) q
      = if c'.cand.any (fun d => pathHasPre d q) then none else plookup (skelOf fs) q := by
    intro q
    rw [hskel1, plookup_filter (skelOf fs)
      (fun q => !(c'.cand.any (fun d => pathHasPre d q))) q]
    cases hA : c'.cand.any (fun d => pathHasPre d q) <;> simp [hA]
  have hQD : ∀ p ∈ c'.pops, c'.cand.any (fun d => pathHasPre d p) = false := by
    intro p hp
    rcases hinv'.popsChain p hp with ⟨hne, hwc⟩
    rw [List.any_eq_false]
    intro d hd
    rw [candNoPre hinv' hne hwc d hd]
    exact Bool.false_ne_true
  have hChild : ∀ p ∈ procdC (skelOf fs) c'.pops, ∀ n', n' ∈ skChildren (skelOf fs) p →
      (p ++ [n']) ∉ c'.cand → Linked (skelOf fs) (p ++ [n']) := by
    intro p hpr n' hn' hnc
    by_contra hnl
    exact hnc (hinv'.candCover p hpr n' hn' hnl)
  have hWall : ∀ q n f, (n, f) ∈ widgetOpsFor ops q →
      (!(strStarts n "widget-") || decide ((q ++ [n]) ∈ c'.pw)) = true := by
    intro q n f hnf
    have hop : WOp.wwidget q n f ∈ ops := (mem_widgetOpsFor ops q n f).1 hnf
    rw [hops2] at hop
    rcases List.mem_bind.1 hop with ⟨p', hp', hin⟩
    rcases wwidget_mem_opsOfRoom hin with ⟨hqp, cs, hcs, w, hw, hn, _⟩
    have hwn : n ∈ widgetNamesOf cs := by
      rw [hn]
      exact List.mem_map.2 ⟨w, hw, rfl⟩
    have hpw : (p' ++ [n]) ∈ c'.pw := hinv'.pwCover p'
      ((mem_procdC _ _ _).2 ⟨hp', cs, hcs⟩) cs hcs n hwn
    rw [hqp]
    simp [hpw]
  have hct1 : ctrl (skelOf (cleanupRooms c'.cand (cleanupWidgets c'.pw (applyOps fs ops))))
      t fuel (initCtrl root) = CtrlRes.done { c' with cand := ([] : List FPath) } ops :=
    ctrl_lockstep (skelOf fs) _ t c'.cand c' hsk1 hinv'.candNL hQD hChild fuel
      (initCtrl root) ops hct (CInv_init _ root)
  have hrootF : topRoomNames (cleanupRooms c'.cand (cleanupWidgets c'.pw (applyOps fs ops)))
      = [root] := by
    rw [topRoomNames_run_final fs c'.pw c'.cand ops hD2]
    exact hroot
  refine ⟨run_eq_of_ctrl_done fuel t fs root c' ops hroot hct, ?_⟩
  have h9 := run_eq_of_ctrl_done fuel t
    (cleanupRooms c'.cand (cleanupWidgets c'.pw (applyOps fs ops))) root
    { c' with cand := ([] : List FPath) } ops hrootF hct1
  rw [h9]
  rw [show ({ c' with cand := ([] : List FPath) } : CtrlSt).cand = ([] : List FPath)
    from rfl]
  rw [show ({ c' with cand := ([] : List FPath) } : CtrlSt).pw = c'.pw from rfl]
  rw [cleanupRooms_nil]
  rw [cleanup_absorb c'.pw c'.cand ops fs hWall]

/-- The control result of the idempotence scenario run on `repoW`. -/
def c8res : CtrlRes := ctrl (skelOf repoW) 0 5 (initCtrl "room-W")

/-- Its final control state. -/
def c8c : CtrlSt :=
  match c8res with
  | CtrlRes.done c _ => c
  | CtrlRes.aborted c _ => c
  | CtrlRes.outOfFuel c _ => c

/-- Its emitted writes. -/
def c8ops : List WOp :=
  match c8res with
  | CtrlRes.done _ o => o
  | CtrlRes.aborted _ o => o
  | CtrlRes.outOfFuel _ o => o

/-- Witness for C8 on the concrete scenario `repoW` at fixed time 0. -/
theorem c8_second_run_fixed_point_witness :
    run 5 0 repoW
      = some (0, cleanupRooms c8c.cand (cleanupWidgets c8c.pw (applyOps repoW c8ops))) ∧
    run 5 0 (cleanupRooms c8c.cand (cleanupWidgets c8c.pw (applyOps repoW c8ops)))
      = some (0, cleanupRooms c8c.cand (cleanupWidgets c8c.pw (applyOps repoW c8ops))) :=
  c8_second_run_fixed_point 5 0 repoW "room-W" c8c c8ops rfl rfl
